import Mathlib

/-!
# AionChainCode: certificates and universities on a key-value ledger

A shallow embedding of the chaincode's four Go source files
(`aioncc.go`, `lib.go`, `write_ledger.go`, `read_ledger.go`) and theorems
about it.

Conventions of the embedding.

* Go strings and byte slices are lists of bytes (`Str`, `Bytes`), a byte
  written as the character with that code, so that an ASCII literal is its
  own bytes; text beyond ASCII is its UTF-8 bytes, and a list need not be
  valid UTF-8. A character above `0xFF` is no byte: it is treated as a byte
  that belongs to no UTF-8 sequence. `len(s) == 0` is `s = []`.
* The ledger stub (`shim.ChaincodeStubInterface`) is an explicit state
  `Stub`: a world state, per-key fault oracles for `GetState` and
  `PutState`, a version history per key, and a log of the calls made.
  Handlers take a stub and return the response with the stub afterwards.
* `encoding/json` is modelled by `json.scan` (the scanner: a pushdown
  automaton over the input, as in Go) followed by a decode of the scanned
  value into the target struct with Go's rules (case-insensitive keys,
  a value of the wrong JSON type leaves the field as it was, `null` leaves a
  string or struct as it was and sets a slice to nil). Both directions
  follow Go on bytes that are not UTF-8: `json.Marshal` writes such a byte as
  the escape of U+FFFD, and a string stored into a field has each such byte
  replaced by U+FFFD.
  Handlers discard the error of `json.Unmarshal`, so the model returns the
  target only.
* A Go slice is `Option (List _)`: `none` is the nil slice. A slice is its
  elements: spare capacity and the sharing of a backing array between copies
  of a struct are not modelled. This bears on the element values of a
  certificates list decoded more than once into the same variable (a key
  repeated in one text, or the versions that `getHistory` decodes one after
  the other); no statement below is about such values.
* `PutState` takes effect in the world state at once, and a handler that
  returns an error after a successful put leaves that put in place (the
  store of the spec: `put(key, bytes) -> ok | failure`).
-/

namespace AionChainCode

/-- A Go `string`: its bytes. -/
abbrev Str := List Char

/-- A Go `[]byte`. -/
abbrev Bytes := List Char

/-! ## unicode/utf8 -/

namespace utf8

/-- A continuation byte: `0x80` to `0xBF`. -/
def isCont (c : Char) : Bool :=
  0x80 ≤ c.toNat && c.toNat ≤ 0xBF

/-- The second byte of a sequence that starts with `c0` (the table
`acceptRanges`): a continuation byte, in a narrower range after `0xE0`,
`0xED`, `0xF0` and `0xF4`. -/
def second (c0 c1 : Char) : Bool :=
  if c0.toNat = 0xE0 then 0xA0 ≤ c1.toNat && c1.toNat ≤ 0xBF
  else if c0.toNat = 0xED then 0x80 ≤ c1.toNat && c1.toNat ≤ 0x9F
  else if c0.toNat = 0xF0 then 0x90 ≤ c1.toNat && c1.toNat ≤ 0xBF
  else if c0.toNat = 0xF4 then 0x80 ≤ c1.toNat && c1.toNat ≤ 0x8F
  else isCont c1

/-- The number of bytes that follow the first byte `c0` of a sequence (the
table `first`); `none` when `c0` starts no sequence. -/
def following (c0 : Char) : Option Nat :=
  if c0.toNat < 0x80 then some 0
  else if 0xC2 ≤ c0.toNat ∧ c0.toNat ≤ 0xDF then some 1
  else if 0xE0 ≤ c0.toNat ∧ c0.toNat ≤ 0xEF then some 2
  else if 0xF0 ≤ c0.toNat ∧ c0.toNat ≤ 0xF4 then some 3
  else none

/-- The bytes after the first byte `c0` are those of a valid sequence. -/
def tailValid (c0 : Char) : List Char → Bool
  | [] => true
  | c1 :: more => second c0 c1 && more.all isCont

/-- The width `utf8.DecodeRune` reports at the head of `s`, with 0 where it
reports `RuneError` (the first byte is replaced and the decoding goes on at
the next byte). -/
def width : Str → Nat
  | [] => 0
  | c0 :: rest =>
    match following c0 with
    | none => 0
    | some n => if n ≤ rest.length ∧ tailValid c0 (rest.take n) = true then n + 1 else 0

/-- The bytes of U+FFFD. -/
def replacement : Str :=
  [Char.ofNat 0xEF, Char.ofNat 0xBF, Char.ofNat 0xBD]

/-- The text `s` read rune by rune and written back, after `k` bytes that
belong to the rune being copied. -/
def toValidFrom : Nat → Str → Str
  | _, [] => []
  | k + 1, c :: rest => c :: toValidFrom k rest
  | 0, c :: rest =>
    match width (c :: rest) with
    | 0 => replacement ++ toValidFrom 0 rest
    | n + 1 => c :: toValidFrom n rest

/-- The text `s` with each byte that belongs to no valid UTF-8 sequence
replaced by U+FFFD: what a decode with `utf8.DecodeRune` followed by
`utf8.EncodeRune` makes of it. -/
def toValid (s : Str) : Str :=
  toValidFrom 0 s

/-- The call `utf8.EncodeRune` on the rune `r`. -/
def encodeRune (r : Nat) : Str :=
  if r < 0x80 then [Char.ofNat r]
  else if r < 0x800 then [Char.ofNat (0xC0 + r / 64), Char.ofNat (0x80 + r % 64)]
  else if (0xD800 ≤ r ∧ r < 0xE000) ∨ 0x10FFFF < r then replacement
  else if r < 0x10000 then
    [Char.ofNat (0xE0 + r / 4096), Char.ofNat (0x80 + r / 64 % 64),
      Char.ofNat (0x80 + r % 64)]
  else
    [Char.ofNat (0xF0 + r / 262144), Char.ofNat (0x80 + r / 4096 % 64),
      Char.ofNat (0x80 + r / 64 % 64), Char.ofNat (0x80 + r % 64)]

end utf8

/-! ## encoding/json: scanner -/

namespace json

/-- A scanned JSON value. A string is kept with its escapes resolved, its
other bytes as they are in the text. Numbers keep no value: no target field
of this program is numeric, so a number is only ever a type mismatch. -/
inductive JVal where
  | null
  | bool (b : Bool)
  | num
  | str (s : Str)
  | arr (elems : List JVal)
  | obj (members : List (Str × JVal))

/-- The scanner's parse stack: the containers being read. -/
inductive Frame where
  | arr (elems : List JVal)
  | obj (members : List (Str × JVal)) (key : Option Str)

/-- The scanner's step states (`stateBeginValue`, `stateInString`, ... in
`scanner.go`), with the text decoded so far where one is being read. -/
inductive Mode where
  | beginValue
  | beginValueOrEmpty
  | beginString
  | beginStringOrEmpty
  | endValue
  | colon
  | inString (acc : Str) (hi : Option Nat)
  | inStringEsc (acc : Str) (hi : Option Nat)
  | inStringEscU (acc : Str) (hi : Option Nat) (digits : List Nat)
  | neg
  | zero
  | digits
  | dot
  | dot0
  | exp
  | expSign
  | exp0
  | lit (v : JVal) (rest : List Char)
  | endTop (v : JVal)

structure State where
  mode : Mode
  stack : List Frame

def isSpace (c : Char) : Bool :=
  c = ' ' || c = '\t' || c = '\r' || c = '\n'

def isDigit (c : Char) : Bool :=
  '0' ≤ c && c ≤ '9'

def hexVal (c : Char) : Option Nat :=
  if '0' ≤ c && c ≤ '9' then some (c.toNat - 48)
  else if 'a' ≤ c && c ≤ 'f' then some (c.toNat - 87)
  else if 'A' ≤ c && c ≤ 'F' then some (c.toNat - 55)
  else none

/-- The text owed for a pending high surrogate that found no partner. -/
def flush (hi : Option Nat) : Str :=
  match hi with
  | some _ => utf8.replacement
  | none => []

/-- A completed value is handed to the enclosing container
(`stateEndValue` bookkeeping); an object key is a string. -/
def deliver (v : JVal) : List Frame → Option State
  | [] => some ⟨.endTop v, []⟩
  | .arr es :: st => some ⟨.endValue, .arr (es ++ [v]) :: st⟩
  | .obj ms (some k) :: st => some ⟨.endValue, .obj (ms ++ [(k, v)]) none :: st⟩
  | .obj ms none :: st =>
    match v with
    | .str k => some ⟨.colon, .obj ms (some k) :: st⟩
    | _ => none

/-- The scanner after a value (`stateEndValue`) and after the top-level
value (`stateEndTop`). -/
def stepEnd (s : State) (c : Char) : Option State :=
  if isSpace c then some s
  else
    match s.mode, s.stack with
    | .endValue, .arr es :: st =>
      if c = ',' then some ⟨.beginValue, .arr es :: st⟩
      else if c = ']' then deliver (.arr es) st
      else none
    | .endValue, .obj ms none :: st =>
      if c = ',' then some ⟨.beginString, .obj ms none :: st⟩
      else if c = '}' then deliver (.obj ms) st
      else none
    | .colon, .obj ms (some k) :: st =>
      if c = ':' then some ⟨.beginValue, .obj ms (some k) :: st⟩ else none
    | _, _ => none

/-- The scanner at the start of a value (`stateBeginValue`). -/
def stepBegin (st : List Frame) (c : Char) : Option State :=
  if c = '{' then some ⟨.beginStringOrEmpty, .obj [] none :: st⟩
  else if c = '[' then some ⟨.beginValueOrEmpty, .arr [] :: st⟩
  else if c = '"' then some ⟨.inString [] none, st⟩
  else if c = '-' then some ⟨.neg, st⟩
  else if c = '0' then some ⟨.zero, st⟩
  else if c = 't' then some ⟨.lit (.bool true) ['r', 'u', 'e'], st⟩
  else if c = 'f' then some ⟨.lit (.bool false) ['a', 'l', 's', 'e'], st⟩
  else if c = 'n' then some ⟨.lit .null ['u', 'l', 'l'], st⟩
  else if isDigit c then some ⟨.digits, st⟩
  else none

/-- A number ends at the first character that cannot continue it; that
character is then read in the state after a value. -/
def endNumber (st : List Frame) (c : Char) : Option State :=
  match deliver .num st with
  | some s => stepEnd s c
  | none => none

/-- The rune of a `\uXXXX` escape with value `r`, given a pending high
surrogate: the text to append and the surrogate pending afterwards. -/
def escapeRune (hi : Option Nat) (r : Nat) : Str × Option Nat :=
  match hi with
  | some h =>
    if 0xDC00 ≤ r ∧ r < 0xE000 then
      (utf8.encodeRune ((h - 0xD800) * 0x400 + (r - 0xDC00) + 0x10000), none)
    else if 0xD800 ≤ r ∧ r < 0xDC00 then (utf8.replacement, some r)
    else (utf8.replacement ++ utf8.encodeRune r, none)
  | none =>
    if 0xD800 ≤ r ∧ r < 0xDC00 then ([], some r)
    else if 0xDC00 ≤ r ∧ r < 0xE000 then (utf8.replacement, none)
    else (utf8.encodeRune r, none)

/-- The character a one-letter escape stands for. -/
def simpleEscape (c : Char) : Option Char :=
  if c = 'b' then some (Char.ofNat 8)
  else if c = 'f' then some (Char.ofNat 12)
  else if c = 'n' then some '\n'
  else if c = 'r' then some '\r'
  else if c = 't' then some '\t'
  else if c = '\\' then some '\\'
  else if c = '/' then some '/'
  else if c = '"' then some '"'
  else none

/-- One step of the scanner on one character; `none` is a syntax error. -/
def step (s : State) (c : Char) : Option State :=
  match s.mode with
  | .beginValue => if isSpace c then some s else stepBegin s.stack c
  | .beginValueOrEmpty =>
    if isSpace c then some s
    else if c = ']' then
      match s.stack with
      | .arr es :: st => deliver (.arr es) st
      | _ => none
    else stepBegin s.stack c
  | .beginString =>
    if isSpace c then some s
    else if c = '"' then some ⟨.inString [] none, s.stack⟩
    else none
  | .beginStringOrEmpty =>
    if isSpace c then some s
    else if c = '}' then
      match s.stack with
      | .obj ms none :: st => deliver (.obj ms) st
      | _ => none
    else if c = '"' then some ⟨.inString [] none, s.stack⟩
    else none
  | .endValue => stepEnd s c
  | .colon => stepEnd s c
  | .endTop _ => stepEnd s c
  | .inString acc hi =>
    if c = '"' then deliver (.str (acc ++ flush hi)) s.stack
    else if c = '\\' then some ⟨.inStringEsc acc hi, s.stack⟩
    else if c.toNat < 0x20 then none
    else some ⟨.inString (acc ++ flush hi ++ [c]) none, s.stack⟩
  | .inStringEsc acc hi =>
    if c = 'u' then some ⟨.inStringEscU acc hi [], s.stack⟩
    else
      match simpleEscape c with
      | some e => some ⟨.inString (acc ++ flush hi ++ [e]) none, s.stack⟩
      | none => none
  | .inStringEscU acc hi ds =>
    match hexVal c with
    | none => none
    | some d =>
      match ds with
      | [d1, d2, d3] =>
        let p := escapeRune hi (((d1 * 16 + d2) * 16 + d3) * 16 + d)
        some ⟨.inString (acc ++ p.1) p.2, s.stack⟩
      | _ => some ⟨.inStringEscU acc hi (ds ++ [d]), s.stack⟩
  | .neg =>
    if c = '0' then some ⟨.zero, s.stack⟩
    else if isDigit c then some ⟨.digits, s.stack⟩
    else none
  | .digits => if isDigit c then some s else
    if c = '.' then some ⟨.dot, s.stack⟩
    else if c = 'e' || c = 'E' then some ⟨.exp, s.stack⟩
    else endNumber s.stack c
  | .zero =>
    if c = '.' then some ⟨.dot, s.stack⟩
    else if c = 'e' || c = 'E' then some ⟨.exp, s.stack⟩
    else endNumber s.stack c
  | .dot => if isDigit c then some ⟨.dot0, s.stack⟩ else none
  | .dot0 =>
    if isDigit c then some s
    else if c = 'e' || c = 'E' then some ⟨.exp, s.stack⟩
    else endNumber s.stack c
  | .exp =>
    if c = '+' || c = '-' then some ⟨.expSign, s.stack⟩
    else if isDigit c then some ⟨.exp0, s.stack⟩
    else none
  | .expSign => if isDigit c then some ⟨.exp0, s.stack⟩ else none
  | .exp0 => if isDigit c then some s else endNumber s.stack c
  | .lit v rest =>
    match rest with
    | [] => none
    | [e] => if c = e then deliver v s.stack else none
    | e :: more => if c = e then some ⟨.lit v more, s.stack⟩ else none

/-- The scanner run over a text. -/
def run : State → List Char → Option State
  | s, [] => some s
  | s, c :: cs =>
    match step s c with
    | some s1 => run s1 cs
    | none => none

/-- End of input (`scanner.eof`): a number still being read is ended as by
a space; the input is valid when the top-level value is complete. -/
def eof (s : State) : Option JVal :=
  match step s ' ' with
  | some ⟨.endTop v, []⟩ => some v
  | _ => none

/-- The value of a JSON text, `none` on a syntax error (`checkValid`). -/
def scan (data : Bytes) : Option JVal :=
  match run ⟨.beginValue, []⟩ data with
  | some s => eof s
  | none => none

end json

/-! ## Asset definitions (aioncc.go) -/

structure UniversityRelation where
  Id : Str
  Dean : Str
  Name : Str
deriving DecidableEq, Repr

structure Certificate where
  ObjectType : Str
  Id : Str
  Name : Str
  Document : Str
  Body : Str
  City : Str
  Date : Str
  University : UniversityRelation
deriving DecidableEq, Repr

structure University where
  ObjectType : Str
  Id : Str
  Dean : Str
  UniversityName : Str
  Document : Str
  Certificates : Option (List Str)
deriving DecidableEq, Repr

/-- The zero value of `UniversityRelation`. -/
def UniversityRelation.zero : UniversityRelation := ⟨[], [], []⟩

/-- The zero value of `Certificate` (`var certificate Certificate`). -/
def Certificate.zero : Certificate := ⟨[], [], [], [], [], [], [], UniversityRelation.zero⟩

/-- The zero value of `University` (`var university University`). -/
def University.zero : University := ⟨[], [], [], [], [], none⟩

/-! ## encoding/json: decoding into the asset structs -/

namespace json

/-- One byte of a field name against one byte of a key, as the decoder
folds case: equal, or the same ASCII letter in the other case. -/
def foldCharEq (n k : Char) : Bool :=
  n = k
    || (('a' ≤ n && n ≤ 'z') && k.toNat + 32 = n.toNat)
    || (('A' ≤ n && n ≤ 'Z') && k.toNat = n.toNat + 32)

/-- A field name against a key (`equalFold`): byte by byte under
`foldCharEq`, and the long s (U+017F, bytes `C5 BF`) in the key for `s` and
the Kelvin sign (U+212A, bytes `E2 84 AA`) for `k`. -/
def foldEq : Str → Str → Bool
  | [], [] => true
  | n :: ns, k :: ks =>
    if k.toNat < 0x80 then foldCharEq n k && foldEq ns ks
    else if n = 's' ∨ n = 'S' then
      match k :: ks with
      | a :: b :: ks2 => a.toNat = 0xC5 && b.toNat = 0xBF && foldEq ns ks2
      | _ => false
    else if n = 'k' ∨ n = 'K' then
      match k :: ks with
      | a :: b :: c :: ks2 =>
        a.toNat = 0xE2 && b.toNat = 0x84 && c.toNat = 0xAA && foldEq ns ks2
      | _ => false
    else false
  | _, _ => false

/-- The string a literal stands for (`unquote`): the scanned text with each
byte that belongs to no valid UTF-8 sequence replaced by U+FFFD. The text
an escape stands for is valid UTF-8 and its first byte continues no
sequence, so the replacements are those of the bytes between the escapes. -/
def unquote (s : Str) : Str :=
  utf8.toValid s

/-- The field a key selects: the exact name if there is one, else the first
name equal under case folding. -/
def findField (names : List Str) (key : Str) : Option Nat :=
  match names.indexOf? (unquote key) with
  | some i => some i
  | none => names.findIdx? (fun n => foldEq n (unquote key))

/-- A JSON value into a string target. -/
def decodeString (old : Str) : JVal → Str
  | .str s => unquote s
  | _ => old

/-- The elements of a JSON array into the elements of a slice: an element
that is not a string leaves what the slice held at that index, and past the
slice's length that is the empty string (an element that an earlier, longer
decode left in the spare capacity is not modelled: it takes a text with the
same key three times). -/
def decodeElems : List Str → List JVal → List Str
  | _, [] => []
  | old, v :: vs => decodeString (old.headD []) v :: decodeElems old.tail vs

/-- A JSON value into a `[]string` target. -/
def decodeStrings (old : Option (List Str)) : JVal → Option (List Str)
  | .null => none
  | .arr vs => some (decodeElems (old.getD []) vs)
  | _ => old

def universityFields : List Str :=
  ["docType".toList, "id".toList, "dean".toList, "universityname".toList,
   "document".toList, "certifcates".toList]

def certificateFields : List Str :=
  ["docType".toList, "id".toList, "name".toList, "document".toList,
   "body".toList, "city".toList, "date".toList, "university".toList]

def relationFields : List Str :=
  ["id".toList, "dean".toList, "name".toList]

/-- One object member into a `University`. -/
def setUniversity (u : University) (m : Str × JVal) : University :=
  match findField universityFields m.1 with
  | some 0 => { u with ObjectType := decodeString u.ObjectType m.2 }
  | some 1 => { u with Id := decodeString u.Id m.2 }
  | some 2 => { u with Dean := decodeString u.Dean m.2 }
  | some 3 => { u with UniversityName := decodeString u.UniversityName m.2 }
  | some 4 => { u with Document := decodeString u.Document m.2 }
  | some 5 => { u with Certificates := decodeStrings u.Certificates m.2 }
  | _ => u

/-- One object member into a `UniversityRelation`. -/
def setRelation (r : UniversityRelation) (m : Str × JVal) : UniversityRelation :=
  match findField relationFields m.1 with
  | some 0 => { r with Id := decodeString r.Id m.2 }
  | some 1 => { r with Dean := decodeString r.Dean m.2 }
  | some 2 => { r with Name := decodeString r.Name m.2 }
  | _ => r

/-- A JSON value into a `UniversityRelation` target. -/
def decodeRelation (old : UniversityRelation) : JVal → UniversityRelation
  | .obj ms => ms.foldl setRelation old
  | _ => old

/-- One object member into a `Certificate`. -/
def setCertificate (c : Certificate) (m : Str × JVal) : Certificate :=
  match findField certificateFields m.1 with
  | some 0 => { c with ObjectType := decodeString c.ObjectType m.2 }
  | some 1 => { c with Id := decodeString c.Id m.2 }
  | some 2 => { c with Name := decodeString c.Name m.2 }
  | some 3 => { c with Document := decodeString c.Document m.2 }
  | some 4 => { c with Body := decodeString c.Body m.2 }
  | some 5 => { c with City := decodeString c.City m.2 }
  | some 6 => { c with Date := decodeString c.Date m.2 }
  | some 7 => { c with University := decodeRelation c.University m.2 }
  | _ => c

/-- The call `json.Unmarshal(data, &university)`, its error discarded: on a
syntax error, or when the text is not an object, the target is left as it
was. -/
def UnmarshalUniversity (data : Bytes) (u : University) : University :=
  match scan data with
  | some (.obj ms) => ms.foldl setUniversity u
  | _ => u

/-- The call `json.Unmarshal(data, &certificate)`, its error discarded. -/
def UnmarshalCertificate (data : Bytes) (c : Certificate) : Certificate :=
  match scan data with
  | some (.obj ms) => ms.foldl setCertificate c
  | _ => c

/-! ## encoding/json: encoding -/

def hexDigit (d : Nat) : Char :=
  if d < 10 then Char.ofNat (48 + d) else Char.ofNat (87 + d)

/-- One ASCII byte of a string in the encoder's output: quote and backslash
are escaped, as are line feed, carriage return and tab; the other control
characters and the HTML characters are written as `\u` and four hexadecimal
digits. -/
def escapeChar (c : Char) : Str :=
  if c = '"' then ['\\', '"']
  else if c = '\\' then ['\\', '\\']
  else if c = '\n' then ['\\', 'n']
  else if c = '\r' then ['\\', 'r']
  else if c = '\t' then ['\\', 't']
  else if c.toNat < 0x20 || c = '<' || c = '>' || c = '&' then
    ['\\', 'u', hexDigit (c.toNat / 4096 % 16), hexDigit (c.toNat / 256 % 16),
      hexDigit (c.toNat / 16 % 16), hexDigit (c.toNat % 16)]
  else [c]

/-- The digit `8` or `9` when `s` starts with the bytes of the line
separator U+2028 or of the paragraph separator U+2029. -/
def lineSeparator (s : Str) : Option Char :=
  if s.take 3 = [Char.ofNat 0xE2, Char.ofNat 0x80, Char.ofNat 0xA8] then some '8'
  else if s.take 3 = [Char.ofNat 0xE2, Char.ofNat 0x80, Char.ofNat 0xA9] then some '9'
  else none

/-- The bytes of a string in the encoder's output, after `k` bytes that
belong to the rune at hand (`keep`: they are copied, else they were written
as an escape): an ASCII byte by `escapeChar`, a byte that belongs to no valid
UTF-8 sequence as the escape of U+FFFD, the two separators as their escapes,
and every other rune as its bytes. -/
def escapeFrom : Nat → Bool → Str → Str
  | _, _, [] => []
  | k + 1, keep, c :: rest => (if keep then [c] else []) ++ escapeFrom k keep rest
  | 0, _, c :: rest =>
    if c.toNat < 0x80 then escapeChar c ++ escapeFrom 0 true rest
    else
      match utf8.width (c :: rest) with
      | 0 => ['\\', 'u', 'f', 'f', 'f', 'd'] ++ escapeFrom 0 true rest
      | n + 1 =>
        match lineSeparator (c :: rest) with
        | some d => ['\\', 'u', '2', '0', '2', d] ++ escapeFrom n false rest
        | none => c :: escapeFrom n true rest

/-- A Go string as a JSON string. -/
def quote (s : Str) : Str :=
  '"' :: (escapeFrom 0 true s ++ ['"'])

/-- The texts of the elements of an array, comma separated. -/
def joinComma : List Str → Str
  | [] => []
  | [t] => t
  | t :: ts => t ++ ',' :: joinComma ts

/-- A `[]string` as JSON: `null` for the nil slice. -/
def encodeStrings : Option (List Str) → Str
  | none => "null".toList
  | some ss => '[' :: (joinComma (ss.map quote) ++ [']'])

/-- A struct as JSON: its fields in declaration order. -/
def encodeObject (fields : List (Str × Str)) : Str :=
  '{' :: (joinComma (fields.map (fun f => quote f.1 ++ ':' :: f.2)) ++ ['}'])

def encodeRelation (r : UniversityRelation) : Str :=
  encodeObject [("id".toList, quote r.Id), ("dean".toList, quote r.Dean),
    ("name".toList, quote r.Name)]

/-- The call `json.Marshal(certificate)`. -/
def MarshalCertificate (c : Certificate) : Bytes :=
  encodeObject [("docType".toList, quote c.ObjectType), ("id".toList, quote c.Id),
    ("name".toList, quote c.Name), ("document".toList, quote c.Document),
    ("body".toList, quote c.Body), ("city".toList, quote c.City),
    ("date".toList, quote c.Date), ("university".toList, encodeRelation c.University)]

/-- The call `json.Marshal(university)`. -/
def MarshalUniversity (u : University) : Bytes :=
  encodeObject [("docType".toList, quote u.ObjectType), ("id".toList, quote u.Id),
    ("dean".toList, quote u.Dean), ("universityname".toList, quote u.UniversityName),
    ("document".toList, quote u.Document),
    ("certifcates".toList, encodeStrings u.Certificates)]

/-- A signed integer in decimal (`int64` fields). -/
def encodeInt : Int → Str
  | .ofNat n => Nat.toDigits 10 n
  | .negSucc n => '-' :: Nat.toDigits 10 (n + 1)

end json

/-! ## The ledger stub (shim.ChaincodeStubInterface) -/

/-- A peer response: `shim.Success(payload)` or `shim.Error(message)`. -/
inductive Response where
  | Success (payload : Bytes)
  | Error (message : Str)
deriving DecidableEq, Repr

deriving instance DecidableEq for Except

/-- A Go `error`: nil or a message. -/
abbrev error := Option Str

/-- One version of a key in the ledger's history
(`queryresult.KeyModification`); `Timestamp` is its seconds. A deletion has
`IsDelete` set and no value. -/
structure KeyModification where
  TxId : Str
  Value : Bytes
  Timestamp : Int
  IsDelete : Bool
deriving DecidableEq, Repr

/-- A call made on the stub. -/
inductive Call where
  | GetState (key : Str)
  | PutState (key : Str) (value : Bytes)
  | GetHistoryForKey (key : Str)
  | Close (key : Str)
deriving DecidableEq, Repr

/-- The stub a handler runs against. `state` is the world state, a key
never written holding no bytes; the ledger stores nothing under the empty
key (`PutState` rejects it). `getError` and `putError` say on which keys the
store reports a failure. `history key` is what the history iterator of
`key` yields, oldest first: a version, or the error of that `Next()`.
`calls` logs the calls made, oldest first. -/
structure Stub where
  state : Str → Bytes
  getError : Str → error
  putError : Str → Bytes → error
  historyError : Str → error
  history : Str → List (Except Str KeyModification)
  calls : List Call
  state_nil : state [] = []

/-- The call `stub.GetState(key)`. -/
def Stub.GetState (stub : Stub) (key : Str) : Except Str Bytes × Stub :=
  (match stub.getError key with
   | some e => .error e
   | none => .ok (stub.state key),
   { stub with calls := stub.calls ++ [.GetState key] })

/-- The call `stub.PutState(key, value)`: a failed put leaves the world
state as it was. -/
def Stub.PutState (stub : Stub) (key : Str) (value : Bytes) : error × Stub :=
  if h : key = [] then
    (some "key must not be an empty string".toList,
     { stub with calls := stub.calls ++ [.PutState key value] })
  else
    match stub.putError key value with
    | some e => (some e, { stub with calls := stub.calls ++ [.PutState key value] })
    | none =>
      (none,
       { stub with
         state := fun k => if k = key then value else stub.state k
         calls := stub.calls ++ [.PutState key value]
         state_nil := by simp [Ne.symm h, stub.state_nil] })

/-- The call `stub.GetHistoryForKey(key)`: the iterator, as the list of
what its `Next()` calls return. -/
def Stub.GetHistoryForKey (stub : Stub) (key : Str) :
    Except Str (List (Except Str KeyModification)) × Stub :=
  (match stub.historyError key with
   | some e => .error e
   | none => .ok (stub.history key),
   { stub with calls := stub.calls ++ [.GetHistoryForKey key] })

/-- The deferred `resultsIterator.Close()`. -/
def Stub.Close (stub : Stub) (key : Str) : Stub :=
  { stub with calls := stub.calls ++ [.Close key] }

/-- The call `strconv.Itoa(i)` on an index. -/
def Itoa (i : Nat) : Str := Nat.toDigits 10 i

/-- The expression `args[i]` once the length of `args` has been checked. -/
def arg (args : List Str) (i : Nat) : Str := args.getD i []

/-- Go's `append` on a slice that may be nil. -/
def append {α : Type} (s : Option (List α)) (x : α) : Option (List α) :=
  some (s.getD [] ++ [x])

/-- Go's `len` on a slice that may be nil. -/
def len {α : Type} (s : Option (List α)) : Nat := (s.getD []).length

/-! ## lib.go -/

/-- The loop of `sanitize_arguments` from index `i` on. -/
def sanitize_arguments.loop (i : Nat) : List Str → error
  | [] => none
  | val :: rest =>
    if val.length ≤ 0 then
      some ("Argument ".toList ++ Itoa i ++ " must be a non-empty string".toList)
    else sanitize_arguments.loop (i + 1) rest

/-- Input sanitation: look for empty strings. -/
def sanitize_arguments (strs : List Str) : error :=
  sanitize_arguments.loop 0 strs

/-- Get a certificate asset from the ledger. -/
def get_certificate (stub : Stub) (id : Str) : Except Str Certificate × Stub :=
  match stub.GetState id with
  | (.error _, stub) => (.error ("Failed to find certificate - ".toList ++ id), stub)
  | (.ok certificateAsBytes, stub) =>
    let certificate := json.UnmarshalCertificate certificateAsBytes Certificate.zero
    if certificate.Id ≠ id then
      (.error ("Certificate does not exist - ".toList ++ id), stub)
    else (.ok certificate, stub)

/-- Get the university asset from the ledger. -/
def get_university (stub : Stub) (id : Str) : Except Str University × Stub :=
  match stub.GetState id with
  | (.error _, stub) => (.error ("Failed to get university - ".toList ++ id), stub)
  | (.ok universityAsBytes, stub) =>
    let university := json.UnmarshalUniversity universityAsBytes University.zero
    if university.UniversityName.length = 0 then
      (.error ("University does not exist - ".toList ++ id ++ ", '".toList
        ++ university.UniversityName ++ "' '".toList ++ university.UniversityName
        ++ "'".toList), stub)
    else (.ok university, stub)

/-! ## write_ledger.go -/

/-- Generic write of a variable into the ledger. -/
def write (stub : Stub) (args : List Str) : Response × Stub :=
  if args.length ≠ 2 then
    (.Error ("Incorrect number of arguments. Expecting 2. key of the variable "
      ++ "and value to set").toList, stub)
  else
    match sanitize_arguments args with
    | some err => (.Error err, stub)
    | none =>
      let key := arg args 0
      let value := arg args 1
      match stub.PutState key value with
      | (some err, stub) => (.Error err, stub)
      | (none, stub) => (.Success [], stub)

/-- The certificate JSON text `init_cert` builds by hand: `id`, `name` and
the university fields between quotes, `document`, `body`, `city` and `date`
as they come. -/
def certificateText (id name document body city date university_id dean uname : Str) :
    Str :=
  "\x7b\n\t\t\"docType\":\"certificate\",\n\t\t\"id\": \"".toList ++ id
  ++ "\",\n\t\t\"name\": \"".toList ++ name
  ++ "\",\n\t\t\"document\": ".toList ++ document
  ++ ",\n\t\t\"body\": ".toList ++ body
  ++ ",\n\t\t\"city\": ".toList ++ city
  ++ ",\n\t\t\"date\": ".toList ++ date
  ++ ",\n\t\t\"university\": \x7b\n\t\t\t\"id\": \"".toList ++ university_id
  ++ "\",\n\t\t\t\"dean\": \"".toList ++ dean
  ++ "\",\n\t\t\t\"name\": \"".toList ++ uname
  ++ "\"\n\t\t\x7d\n\t\x7d".toList

/-- Create a new certificate, store it into the chaincode state. -/
def init_cert (stub : Stub) (args : List Str) : Response × Stub :=
  if args.length ≠ 8 then
    (.Error "Incorrect number of arguments. Expecting 8".toList, stub)
  else
    match sanitize_arguments args with
    | some err => (.Error err, stub)
    | none =>
      let id := arg args 0
      let name := arg args 1
      let document := arg args 2
      let body := arg args 3
      let city := arg args 4
      let date := arg args 5
      let university_id := arg args 6
      let university_doc := arg args 7
      -- check if university exists
      match get_university stub university_id with
      | (.error err, stub) => (.Error err, stub)
      | (.ok university, stub) =>
        -- check university document
        if university.Document ≠ university_doc then
          (.Error ("The university '".toList ++ university.UniversityName
            ++ "' cannot authorize creation for university '".toList ++ university_doc
            ++ "'.".toList), stub)
        else
          -- check if certificate id already exists
          match get_certificate stub id with
          | (.ok _, stub) =>
            (.Error ("This certificate already exists - ".toList ++ id), stub)
          | (.error _, stub) =>
            let str := certificateText id name document body city date university_id
              university.Dean university.UniversityName
            -- store certificate with id as key
            match stub.PutState id str with
            | (some err, stub) => (.Error err, stub)
            | (none, stub) =>
              -- add current certificate to known certificates
              let university :=
                { university with Certificates := append university.Certificates id }
              let universityAsBytes := json.MarshalUniversity university
              -- store university by its Id
              match stub.PutState university.Id universityAsBytes with
              | (some err, stub) => (.Error err, stub)
              | (none, stub) => (.Success [], stub)

/-- Create a new university, store it into the chaincode state. -/
def init_university (stub : Stub) (args : List Str) : Response × Stub :=
  if args.length ≠ 4 then
    (.Error "Incorrect number of arguments. Expecting 4".toList, stub)
  else
    match sanitize_arguments args with
    | some err => (.Error err, stub)
    | none =>
      let university : University :=
        { University.zero with
          ObjectType := "university".toList
          Id := arg args 0
          Dean := arg args 1
          UniversityName := arg args 2
          Document := arg args 3 }
      -- check if university already exists
      match get_university stub university.Id with
      | (.ok _, stub) =>
        (.Error ("This university already exists - ".toList ++ university.Id), stub)
      | (.error _, stub) =>
        let universityAsBytes := json.MarshalUniversity university
        -- store university by its Id
        match stub.PutState university.Id universityAsBytes with
        | (some err, stub) => (.Error err, stub)
        | (none, stub) => (.Success [], stub)

/-- Set the dean of a university. -/
def set_dean (stub : Stub) (args : List Str) : Response × Stub :=
  if args.length ≠ 3 then
    (.Error "Incorrect number of arguments. Expecting 3".toList, stub)
  else
    match sanitize_arguments args with
    | some err => (.Error err, stub)
    | none =>
      let university_id := arg args 0
      let old_dean := arg args 1
      let new_dean := arg args 2
      -- check if new_dean is equals to old_dean
      if old_dean = new_dean then
        (.Error ("Old dean (".toList ++ old_dean ++ ") is equal to new dean (".toList
          ++ new_dean ++ ")".toList), stub)
      else
        -- retrieves university
        match get_university stub university_id with
        | (.error err, stub) => (.Error err, stub)
        | (.ok university, stub) =>
          -- check if provided old dean is diferent from state saved current dean
          if university.Dean ≠ old_dean then
            (.Error "Provided old dean isn't the current dean".toList, stub)
          -- check if provided new dean is equal to state saved current dean
          else if university.Dean = new_dean then
            (.Error "Provided new dean is the current dean".toList, stub)
          else
            -- change dean
            let university := { university with Dean := new_dean }
            let jsonAsBytes := json.MarshalUniversity university
            -- rewrite the university with id as key
            match stub.PutState (arg args 0) jsonAsBytes with
            | (some err, stub) => (.Error err, stub)
            | (none, stub) => (.Success [], stub)

/-! ## read_ledger.go -/

/-- Read a generic variable from the ledger. -/
def read (stub : Stub) (args : List Str) : Response × Stub :=
  if args.length ≠ 1 then
    (.Error "Incorrect number of arguments. Expecting key of the var to query".toList,
      stub)
  else
    match sanitize_arguments args with
    | some err => (.Error err, stub)
    | none =>
      let key := arg args 0
      match stub.GetState key with
      | (.error _, stub) =>
        (.Error ("\x7b\"Error\":\"Failed to get state for ".toList ++ key
          ++ "\"\x7d".toList), stub)
      | (.ok valAsbytes, stub) => (.Success valAsbytes, stub)

/-- The struct `Everything` of `read_all_certificates_from_university`. -/
structure Everything where
  Certificates : Option (List Certificate)
deriving DecidableEq, Repr

/-- The call `json.Marshal(everything)`. -/
def json.MarshalEverything (everything : Everything) : Bytes :=
  json.encodeObject [("certificates".toList,
    match everything.Certificates with
    | none => "null".toList
    | some cs => '[' :: (json.joinComma (cs.map json.MarshalCertificate) ++ [']']))]

/-- The loop over `university.Certificates`: `none` when a certificate could
not be retrieved. -/
def read_all_certificates_from_university.loop (stub : Stub) (everything : Everything) :
    List Str → Option Everything × Stub
  | [] => (some everything, stub)
  | item :: rest =>
    match get_certificate stub item with
    | (.error _, stub) => (none, stub)
    | (.ok certificate, stub) =>
      read_all_certificates_from_university.loop stub
        { everything with Certificates := append everything.Certificates certificate } rest

/-- Get all certificates from a university. -/
def read_all_certificates_from_university (stub : Stub) (args : List Str) :
    Response × Stub :=
  if args.length ≠ 1 then
    (.Error "Incorrect number of arguments. Expecting key of the var to query".toList,
      stub)
  else
    match sanitize_arguments args with
    | some err => (.Error err, stub)
    | none =>
      -- get university
      match get_university stub (arg args 0) with
      | (.error err, stub) => (.Error err, stub)
      | (.ok university, stub) =>
        match
          (if len university.Certificates > 0 then
            read_all_certificates_from_university.loop stub ⟨none⟩
              (university.Certificates.getD [])
          else (some ⟨none⟩, stub)) with
        | (none, stub) =>
          (.Error "An error occurred while retrieving certificates".toList, stub)
        | (some everything, stub) => (.Success (json.MarshalEverything everything), stub)

/-- The struct `AuditHistory` of `getHistory`. -/
structure AuditHistory where
  TxId : Str
  Value : University
  Timestamp : Int
deriving DecidableEq, Repr

def json.encodeAuditHistory (tx : AuditHistory) : Str :=
  json.encodeObject [("txId".toList, json.quote tx.TxId),
    ("value".toList, json.MarshalUniversity tx.Value),
    ("timestamp".toList, json.encodeInt tx.Timestamp)]

/-- The call `json.Marshal(history)`. -/
def json.MarshalHistory : Option (List AuditHistory) → Bytes
  | none => "null".toList
  | some txs => '[' :: (json.joinComma (txs.map json.encodeAuditHistory) ++ [']'])

/-- The loop of `getHistory` over what the iterator yields. `university` is
declared once, before the loop, and every version is decoded into it.
The test `historicValue == nil` comes after `historicValue.TxId` and
`historicValue.Value` have been read, so for an entry the iterator returned
it is false and the branch taken is the one that decodes and copies
`university`. -/
def getHistory.loop (university : University) (history : Option (List AuditHistory)) :
    List (Except Str KeyModification) → Except Str (Option (List AuditHistory))
  | [] => .ok history
  | .error err :: _ => .error err
  | .ok historicValue :: rest =>
    let university := json.UnmarshalUniversity historicValue.Value university
    let university := json.UnmarshalUniversity historicValue.Value university
    let tx : AuditHistory :=
      { TxId := historicValue.TxId
        Value := university
        Timestamp := historicValue.Timestamp }
    getHistory.loop university (append history tx) rest

/-- Get the history of a university. -/
def getHistory (stub : Stub) (args : List Str) : Response × Stub :=
  if args.length ≠ 1 then
    (.Error "Incorrect number of arguments. Expecting 1".toList, stub)
  else
    let university_id := arg args 0
    match stub.GetHistoryForKey university_id with
    | (.error err, stub) => (.Error err, stub)
    | (.ok resultsIterator, stub) =>
      match getHistory.loop University.zero none resultsIterator with
      | .error err => (.Error err, stub.Close university_id)
      | .ok history => (.Success (json.MarshalHistory history), stub.Close university_id)

/-! ## aioncc.go: Init and Invoke -/

/-- The call `strconv.Atoi(s)`: an optional sign and decimal digits, in the
range of a 64-bit `int`; `none` is its error. -/
def Atoi (s : Str) : Option Int :=
  let negative := s.head? = some '-'
  let ds := if s.head? = some '-' ∨ s.head? = some '+' then s.tail else s
  if ds = [] ∨ ¬ ds.all json.isDigit then none
  else
    let n : Nat := ds.foldl (fun a c => 10 * a + (c.toNat - 48)) 0
    if negative then (if n ≤ 2 ^ 63 then some (-(n : Int)) else none)
    else (if n < 2 ^ 63 then some (n : Int) else none)

/-- Initialize the chaincode: write the self-test variable. The arguments
are those of `stub.GetFunctionAndParameters()`. -/
def Init (stub : Stub) (args : List Str) : Response × Stub :=
  if args.length ≠ 1 then
    (.Error "Incorrect number of arguments. Expecting 1".toList, stub)
  else
    -- convert numeric string to integer
    match Atoi (arg args 0) with
    | none => (.Error "Expecting a numeric string argument to Init()".toList, stub)
    | some Aval =>
      match stub.PutState "selftest".toList (json.encodeInt Aval) with
      | (some err, stub) => (.Error err, stub)
      | (none, stub) => (.Success [], stub)

/-- The entry point for invocations; `function` and `args` are those of
`stub.GetFunctionAndParameters()`. -/
def Invoke (stub : Stub) (function : Str) (args : List Str) : Response × Stub :=
  if function = "init".toList then Init stub args
  else if function = "read".toList then read stub args
  else if function = "write".toList then write stub args
  else if function = "init_cert".toList then init_cert stub args
  else if function = "set_dean".toList then set_dean stub args
  else if function = "init_university".toList then init_university stub args
  else if function = "read_everything".toList then
    read_all_certificates_from_university stub args
  else if function = "getUniversityHistory".toList then getHistory stub args
  else
    (.Error ("Received unknown invoke function name - '".toList ++ function ++ "'".toList),
      stub)

/-! ## encoding/json: the error of Unmarshal -/

namespace json

/-- Whether a JSON value into a string target is a type mismatch
(`UnmarshalTypeError`): anything but a string or `null`. -/
def mismatchString : JVal → Bool
  | .str _ => false
  | .null => false
  | _ => true

/-- Whether a JSON value into a `[]string` target is a type mismatch: not
an array or `null`, or an array with an element that mismatches. -/
def mismatchStrings : JVal → Bool
  | .null => false
  | .arr vs => vs.any mismatchString
  | _ => true

/-- Whether one object member is a type mismatch for a `University`; a key
that names no field is skipped. -/
def mismatchUniversity (m : Str × JVal) : Bool :=
  match findField universityFields m.1 with
  | some 5 => mismatchStrings m.2
  | some _ => mismatchString m.2
  | none => false

/-- Whether `json.Unmarshal(data, &university)` returns an error: a syntax
error, or a type mismatch somewhere (the fields that match are decoded all
the same). -/
def UnmarshalUniversityFails (data : Bytes) : Bool :=
  match scan data with
  | none => true
  | some (.obj ms) => ms.any mismatchUniversity
  | some .null => false
  | some _ => true

end json

/-! ## Sequences of calls -/

/-- A call of one of the three handlers that create or update records. -/
inductive Op where
  | university (args : List Str)
  | cert (args : List Str)
  | dean (args : List Str)

/-- The stub after one call. -/
def Op.run (stub : Stub) : Op → Stub
  | .university args => (init_university stub args).2
  | .cert args => (init_cert stub args).2
  | .dean args => (set_dean stub args).2

/-- The stub after a sequence of calls, first to last. -/
def runOps (stub : Stub) (ops : List Op) : Stub :=
  ops.foldl Op.run stub

/-! ## Sample ledgers and arguments -/

/-- The empty ledger: nothing stored, no faults, no history. -/
def emptyLedger : Stub :=
  { state := fun _ => []
    getError := fun _ => none
    putError := fun _ _ => none
    historyError := fun _ => none
    history := fun _ => []
    calls := []
    state_nil := rfl }

/-- The registration of the spec's scenario. -/
def argsU1 : List Str :=
  ["u1".toList, "Ana".toList, "State U".toList, "111".toList]

/-- The issuance of the spec's scenario. -/
def argsC1 : List Str :=
  ["c1".toList, "Bob".toList, "555".toList, "body".toList, "City".toList, "2024".toList,
   "u1".toList, "111".toList]

/-- An issuance whose `document`, `body`, `city` and `date` arguments are
JSON string literals themselves. -/
def argsQuoted : List Str :=
  ["c2".toList, "Bob".toList, "\"555\"".toList, "\"body\"".toList, "\"City\"".toList,
   "\"2024\"".toList, "u1".toList, "111".toList]

/-- The university of the spec's scenario as registered. -/
def universityU1 : University :=
  ⟨"university".toList, "u1".toList, "Ana".toList, "State U".toList, "111".toList, none⟩

/-- The ledger after `init_university` on the empty ledger. -/
def ledgerU1 : Stub := (init_university emptyLedger argsU1).2

/-- The ledger after `init_university` and `init_cert` of the scenario. -/
def ledgerC1 : Stub := (init_cert ledgerU1 argsC1).2

/-- The ledger after `init_university` and the issuance `argsQuoted`. -/
def ledgerQuoted : Stub := (init_cert ledgerU1 argsQuoted).2

/-- The certificate `get_certificate` reads back after `argsQuoted`. -/
def certificateQuoted : Certificate :=
  ⟨"certificate".toList, "c2".toList, "Bob".toList, "555".toList, "body".toList,
   "City".toList, "2024".toList, ⟨"u1".toList, "Ana".toList, "State U".toList⟩⟩

/-- A university record whose `id` field is not the key it is stored
under, put there with the generic `write`. -/
def strayRecord : Bytes :=
  "\x7b\"id\":\"zz\",\"universityname\":\"N\",\"document\":\"111\"\x7d".toList

/-- The ledger after `write` stored `strayRecord` under key `u1`. -/
def strayLedger : Stub := (write emptyLedger ["u1".toList, strayRecord]).2

/-- The university `strayRecord` decodes to. -/
def strayUniversity : University :=
  ⟨[], "zz".toList, [], "N".toList, "111".toList, none⟩

/-- An empty ledger whose `PutState` fails on key `u1`. -/
def putFaultLedger : Stub :=
  { emptyLedger with
    putError := fun k _ => if k = "u1".toList then some "put failed".toList else none }

/-- An empty ledger whose `GetState` fails on key `u1`. -/
def getFaultLedger : Stub :=
  { emptyLedger with
    getError := fun k => if k = "u1".toList then some "get failed".toList else none }

/-- A ledger whose history of key `u1` is one write of `universityU1`
followed by a deletion. -/
def deletedLedger : Stub :=
  { emptyLedger with
    history := fun k =>
      if k = "u1".toList then
        [.ok ⟨"tx1".toList, json.MarshalUniversity universityU1, 100, false⟩,
         .ok ⟨"tx2".toList, [], 200, true⟩]
      else [] }

/-- A university record with a number where the dean should be, put there
with the generic `write`. -/
def mismatchRecord : Bytes :=
  "\x7b\"universityname\":\"X\",\"dean\":5\x7d".toList

/-- The ledger after `write` stored `mismatchRecord` under key `u7`. -/
def mismatchLedger : Stub := (write emptyLedger ["u7".toList, mismatchRecord]).2

/-- A certificate record whose `id` field is not the key it is stored under. -/
def strayCertificate : Bytes := "\x7b\"id\":\"zz\"\x7d".toList

/-- The ledger after `write` stored `strayCertificate` under key `c9`. -/
def strayCertLedger : Stub := (write emptyLedger ["c9".toList, strayCertificate]).2

/-- An issuance whose certificate id is the university's key. -/
def argsOwnKey : List Str :=
  ["u1".toList, "Bob".toList, "555".toList, "body".toList, "City".toList, "2024".toList,
   "u1".toList, "111".toList]

/-- The ledger `strayLedger` with a `PutState` that fails on key `zz`. -/
def strayPutFaultLedger : Stub :=
  { strayLedger with
    putError := fun k _ => if k = "zz".toList then some "put failed".toList else none }

/-- The ledger `ledgerU1` with a `GetState` that fails on key `c1` and a
`PutState` that fails on key `u1`. -/
def partialFaultLedger : Stub :=
  { ledgerU1 with
    getError := fun k => if k = "c1".toList then some "get failed".toList else none
    putError := fun k _ => if k = "u1".toList then some "put failed".toList else none }

/-- The ledger `ledgerU1` with a `PutState` that fails on key `u1`. -/
def secondPutFaultLedger : Stub :=
  { ledgerU1 with
    putError := fun k _ => if k = "u1".toList then some "put failed".toList else none }

/-- A ledger whose history of key `u1` is one version that is no JSON. -/
def undecodableLedger : Stub :=
  { emptyLedger with
    history := fun k =>
      if k = "u1".toList then [.ok ⟨"tx1".toList, "not json".toList, 100, false⟩]
      else [] }

/-- A university record with a name and nothing else, as the generic
`write` can store it. -/
def namedRecord : Bytes := "\x7b\"universityname\":\"B\"\x7d".toList

/-- A ledger whose history of key `u1` is a write of `universityU1`
followed by a write of `namedRecord`. -/
def carryLedger : Stub :=
  { emptyLedger with
    history := fun k =>
      if k = "u1".toList then
        [.ok ⟨"tx1".toList, json.MarshalUniversity universityU1, 100, false⟩,
         .ok ⟨"tx2".toList, namedRecord, 200, false⟩]
      else [] }

/-- An issuance whose `body` argument closes its JSON value and goes on
with members of its own. -/
def argsInject : List Str :=
  ["c1".toList, "Bob".toList, "1".toList,
   "\"x\",\"universityname\":\"Evil\",\"id\":\"other\",\"document\":\"d\"".toList,
   "2".toList, "3".toList, "u1".toList, "111".toList]

/-- An issuance that names key `c1` as its university. -/
def argsViaC1 : List Str :=
  ["c9".toList, "Bob".toList, "1".toList, "2".toList, "3".toList, "4".toList,
   "c1".toList, "d".toList]

/-- The university that the certificate text stored by `argsInject` decodes
to. -/
def injectedUniversity : University :=
  ⟨"certificate".toList, "other".toList, [], "Evil".toList, "d".toList, none⟩

/-- An issuance whose certificate id is the single byte `0xFF`, which is no
UTF-8. -/
def argsBadId : List Str :=
  [[Char.ofNat 0xFF], "Bob".toList, "1".toList, "2".toList, "3".toList, "4".toList,
   "u1".toList, "111".toList]

/-- A registration whose dean is the single byte `0xFF`. -/
def argsBadDean : List Str :=
  ["u1".toList, [Char.ofNat 0xFF], "State U".toList, "111".toList]

/-- An issuance whose `body` argument closes its JSON value and goes on
with members `universityname` and `dean`: the text stored under `c1`
resolves as a certificate and as a university. -/
def argsInjectDean : List Str :=
  ["c1".toList, "Bob".toList, "1".toList,
   "\"x\",\"universityname\":\"Evil\",\"dean\":\"Old\"".toList,
   "2".toList, "3".toList, "u1".toList, "111".toList]

/-- An issuance whose `body` argument closes its JSON value and goes on
with members `universityname`, `id` (the registered key `u1`) and
`document`. -/
def argsInjectU1 : List Str :=
  ["c1".toList, "Bob".toList, "1".toList,
   "\"x\",\"universityname\":\"Evil\",\"id\":\"u1\",\"document\":\"d\"".toList,
   "2".toList, "3".toList, "u1".toList, "111".toList]

/-- A registration under the key that is the single byte `0xFF`. -/
def argsBadKey : List Str :=
  [[Char.ofNat 0xFF], "Ana".toList, "N".toList, "1".toList]

/-- An issuance whose certificate id and university id are the key of
`argsBadKey`. -/
def argsOnBadKey : List Str :=
  [[Char.ofNat 0xFF], "Bob".toList, "1".toList, "2".toList, "3".toList, "4".toList,
   [Char.ofNat 0xFF], "1".toList]

/-- The ledger `ledgerU1` with a `PutState` that fails on key `c1`. -/
def firstPutFaultLedger : Stub :=
  { ledgerU1 with
    putError := fun k _ => if k = "c1".toList then some "put failed".toList else none }

/-- The handler `set_dean` without its check "Provided new dean is the
current dean" (write_ledger.go lines 256 to 259): `set_dean` as it reads
with those lines deleted, to compare the two. -/
def set_dean_unchecked (stub : Stub) (args : List Str) : Response × Stub :=
  if args.length ≠ 3 then
    (.Error "Incorrect number of arguments. Expecting 3".toList, stub)
  else
    match sanitize_arguments args with
    | some err => (.Error err, stub)
    | none =>
      let university_id := arg args 0
      let old_dean := arg args 1
      let new_dean := arg args 2
      if old_dean = new_dean then
        (.Error ("Old dean (".toList ++ old_dean ++ ") is equal to new dean (".toList
          ++ new_dean ++ ")".toList), stub)
      else
        match get_university stub university_id with
        | (.error err, stub) => (.Error err, stub)
        | (.ok university, stub) =>
          if university.Dean ≠ old_dean then
            (.Error "Provided old dean isn't the current dean".toList, stub)
          else
            let university := { university with Dean := new_dean }
            let jsonAsBytes := json.MarshalUniversity university
            match stub.PutState (arg args 0) jsonAsBytes with
            | (some err, stub) => (.Error err, stub)
            | (none, stub) => (.Success [], stub)

/-! ## Reading back what the encoder wrote: definitions -/

namespace json

/-- The text `t` is read as the value `v` wherever a value may start. -/
def Renders (t : Str) (v : JVal) : Prop :=
  ∀ (st : List Frame) (rest : List Char),
    (run ⟨.beginValue, st⟩ (t ++ rest) = (deliver v st).bind (fun s => run s rest))
    ∧ (run ⟨.beginValueOrEmpty, st⟩ (t ++ rest) = (deliver v st).bind (fun s => run s rest))

/-- The value a `[]string` is written as: an invalid byte was written as the
escape of U+FFFD. -/
def stringsValue : Option (List Str) → JVal
  | none => .null
  | some ss => .arr (ss.map (fun s => JVal.str (utf8.toValid s)))

end json

/-- The text `s` is valid UTF-8: no byte of it is replaced. -/
def utf8.Valid (s : Str) : Prop :=
  utf8.toValid s = s

instance (s : Str) : Decidable (utf8.Valid s) :=
  inferInstanceAs (Decidable (utf8.toValid s = s))

/-- The university `u` with each byte of its strings that belongs to no valid
UTF-8 sequence replaced by U+FFFD. -/
def University.toValid (u : University) : University :=
  { ObjectType := utf8.toValid u.ObjectType
    Id := utf8.toValid u.Id
    Dean := utf8.toValid u.Dean
    UniversityName := utf8.toValid u.UniversityName
    Document := utf8.toValid u.Document
    Certificates := u.Certificates.map (List.map utf8.toValid) }

/-! ## UTF-8: lemmas -/

namespace utf8

theorem toValidFrom_unroll (k : Nat) (s : Str) :
    toValidFrom k s = s.take k ++ toValidFrom 0 (s.drop k) := by
  induction s generalizing k with
  | nil => cases k <;> simp [toValidFrom]
  | cons c rest ih =>
    cases k with
    | zero => simp
    | succ k =>
      simp only [toValidFrom, List.take_succ_cons, List.drop_succ_cons, List.cons_append]
      rw [ih]

theorem width_pos (c : Char) (rest : Str) (n : Nat) (h : width (c :: rest) = n + 1) :
    following c = some n ∧ n ≤ rest.length ∧ tailValid c (rest.take n) = true := by
  simp only [width] at h
  cases hf : following c with
  | none => rw [hf] at h; simp at h
  | some m =>
    rw [hf] at h
    simp only at h
    split at h
    · rename_i hc
      have : m = n := by omega
      subst this
      exact ⟨rfl, hc.1, hc.2⟩
    · simp at h

theorem width_prefix (c : Char) (rest Y : Str) (n : Nat) (h : width (c :: rest) = n + 1) :
    width (c :: (rest.take n ++ Y)) = n + 1 := by
  obtain ⟨hf, hl, ht⟩ := width_pos c rest n h
  simp only [width, hf]
  have h1 : n ≤ (rest.take n ++ Y).length := by
    rw [List.length_append, List.length_take]
    omega
  have h2 : (rest.take n ++ Y).take n = rest.take n := by
    rw [List.take_append_eq_append_take, List.take_take, min_self, List.length_take,
      Nat.min_eq_left hl, Nat.sub_self, List.take_zero, List.append_nil]
  rw [h2, if_pos ⟨h1, ht⟩]

theorem toValid_cons_valid (c : Char) (rest : Str) (n : Nat) (h : width (c :: rest) = n + 1) :
    toValid (c :: rest) = c :: (rest.take n ++ toValid (rest.drop n)) := by
  unfold toValid
  rw [toValidFrom, h]
  simp only
  rw [toValidFrom_unroll]

theorem toValid_cons_invalid (c : Char) (rest : Str) (h : width (c :: rest) = 0) :
    toValid (c :: rest) = replacement ++ toValid rest := by
  unfold toValid
  rw [toValidFrom, h]

theorem toValid_replacement (Y : Str) : toValid (replacement ++ Y) = replacement ++ toValid Y := by
  have h : width (Char.ofNat 0xEF :: ([Char.ofNat 0xBF, Char.ofNat 0xBD] ++ Y)) = 2 + 1 :=
    width_prefix (Char.ofNat 0xEF) [Char.ofNat 0xBF, Char.ofNat 0xBD] Y 2 (by decide)
  have := toValid_cons_valid _ _ 2 h
  simpa [replacement] using this

theorem toValid_nil : toValid [] = [] := rfl

/-- Replacing the invalid bytes of a text that has none changes nothing. -/
theorem toValid_idem (s : Str) : toValid (toValid s) = toValid s := by
  obtain ⟨m, hn⟩ : ∃ m, s.length = m := ⟨_, rfl⟩
  induction m using Nat.strong_induction_on generalizing s with
  | _ m ih =>
    cases s with
    | nil => rfl
    | cons c rest =>
      cases hw : width (c :: rest) with
      | zero =>
        rw [toValid_cons_invalid c rest hw, toValid_replacement,
          ih rest.length (by simp at hn; omega) rest rfl]
      | succ n =>
        have hl := (width_pos c rest n hw).2.1
        rw [toValid_cons_valid c rest n hw]
        have hp := width_prefix c rest (toValid (rest.drop n)) n hw
        rw [toValid_cons_valid _ _ n hp]
        have h2 : (rest.take n ++ toValid (rest.drop n)).take n = rest.take n := by
          rw [List.take_append_eq_append_take, List.take_take, min_self, List.length_take,
            Nat.min_eq_left hl, Nat.sub_self, List.take_zero, List.append_nil]
        have h3 : (rest.take n ++ toValid (rest.drop n)).drop n = toValid (rest.drop n) := by
          rw [List.drop_append_eq_append_drop, List.length_take, Nat.min_eq_left hl,
            Nat.sub_self, List.drop_zero]
          rw [List.drop_eq_nil_of_le (by rw [List.length_take]; omega), List.nil_append]
        rw [h2, h3, ih (rest.drop n).length (by simp at hn ⊢; omega) _ rfl]

theorem toValid_eq_nil (s : Str) : toValid s = [] ↔ s = [] := by
  constructor
  · intro h
    cases s with
    | nil => rfl
    | cons c rest =>
      cases hw : width (c :: rest) with
      | zero =>
        rw [toValid_cons_invalid c rest hw] at h
        simp [replacement] at h
      | succ n =>
        rw [toValid_cons_valid c rest n hw] at h
        cases h
  · intro h
    subst h
    rfl

end utf8

/-! ## The scanner on the encoder's output -/

namespace json

theorem run_append (s : State) (a b : List Char) :
    run s (a ++ b) = (run s a).bind (fun s1 => run s1 b) := by
  induction a generalizing s with
  | nil => simp [run]
  | cons c cs ih =>
    simp only [List.cons_append, run]
    cases step s c with
    | none => simp
    | some s1 => simpa using ih s1

theorem hexVal_hexDigit : ∀ d, d < 16 → hexVal (hexDigit d) = some d := by decide

theorem run_hex (c : Char) (acc : Str) (st : List Frame)
    (h : c.toNat < 0x20 ∨ c = '<' ∨ c = '>' ∨ c = '&') :
    run ⟨.inString acc none, st⟩
      ['\\', 'u', hexDigit (c.toNat / 4096 % 16), hexDigit (c.toNat / 256 % 16),
        hexDigit (c.toNat / 16 % 16), hexDigit (c.toNat % 16)]
      = some ⟨.inString (acc ++ [c]) none, st⟩ := by
  have hn : c.toNat < 0x20 ∨ c.toNat = 60 ∨ c.toNat = 62 ∨ c.toNat = 38 := by
    rcases h with h | h | h | h
    · exact Or.inl h
    · subst h; right; left; rfl
    · subst h; right; right; left; rfl
    · subst h; right; right; right; rfl
  have e1 := hexVal_hexDigit (c.toNat / 4096 % 16) (Nat.mod_lt _ (by decide))
  have e2 := hexVal_hexDigit (c.toNat / 256 % 16) (Nat.mod_lt _ (by decide))
  have e3 := hexVal_hexDigit (c.toNat / 16 % 16) (Nat.mod_lt _ (by decide))
  have e4 := hexVal_hexDigit (c.toNat % 16) (Nat.mod_lt _ (by decide))
  have hv : ((c.toNat / 4096 % 16 * 16 + c.toNat / 256 % 16) * 16 + c.toNat / 16 % 16) * 16
      + c.toNat % 16 = c.toNat := by omega
  have hr : escapeRune none c.toNat = ([c], none) := by
    have a1 : ¬ (0xD800 ≤ c.toNat ∧ c.toNat < 0xDC00) := by omega
    have a2 : ¬ (0xDC00 ≤ c.toNat ∧ c.toNat < 0xE000) := by omega
    have a3 : c.toNat < 0x80 := by omega
    simp only [escapeRune, utf8.encodeRune, a1, a2, a3, if_false, if_true, Char.ofNat_toNat]
  simp [run, step, simpleEscape, e1, e2, e3, e4, hv, hr]

theorem run_escapeChar (c : Char) (acc : Str) (st : List Frame) :
    run ⟨.inString acc none, st⟩ (escapeChar c) = some ⟨.inString (acc ++ [c]) none, st⟩ := by
  unfold escapeChar
  split_ifs with h1 h2 h3 h4 h5 h6
  · subst h1; simp [run, step, simpleEscape, flush]
  · subst h2; simp [run, step, simpleEscape, flush]
  · subst h3; simp [run, step, simpleEscape, flush]
  · subst h4; simp [run, step, simpleEscape, flush]
  · subst h5; simp [run, step, simpleEscape, flush]
  · apply run_hex
    simpa [Bool.or_eq_true, or_assoc] using h6
  · have h7 : ¬ c.toNat < 0x20 := by
      intro h; exact h6 (by simp [h])
    simp [run, step, h1, h2, h7, flush]

theorem run_raw (bs acc : Str) (st : List Frame) (h : ∀ b ∈ bs, 0x80 ≤ b.toNat) :
    run ⟨.inString acc none, st⟩ bs = some ⟨.inString (acc ++ bs) none, st⟩ := by
  induction bs generalizing acc with
  | nil => simp [run]
  | cons b bs ih =>
    have hb : 0x80 ≤ b.toNat := h b (by simp)
    have h1 : b ≠ '"' := by
      intro e; subst e; revert hb; decide
    have h2 : b ≠ '\\' := by
      intro e; subst e; revert hb; decide
    have h3 : ¬ b.toNat < 0x20 := by omega
    simp only [run, step, h1, h2, h3, if_false, flush, List.append_nil]
    rw [ih _ (fun x hx => h x (by simp [hx]))]
    simp

theorem escapeFrom_unroll (k : Nat) (keep : Bool) (s : Str) :
    escapeFrom k keep s
      = (if keep then s.take k else []) ++ escapeFrom 0 true (s.drop k) := by
  induction s generalizing k with
  | nil => cases k <;> cases keep <;> simp [escapeFrom]
  | cons c rest ih =>
    cases k with
    | zero =>
      cases keep
      · simp only [List.drop_zero, Bool.false_eq_true, if_false, List.nil_append]
        simp only [escapeFrom]
      · simp
    | succ k =>
      simp only [escapeFrom, List.take_succ_cons, List.drop_succ_cons]
      rw [ih]
      cases keep <;> simp

end json

namespace utf8

theorem isCont_ge (c : Char) (h : isCont c = true) : 0x80 ≤ c.toNat := by
  simp only [isCont, Bool.and_eq_true, decide_eq_true_eq] at h
  exact h.1

theorem second_ge (c0 c1 : Char) (h : second c0 c1 = true) : 0x80 ≤ c1.toNat := by
  unfold second at h
  split_ifs at h <;>
    first
    | exact isCont_ge c1 h
    | (simp only [Bool.and_eq_true, decide_eq_true_eq] at h; omega)

theorem tailValid_ge (c0 : Char) (t : List Char) (h : tailValid c0 t = true) :
    ∀ b ∈ t, 0x80 ≤ b.toNat := by
  cases t with
  | nil => simp
  | cons c1 more =>
    simp only [tailValid, Bool.and_eq_true, List.all_eq_true] at h
    intro b hb
    rcases List.mem_cons.mp hb with e | e
    · subst e; exact second_ge c0 b h.1
    · exact isCont_ge b (h.2 b e)

theorem width_ascii (c : Char) (rest : Str) (h : c.toNat < 0x80) : width (c :: rest) = 1 := by
  simp [width, following, h, tailValid]

end utf8

namespace json

theorem run_escape (s acc : Str) (st : List Frame) :
    run ⟨.inString acc none, st⟩ (escapeFrom 0 true s)
      = some ⟨.inString (acc ++ utf8.toValid s) none, st⟩ := by
  obtain ⟨m, hn⟩ : ∃ m, s.length = m := ⟨_, rfl⟩
  induction m using Nat.strong_induction_on generalizing s acc with
  | _ m ih =>
    cases s with
    | nil => simp [escapeFrom, run, utf8.toValid_nil]
    | cons c rest =>
      have ihr : ∀ acc1, run ⟨.inString acc1 none, st⟩ (escapeFrom 0 true rest)
          = some ⟨.inString (acc1 ++ utf8.toValid rest) none, st⟩ :=
        fun acc1 => ih rest.length (by simp at hn; omega) rest acc1 rfl
      rw [escapeFrom]
      by_cases hc : c.toNat < 0x80
      · rw [if_pos hc, run_append, run_escapeChar,
          utf8.toValid_cons_valid c rest 0 (utf8.width_ascii c rest hc)]
        simp [ihr]
      · rw [if_neg hc]
        cases hw : utf8.width (c :: rest) with
        | zero =>
          simp only
          rw [utf8.toValid_cons_invalid c rest hw, run_append]
          have : run ⟨.inString acc none, st⟩ ['\\', 'u', 'f', 'f', 'f', 'd']
              = some ⟨.inString (acc ++ utf8.replacement) none, st⟩ := by
            simp [run, step, hexVal, escapeRune, utf8.encodeRune, utf8.replacement]
          rw [this]
          simp [ihr]
        | succ n =>
          obtain ⟨hf, hl, ht⟩ := utf8.width_pos c rest n hw
          have ihd : ∀ acc1, run ⟨.inString acc1 none, st⟩ (escapeFrom 0 true (rest.drop n))
              = some ⟨.inString (acc1 ++ utf8.toValid (rest.drop n)) none, st⟩ :=
            fun acc1 => ih (rest.drop n).length (by simp at hn ⊢; omega) _ acc1 rfl
          rw [utf8.toValid_cons_valid c rest n hw]
          simp only
          cases hs : lineSeparator (c :: rest) with
          | none =>
            simp only
            rw [escapeFrom_unroll, if_pos rfl]
            have hall : ∀ b ∈ c :: rest.take n, 0x80 ≤ b.toNat := by
              intro b hb
              rcases List.mem_cons.mp hb with e | e
              · subst e; omega
              · exact utf8.tailValid_ge c _ ht b e
            have := run_raw (c :: rest.take n) acc st hall
            rw [← List.cons_append, run_append, this]
            simp [ihd]
          | some d =>
            simp only
            rw [escapeFrom_unroll, if_neg (by simp), List.nil_append, run_append]
            unfold lineSeparator at hs
            split_ifs at hs with h8 h9
            · injection hs with hs
              subst hs
              have hc0 : c = Char.ofNat 0xE2 := by
                cases rest with
                | nil => simp at h8
                | cons a r => simp at h8; exact h8.1
              subst hc0
              have hn2 : n = 2 := by
                have : utf8.following (Char.ofNat 0xE2) = some 2 := by decide
                rw [this] at hf
                injection hf with hf
                exact hf.symm
              subst hn2
              have ht2 : rest.take 2 = [Char.ofNat 0x80, Char.ofNat 0xA8] := by
                have e : (Char.ofNat 0xE2 :: rest).take 3
                    = Char.ofNat 0xE2 :: rest.take 2 := rfl
                rw [e] at h8
                injection h8
              have : run ⟨.inString acc none, st⟩ ['\\', 'u', '2', '0', '2', '8']
                  = some ⟨.inString (acc ++ [Char.ofNat 0xE2, Char.ofNat 0x80, Char.ofNat 0xA8])
                      none, st⟩ := by
                simp [run, step, hexVal, escapeRune, utf8.encodeRune]
              rw [this, ht2]
              simp [ihd]
            · injection hs with hs
              subst hs
              have hc0 : c = Char.ofNat 0xE2 := by
                cases rest with
                | nil => simp at h9
                | cons a r => simp at h9; exact h9.1
              subst hc0
              have hn2 : n = 2 := by
                have : utf8.following (Char.ofNat 0xE2) = some 2 := by decide
                rw [this] at hf
                injection hf with hf
                exact hf.symm
              subst hn2
              have ht2 : rest.take 2 = [Char.ofNat 0x80, Char.ofNat 0xA9] := by
                have e : (Char.ofNat 0xE2 :: rest).take 3
                    = Char.ofNat 0xE2 :: rest.take 2 := rfl
                rw [e] at h9
                injection h9
              have : run ⟨.inString acc none, st⟩ ['\\', 'u', '2', '0', '2', '9']
                  = some ⟨.inString (acc ++ [Char.ofNat 0xE2, Char.ofNat 0x80, Char.ofNat 0xA9])
                      none, st⟩ := by
                simp [run, step, hexVal, escapeRune, utf8.encodeRune]
              rw [this, ht2]
              simp [ihd]

theorem run_string_body (s : Str) (st : List Frame) (rest : List Char) :
    run ⟨.inString [] none, st⟩ (escapeFrom 0 true s ++ '"' :: rest)
      = (deliver (.str (utf8.toValid s)) st).bind (fun s1 => run s1 rest) := by
  rw [run_append, run_escape]
  simp [run, step, flush]
  cases deliver (.str (utf8.toValid s)) st <;> simp

theorem renders_quote (s : Str) : Renders (quote s) (.str (utf8.toValid s)) := by
  intro st rest
  have := run_string_body s st rest
  constructor <;> simpa [quote, run, step, stepBegin, isSpace] using this

theorem renders_null : Renders "null".toList .null := by
  intro st rest
  constructor <;>
  · simp [run, step, stepBegin, isSpace]
    cases deliver .null st <;> simp

theorem deliver_arr (v : JVal) (es : List JVal) (st : List Frame) :
    deliver v (.arr es :: st) = some ⟨.endValue, .arr (es ++ [v]) :: st⟩ := rfl

theorem deliver_value (v : JVal) (ms : List (Str × JVal)) (k : Str) (st : List Frame) :
    deliver v (.obj ms (some k) :: st) = some ⟨.endValue, .obj (ms ++ [(k, v)]) none :: st⟩ :=
  rfl

theorem deliver_key (k : Str) (ms : List (Str × JVal)) (st : List Frame) :
    deliver (.str k) (.obj ms none :: st) = some ⟨.colon, .obj ms (some k) :: st⟩ := rfl

theorem run_elems (ts : List Str) (vs : List JVal) (h : List.Forall₂ Renders ts vs)
    (hne : ts ≠ []) (es : List JVal) (st : List Frame) (rest : List Char) :
    (run ⟨.beginValue, .arr es :: st⟩ (joinComma ts ++ ']' :: rest)
      = (deliver (.arr (es ++ vs)) st).bind (fun s => run s rest))
    ∧ (run ⟨.beginValueOrEmpty, .arr es :: st⟩ (joinComma ts ++ ']' :: rest)
      = (deliver (.arr (es ++ vs)) st).bind (fun s => run s rest)) := by
  induction h generalizing es with
  | nil => exact absurd rfl hne
  | @cons t v ts vs hv hrest ih =>
    cases hrest with
    | nil =>
      have h1 := hv (.arr es :: st) (']' :: rest)
      simp only [joinComma]
      rw [h1.1, h1.2]
      simp only [deliver_arr, Option.some_bind, run, step, stepEnd, isSpace]
      constructor <;>
      · simp
        cases deliver (.arr (es ++ [v])) st <;> simp
    | @cons t2 v2 ts2 vs2 hv2 hrest2 =>
      have h1 := hv (.arr es :: st) (',' :: (joinComma (t2 :: ts2) ++ ']' :: rest))
      have h2 := (ih (List.cons_ne_nil _ _) (es ++ [v])).1
      simp only [joinComma, List.append_assoc, List.cons_append]
      rw [h1.1, h1.2]
      simp only [deliver_arr, Option.some_bind, run, step, stepEnd, isSpace]
      simp only [List.append_assoc, List.singleton_append] at h2
      simpa using h2

theorem renders_array (ts : List Str) (vs : List JVal) (h : List.Forall₂ Renders ts vs) :
    Renders ('[' :: (joinComma ts ++ [']'])) (.arr vs) := by
  intro st rest
  by_cases hne : ts = []
  · subst hne
    cases h
    constructor <;>
    · simp [joinComma, run, step, stepBegin, isSpace]
      cases deliver (.arr []) st <;> simp
  · have := (run_elems ts vs h hne [] st rest).2
    constructor <;>
      simpa [run, step, stepBegin, isSpace] using this

theorem run_members (fs : List (Str × Str)) (ms : List (Str × JVal))
    (h : List.Forall₂ (fun f m => utf8.toValid f.1 = m.1 ∧ Renders f.2 m.2) fs ms)
    (hne : fs ≠ []) (done : List (Str × JVal)) (st : List Frame) (rest : List Char) :
    (run ⟨.beginString, .obj done none :: st⟩
        (joinComma (fs.map (fun f => quote f.1 ++ ':' :: f.2)) ++ '}' :: rest)
      = (deliver (.obj (done ++ ms)) st).bind (fun s => run s rest))
    ∧ (run ⟨.beginStringOrEmpty, .obj done none :: st⟩
        (joinComma (fs.map (fun f => quote f.1 ++ ':' :: f.2)) ++ '}' :: rest)
      = (deliver (.obj (done ++ ms)) st).bind (fun s => run s rest)) := by
  induction h generalizing done with
  | nil => exact absurd rfl hne
  | @cons f m fs ms hf hrest ih =>
    obtain ⟨hk, hv⟩ := hf
    have key : ∀ tail : List Char,
        (run ⟨.beginString, .obj done none :: st⟩ (quote f.1 ++ ':' :: (f.2 ++ tail))
          = run ⟨.endValue, .obj (done ++ [m]) none :: st⟩ tail)
        ∧ (run ⟨.beginStringOrEmpty, .obj done none :: st⟩ (quote f.1 ++ ':' :: (f.2 ++ tail))
          = run ⟨.endValue, .obj (done ++ [m]) none :: st⟩ tail) := by
      intro tail
      have hb := run_string_body f.1 (.obj done none :: st) (':' :: (f.2 ++ tail))
      have hval := (hv (.obj done (some (utf8.toValid f.1)) :: st) tail).1
      have hm : (utf8.toValid f.1, m.2) = m := by rw [hk]
      constructor <;>
      · simp only [quote, List.cons_append, List.append_assoc, List.singleton_append, run,
          step, isSpace]
        simp [hb, deliver_key, deliver_value, run, step, stepEnd, isSpace, hval, hm]
    cases hrest with
    | nil =>
      have hk2 := key ('}' :: rest)
      simp only [List.map, joinComma, List.append_assoc, List.cons_append]
      rw [hk2.1, hk2.2]
      constructor <;>
      · simp [run, step, stepEnd, isSpace]
        cases deliver (.obj (done ++ [m])) st <;> simp
    | @cons f2 m2 fs2 ms2 hf2 hrest2 =>
      have hk2 := key (',' :: (joinComma ((f2 :: fs2).map (fun f => quote f.1 ++ ':' :: f.2))
        ++ '}' :: rest))
      have h2 := (ih (List.cons_ne_nil _ _) (done ++ [m])).1
      simp only [List.map, joinComma, List.append_assoc, List.cons_append] at hk2 h2 ⊢
      rw [hk2.1, hk2.2]
      simp only [run, step, stepEnd, isSpace]
      simpa using h2

theorem renders_object (fs : List (Str × Str)) (ms : List (Str × JVal))
    (h : List.Forall₂ (fun f m => utf8.toValid f.1 = m.1 ∧ Renders f.2 m.2) fs ms) :
    Renders (encodeObject fs) (.obj ms) := by
  intro st rest
  by_cases hne : fs = []
  · subst hne
    cases h
    constructor <;>
    · simp [encodeObject, joinComma, run, step, stepBegin, isSpace]
      cases deliver (.obj []) st <;> simp
  · have := (run_members fs ms h hne [] st rest).2
    constructor <;>
      simpa [encodeObject, run, step, stepBegin, isSpace] using this

theorem scan_of_renders (t : Str) (v : JVal) (h : Renders t v) : scan t = some v := by
  have := (h [] []).1
  simp only [List.append_nil] at this
  simp [scan, this, deliver, run, eof, step, stepEnd, isSpace]

theorem renders_quotes (ss : List Str) :
    List.Forall₂ Renders (ss.map quote) (ss.map (fun s => JVal.str (utf8.toValid s))) := by
  induction ss with
  | nil => exact List.Forall₂.nil
  | cons s ss ih => exact List.Forall₂.cons (renders_quote s) ih

theorem decodeElems_strs (old ss : List Str) :
    decodeElems old (ss.map (fun s => JVal.str (utf8.toValid s))) = ss.map utf8.toValid := by
  induction ss generalizing old with
  | nil => rfl
  | cons s ss ih => simp [decodeElems, decodeString, unquote, utf8.toValid_idem, ih]

theorem renders_strings (cs : Option (List Str)) :
    Renders (encodeStrings cs) (stringsValue cs) := by
  cases cs with
  | none => exact renders_null
  | some ss => exact renders_array _ _ (renders_quotes ss)

theorem decodeStrings_value (old cs : Option (List Str)) :
    decodeStrings old (stringsValue cs) = cs.map (List.map utf8.toValid) := by
  cases cs with
  | none => rfl
  | some ss => simp [stringsValue, decodeStrings, decodeElems_strs]

theorem scan_MarshalUniversity (u : University) :
    scan (MarshalUniversity u) = some (.obj
      [("docType".toList, .str (utf8.toValid u.ObjectType)),
       ("id".toList, .str (utf8.toValid u.Id)),
       ("dean".toList, .str (utf8.toValid u.Dean)),
       ("universityname".toList, .str (utf8.toValid u.UniversityName)),
       ("document".toList, .str (utf8.toValid u.Document)),
       ("certifcates".toList, stringsValue u.Certificates)]) := by
  apply scan_of_renders
  apply renders_object
  refine .cons ⟨rfl, renders_quote _⟩ (.cons ⟨rfl, renders_quote _⟩
    (.cons ⟨rfl, renders_quote _⟩ (.cons ⟨rfl, renders_quote _⟩
    (.cons ⟨rfl, renders_quote _⟩ (.cons ⟨rfl, renders_strings _⟩ .nil)))))

theorem setUniversity_fields (u : University) (v : JVal) :
    setUniversity u ("docType".toList, v) = { u with ObjectType := decodeString u.ObjectType v }
    ∧ setUniversity u ("id".toList, v) = { u with Id := decodeString u.Id v }
    ∧ setUniversity u ("dean".toList, v) = { u with Dean := decodeString u.Dean v }
    ∧ setUniversity u ("universityname".toList, v)
        = { u with UniversityName := decodeString u.UniversityName v }
    ∧ setUniversity u ("document".toList, v) = { u with Document := decodeString u.Document v }
    ∧ setUniversity u ("certifcates".toList, v)
        = { u with Certificates := decodeStrings u.Certificates v } :=
  ⟨rfl, rfl, rfl, rfl, rfl, rfl⟩

/-- Decoding what `json.Marshal` wrote for a university gives that
university with its invalid bytes replaced, whatever the target held. -/
theorem UnmarshalUniversity_Marshal (u t : University) :
    UnmarshalUniversity (MarshalUniversity u) t = u.toValid := by
  rw [UnmarshalUniversity, scan_MarshalUniversity]
  simp only [List.foldl, (setUniversity_fields _ _).1, (setUniversity_fields _ _).2.1,
    (setUniversity_fields _ _).2.2.1, (setUniversity_fields _ _).2.2.2.1,
    (setUniversity_fields _ _).2.2.2.2.1, (setUniversity_fields _ _).2.2.2.2.2,
    decodeString, unquote, utf8.toValid_idem, decodeStrings_value, University.toValid]

theorem decodeElems_valid (vs : List JVal) (old : List Str)
    (h : ∀ s ∈ old, utf8.toValid s = s) :
    ∀ s ∈ decodeElems old vs, utf8.toValid s = s := by
  induction vs generalizing old with
  | nil => simp [decodeElems]
  | cons v vs ih =>
    intro s hs
    simp only [decodeElems, List.mem_cons] at hs
    rcases hs with e | e
    · subst e
      cases v <;> simp only [decodeString, unquote, utf8.toValid_idem]
      all_goals
        cases old with
        | nil => rfl
        | cons o os => exact h o (by simp)
    · exact ih old.tail (fun x hx => h x (List.mem_of_mem_tail hx)) s e

theorem map_toValid_of_valid (ss : List Str) (h : ∀ s ∈ ss, utf8.toValid s = s) :
    ss.map utf8.toValid = ss := by
  induction ss with
  | nil => rfl
  | cons s ss ih =>
    rw [List.map_cons, h s (by simp), ih (fun x hx => h x (by simp [hx]))]

theorem valid_of_map_toValid (ss : List Str) (h : ss.map utf8.toValid = ss) :
    ∀ s ∈ ss, utf8.toValid s = s := by
  induction ss with
  | nil => simp
  | cons s ss ih =>
    rw [List.map_cons] at h
    injection h with h1 h2
    intro x hx
    rcases List.mem_cons.mp hx with e | e
    · subst e; exact h1
    · exact ih h2 x e

theorem setUniversity_valid (u : University) (m : Str × JVal) (h : u.toValid = u) :
    (setUniversity u m).toValid = setUniversity u m := by
  have h1 : utf8.toValid u.ObjectType = u.ObjectType := congrArg University.ObjectType h
  have h2 : utf8.toValid u.Id = u.Id := congrArg University.Id h
  have h3 : utf8.toValid u.Dean = u.Dean := congrArg University.Dean h
  have h4 : utf8.toValid u.UniversityName = u.UniversityName :=
    congrArg University.UniversityName h
  have h5 : utf8.toValid u.Document = u.Document := congrArg University.Document h
  have h6 : u.Certificates.map (List.map utf8.toValid) = u.Certificates :=
    congrArg University.Certificates h
  have hd : ∀ old v, utf8.toValid old = old →
      utf8.toValid (decodeString old v) = decodeString old v := by
    intro old v ho
    cases v <;> simp only [decodeString, unquote, utf8.toValid_idem, ho]
  have hc : ∀ v, (decodeStrings u.Certificates v).map (List.map utf8.toValid)
      = decodeStrings u.Certificates v := by
    intro v
    cases v with
    | arr vs =>
      simp only [decodeStrings, Option.map_some']
      rw [map_toValid_of_valid]
      apply decodeElems_valid
      cases hcs : u.Certificates with
      | none => simp
      | some cs =>
        rw [hcs] at h6
        simp only [Option.map_some', Option.some.injEq] at h6
        simpa using valid_of_map_toValid cs h6
    | null => rfl
    | bool b => exact h6
    | num => exact h6
    | str s => exact h6
    | obj ms => exact h6
  unfold setUniversity
  split <;>
    simp only [University.toValid, h1, h2, h3, h4, h5, h6, hd, hc]

/-- What `json.Unmarshal` leaves in a target that held valid UTF-8 is valid
UTF-8. -/
theorem UnmarshalUniversity_valid (data : Bytes) (t : University) (h : t.toValid = t) :
    (UnmarshalUniversity data t).toValid = UnmarshalUniversity data t := by
  have key : ∀ (ms : List (Str × JVal)) (u : University), u.toValid = u →
      (ms.foldl setUniversity u).toValid = ms.foldl setUniversity u := by
    intro ms
    induction ms with
    | nil => intro u hu; exact hu
    | cons m ms ih => intro u hu; exact ih _ (setUniversity_valid u m hu)
  unfold UnmarshalUniversity
  split
  · exact key _ _ h
  · exact h

end json

/-! ## The handlers: lemmas -/

theorem sanitize_loop_none (strs : List Str) (i : Nat) :
    sanitize_arguments.loop i strs = none ↔ ∀ s ∈ strs, s ≠ [] := by
  induction strs generalizing i with
  | nil => simp [sanitize_arguments.loop]
  | cons s rest ih =>
    by_cases hs : s = []
    · simp [sanitize_arguments.loop, hs]
    · have : ¬ s.length ≤ 0 := by
        simpa [List.length_eq_zero] using hs
      simp [sanitize_arguments.loop, this, ih, hs]

theorem sanitize_none (strs : List Str) :
    sanitize_arguments strs = none ↔ ∀ s ∈ strs, s ≠ [] :=
  sanitize_loop_none strs 0

theorem sanitize_loop_some (strs : List Str) (b : Nat) (h : ¬ ∀ s ∈ strs, s ≠ []) :
    ∃ i, i < strs.length ∧ strs.getD i [] = [] ∧ (∀ j, j < i → strs.getD j [] ≠ [])
      ∧ sanitize_arguments.loop b strs
        = some ("Argument ".toList ++ Itoa (b + i) ++ " must be a non-empty string".toList) := by
  induction strs generalizing b with
  | nil => simp at h
  | cons s rest ih =>
    by_cases hs : s = []
    · refine ⟨0, by simp, by simpa using hs, fun j hj => absurd hj (Nat.not_lt_zero j), ?_⟩
      simp [sanitize_arguments.loop, hs]
    · have hrest : ¬ ∀ t ∈ rest, t ≠ [] := by
        intro hall
        apply h
        intro t ht
        rcases List.mem_cons.mp ht with rfl | ht
        · exact hs
        · exact hall t ht
      obtain ⟨i, hi, he, hfirst, hloop⟩ := ih (b + 1) hrest
      have hlen : ¬ s.length ≤ 0 := by simpa [List.length_eq_zero] using hs
      refine ⟨i + 1, by simpa using hi, by simpa using he, ?_, ?_⟩
      · intro j hj
        cases j with
        | zero => simpa using hs
        | succ j => simpa using hfirst j (Nat.lt_of_succ_lt_succ hj)
      · simp only [sanitize_arguments.loop, hlen, if_false, hloop]
        congr 4
        omega

theorem GetState_snd (stub : Stub) (key : Str) :
    (stub.GetState key).2 = { stub with calls := stub.calls ++ [.GetState key] } := rfl

theorem get_university_snd (stub : Stub) (id : Str) :
    (get_university stub id).2 = { stub with calls := stub.calls ++ [.GetState id] } := by
  unfold get_university Stub.GetState
  cases stub.getError id <;> simp only []
  split <;> rfl

theorem get_university_ok (stub : Stub) (id : Str) (u : University) :
    (get_university stub id).1 = .ok u ↔
      stub.getError id = none
      ∧ json.UnmarshalUniversity (stub.state id) University.zero = u
      ∧ u.UniversityName ≠ [] := by
  unfold get_university Stub.GetState
  cases hg : stub.getError id with
  | some e => simp
  | none =>
    simp only []
    split
    · rename_i h
      constructor
      · intro h2; cases h2
      · rintro ⟨-, rfl, h3⟩
        exact absurd (List.length_eq_zero.mp h) h3
    · rename_i h
      constructor
      · intro h2
        injection h2 with h2
        subst h2
        exact ⟨trivial, rfl, fun h3 => h (by simp [h3])⟩
      · rintro ⟨-, rfl, -⟩
        rfl

/-- A university that `get_university` returns is valid UTF-8: it was
decoded into a zero value. -/
theorem get_university_valid (stub : Stub) (id : Str) (u : University)
    (h : (get_university stub id).1 = .ok u) : u.toValid = u := by
  obtain ⟨-, hu, -⟩ := (get_university_ok stub id u).mp h
  rw [← hu]
  exact json.UnmarshalUniversity_valid _ _ rfl

theorem University.certificates_valid (u : University) (h : u.toValid = u) :
    (u.Certificates.getD []).map utf8.toValid = u.Certificates.getD [] := by
  have h6 : u.Certificates.map (List.map utf8.toValid) = u.Certificates :=
    congrArg University.Certificates h
  cases hc : u.Certificates with
  | none => rfl
  | some cs =>
    rw [hc] at h6
    simpa using h6

theorem get_certificate_snd (stub : Stub) (id : Str) :
    (get_certificate stub id).2 = { stub with calls := stub.calls ++ [.GetState id] } := by
  unfold get_certificate Stub.GetState
  cases stub.getError id <;> simp only []
  split <;> rfl

theorem get_certificate_ok (stub : Stub) (id : Str) (c : Certificate) :
    (get_certificate stub id).1 = .ok c ↔
      stub.getError id = none
      ∧ json.UnmarshalCertificate (stub.state id) Certificate.zero = c
      ∧ c.Id = id := by
  unfold get_certificate Stub.GetState
  cases hg : stub.getError id with
  | some e => simp
  | none =>
    simp only []
    split
    · rename_i h
      constructor
      · intro h2; cases h2
      · rintro ⟨-, rfl, h3⟩
        exact absurd h3 h
    · rename_i h
      constructor
      · intro h2
        injection h2 with h2
        subst h2
        exact ⟨trivial, rfl, not_not.mp h⟩
      · rintro ⟨-, rfl, -⟩
        rfl

theorem PutState_ok (stub : Stub) (key : Str) (value : Bytes) (hk : key ≠ [])
    (hp : stub.putError key value = none) :
    (stub.PutState key value).1 = none
    ∧ (stub.PutState key value).2.state = (fun k => if k = key then value else stub.state k)
    ∧ (stub.PutState key value).2.getError = stub.getError
    ∧ (stub.PutState key value).2.putError = stub.putError
    ∧ (stub.PutState key value).2.calls = stub.calls ++ [.PutState key value] := by
  unfold Stub.PutState
  simp [hk, hp]

theorem PutState_getError (stub : Stub) (key : Str) (value : Bytes) :
    (stub.PutState key value).2.getError = stub.getError
    ∧ (stub.PutState key value).2.putError = stub.putError
    ∧ (stub.PutState key value).2.calls = stub.calls ++ [.PutState key value] := by
  unfold Stub.PutState
  split
  · simp
  · split <;> simp

theorem PutState_none (stub : Stub) (key : Str) (value : Bytes)
    (h : (stub.PutState key value).1 = none) :
    key ≠ [] ∧ stub.putError key value = none
    ∧ (stub.PutState key value).2.state = (fun k => if k = key then value else stub.state k) := by
  unfold Stub.PutState at h ⊢
  split at h
  · simp at h
  · rename_i hk
    split at h
    · simp at h
    · rename_i hp
      simp [hk, hp]

theorem PutState_some (stub : Stub) (key : Str) (value : Bytes) (e : Str)
    (h : (stub.PutState key value).1 = some e) :
    (stub.PutState key value).2.state = stub.state := by
  unfold Stub.PutState at h ⊢
  split
  · rfl
  · split
    · rfl
    · rename_i hk _ hp
      simp [hk, hp] at h

theorem get_certificate_fst (s : Stub) (id : Str) :
    (get_certificate s id).1 =
      match s.getError id with
      | some _ => .error ("Failed to find certificate - ".toList ++ id)
      | none =>
        if (json.UnmarshalCertificate (s.state id) Certificate.zero).Id ≠ id then
          .error ("Certificate does not exist - ".toList ++ id)
        else .ok (json.UnmarshalCertificate (s.state id) Certificate.zero) := by
  unfold get_certificate Stub.GetState
  cases s.getError id <;> simp only []
  split <;> rfl

theorem get_university_fst (s : Stub) (id : Str) :
    (get_university s id).1 =
      match s.getError id with
      | some _ => .error ("Failed to get university - ".toList ++ id)
      | none =>
        if (json.UnmarshalUniversity (s.state id) University.zero).UniversityName.length = 0
        then
          .error ("University does not exist - ".toList ++ id ++ ", '".toList
            ++ (json.UnmarshalUniversity (s.state id) University.zero).UniversityName
            ++ "' '".toList
            ++ (json.UnmarshalUniversity (s.state id) University.zero).UniversityName
            ++ "'".toList)
        else .ok (json.UnmarshalUniversity (s.state id) University.zero) := by
  unfold get_university Stub.GetState
  cases s.getError id <;> simp only []
  split <;> rfl

theorem get_certificate_congr (s t : Stub) (id : Str) (h1 : s.state = t.state)
    (h2 : s.getError = t.getError) : (get_certificate s id).1 = (get_certificate t id).1 := by
  rw [get_certificate_fst, get_certificate_fst, h1, h2]

theorem get_university_congr (s t : Stub) (id : Str) (h1 : s.state = t.state)
    (h2 : s.getError = t.getError) : (get_university s id).1 = (get_university t id).1 := by
  rw [get_university_fst, get_university_fst, h1, h2]

/-- What a successful `init_cert` did: the university resolved with the
supplied document, and the two writes. -/
theorem init_cert_success (stub : Stub) (args : List Str)
    (h : (init_cert stub args).1 = .Success []) :
    ∃ u, (get_university stub (arg args 6)).1 = .ok u
      ∧ args.length = 8 ∧ sanitize_arguments args = none
      ∧ u.Document = arg args 7
      ∧ (∀ c, (get_certificate stub (arg args 0)).1 ≠ .ok c)
      ∧ u.Id ≠ []
      ∧ (init_cert stub args).2.getError = stub.getError
      ∧ (init_cert stub args).2.putError = stub.putError
      ∧ (init_cert stub args).2.state = (fun k =>
          if k = u.Id then
            json.MarshalUniversity { u with Certificates := append u.Certificates (arg args 0) }
          else if k = arg args 0 then
            certificateText (arg args 0) (arg args 1) (arg args 2) (arg args 3) (arg args 4)
              (arg args 5) (arg args 6) u.Dean u.UniversityName
          else stub.state k) := by
  unfold init_cert at h ⊢
  by_cases hl : args.length = 8
  swap
  · simp [hl] at h
  cases hs : sanitize_arguments args with
  | some e => simp [hl, hs] at h
  | none =>
    have g2 := get_university_snd stub (arg args 6)
    rcases hg : get_university stub (arg args 6) with ⟨r, s1⟩
    rw [hg] at g2
    simp only at g2
    subst g2
    cases r with
    | error e => simp [hl, hs, hg] at h
    | ok u =>
      by_cases hd : u.Document = arg args 7
      swap
      · simp [hl, hs, hg, hd] at h
      have c2 := get_certificate_snd { stub with calls := stub.calls ++ [.GetState (arg args 6)] }
        (arg args 0)
      have c1 : (get_certificate
          { stub with calls := stub.calls ++ [.GetState (arg args 6)] } (arg args 0)).1
          = (get_certificate stub (arg args 0)).1 :=
        get_certificate_congr _ _ _ rfl rfl
      rcases hc : get_certificate { stub with calls := stub.calls ++ [.GetState (arg args 6)] }
        (arg args 0) with ⟨rc, s2⟩
      rw [hc] at c2 c1
      simp only at c2 c1
      subst c2
      cases rc with
      | ok c => simp [hl, hs, hg, hd, hc] at h
      | error e =>
        have hd2 : ¬ (u.Document ≠ arg args 7) := not_not.mpr hd
        simp only [hl, hs, hg, hc, ne_eq, not_true_eq_false, if_false] at h ⊢
        rw [if_neg hd2] at h ⊢
        generalize hS2 : ({ stub with calls := stub.calls ++ [.GetState (arg args 6)]
          ++ [.GetState (arg args 0)] } : Stub) = S2 at h ⊢
        have q1 := PutState_none S2 (arg args 0) (certificateText (arg args 0) (arg args 1)
          (arg args 2) (arg args 3) (arg args 4) (arg args 5) (arg args 6) u.Dean
          u.UniversityName)
        have q2 := PutState_getError S2 (arg args 0) (certificateText (arg args 0) (arg args 1)
          (arg args 2) (arg args 3) (arg args 4) (arg args 5) (arg args 6) u.Dean
          u.UniversityName)
        rcases hp1 : S2.PutState (arg args 0) (certificateText (arg args 0) (arg args 1)
          (arg args 2) (arg args 3) (arg args 4) (arg args 5) (arg args 6) u.Dean
          u.UniversityName) with ⟨e1, S3⟩
        rw [hp1] at q1 q2 h
        simp only at q1 q2 h
        cases e1 with
        | some e => simp at h
        | none =>
          obtain ⟨-, -, q1s⟩ := q1 rfl
          simp only at h ⊢
          have r1 := PutState_none S3 u.Id (json.MarshalUniversity
            { u with Certificates := append u.Certificates (arg args 0) })
          have r2 := PutState_getError S3 u.Id (json.MarshalUniversity
            { u with Certificates := append u.Certificates (arg args 0) })
          rcases hp2 : S3.PutState u.Id (json.MarshalUniversity
            { u with Certificates := append u.Certificates (arg args 0) }) with ⟨e2, S4⟩
          rw [hp2] at r1 r2 h
          simp only at r1 r2 h
          cases e2 with
          | some e => simp at h
          | none =>
            obtain ⟨rk, -, r1s⟩ := r1 rfl
            refine ⟨u, rfl, trivial, trivial, hd, ?_, rk, ?_, ?_, ?_⟩
            · intro c hcc
              rw [← c1] at hcc
              cases hcc
            · rw [r2.1, q2.1, ← hS2]
            · rw [r2.2.1, q2.2.1, ← hS2]
            · simp only
              rw [r1s, q1s, ← hS2]

theorem scan_nil : json.scan [] = none := rfl

theorem get_university_key_ne_nil (stub : Stub) (id : Str) (u : University)
    (h : (get_university stub id).1 = .ok u) : id ≠ [] := by
  rintro rfl
  obtain ⟨-, h2, h3⟩ := (get_university_ok stub [] u).mp h
  rw [stub.state_nil] at h2
  apply h3
  rw [← h2]
  rfl

theorem read_loop_ok (base : Stub) (ids : List Str) (s : Stub) (acc : Option (List Certificate))
    (h1 : s.state = base.state) (h2 : s.getError = base.getError)
    (hall : ∀ id ∈ ids, ∃ c, (get_certificate base id).1 = .ok c) :
    ∃ certs, List.Forall₂ (fun id c => (get_certificate base id).1 = .ok c) ids certs
      ∧ (read_all_certificates_from_university.loop s ⟨acc⟩ ids).1
        = some ⟨if ids = [] then acc else some (acc.getD [] ++ certs)⟩ := by
  induction ids generalizing s acc with
  | nil => exact ⟨[], .nil, rfl⟩
  | cons id rest ih =>
    obtain ⟨c, hc⟩ := hall id (List.mem_cons_self _ _)
    have hc2 : (get_certificate s id).1 = .ok c := by
      rw [get_certificate_congr s base id h1 h2]; exact hc
    have hsnd := get_certificate_snd s id
    rcases hg : get_certificate s id with ⟨r, s1⟩
    rw [hg] at hc2 hsnd
    simp only at hc2 hsnd
    subst hc2
    obtain ⟨certs, hf, hl⟩ := ih s1 (append acc c) (by rw [hsnd]; exact h1)
      (by rw [hsnd]; exact h2) (fun i hi => hall i (List.mem_cons_of_mem _ hi))
    refine ⟨c :: certs, .cons hc hf, ?_⟩
    simp only [read_all_certificates_from_university.loop, hg, hl]
    by_cases hr : rest = []
    · subst hr
      cases hf
      simp [append]
    · simp [hr, append]

theorem read_loop_fail (base : Stub) (ids : List Str) (s : Stub) (ev : Everything)
    (h1 : s.state = base.state) (h2 : s.getError = base.getError)
    (hnot : ¬ ∀ id ∈ ids, ∃ c, (get_certificate base id).1 = .ok c) :
    (read_all_certificates_from_university.loop s ev ids).1 = none := by
  induction ids generalizing s ev with
  | nil => simp at hnot
  | cons id rest ih =>
    have hsnd := get_certificate_snd s id
    have hfst := get_certificate_congr s base id h1 h2
    rcases hg : get_certificate s id with ⟨r, s1⟩
    rw [hg] at hfst hsnd
    simp only at hfst hsnd
    simp only [read_all_certificates_from_university.loop, hg]
    cases r with
    | error e => rfl
    | ok c =>
      simp only
      apply ih
      · rw [hsnd]; exact h1
      · rw [hsnd]; exact h2
      · intro hall
        apply hnot
        intro i hi
        rcases List.mem_cons.mp hi with rfl | hi
        · exact ⟨c, hfst.symm⟩
        · exact hall i hi

theorem sanitize_some (args : List Str) (h : ∃ a ∈ args, a = []) :
    ∃ e, sanitize_arguments args = some e := by
  cases hs : sanitize_arguments args with
  | some e => exact ⟨e, rfl⟩
  | none =>
    obtain ⟨a, ha, rfl⟩ := h
    exact absurd rfl ((sanitize_none args).mp hs [] ha)

/-! ## Argument validation -/

/-- The six handlers that call `sanitize_arguments` (`read`, `write`,
`init_cert`, `init_university`, `set_dean`, `read_everything`) return an
error on an argument list of the wrong length or with an empty string, with
no call made on the stub. -/
theorem handlers_validate_arguments (stub : Stub) (args : List Str) :
    ((args.length ≠ 1 ∨ ∃ a ∈ args, a = []) → ∃ e, read stub args = (.Error e, stub))
    ∧ ((args.length ≠ 2 ∨ ∃ a ∈ args, a = []) → ∃ e, write stub args = (.Error e, stub))
    ∧ ((args.length ≠ 8 ∨ ∃ a ∈ args, a = []) → ∃ e, init_cert stub args = (.Error e, stub))
    ∧ ((args.length ≠ 4 ∨ ∃ a ∈ args, a = []) →
        ∃ e, init_university stub args = (.Error e, stub))
    ∧ ((args.length ≠ 3 ∨ ∃ a ∈ args, a = []) → ∃ e, set_dean stub args = (.Error e, stub))
    ∧ ((args.length ≠ 1 ∨ ∃ a ∈ args, a = []) →
        ∃ e, read_all_certificates_from_university stub args = (.Error e, stub)) := by
  refine ⟨?_, ?_, ?_, ?_, ?_, ?_⟩ <;>
  · intro h
    first
      | unfold read
      | unfold write
      | unfold init_cert
      | unfold init_university
      | unfold set_dean
      | unfold read_all_certificates_from_university
    split
    · exact ⟨_, rfl⟩
    · rename_i hl
      rcases h with h | h
      · exact absurd h hl
      · obtain ⟨e, he⟩ := sanitize_some args h
        rw [he]
        exact ⟨_, rfl⟩

/-! ## The claims -/

/-! ### C1 -/

set_option maxRecDepth 100000 in
/-- C1, counterexample: the new dean is the single byte `0xFF`, which is no
UTF-8. `set_dean` succeeds, `json.Marshal` writes the byte as the escape of
U+FFFD, and the university resolved afterwards has the three bytes of
U+FFFD as its dean, not the new dean given. -/
theorem set_dean_succeeds_iff_counterexample :
    (set_dean ledgerU1 ["u1".toList, "Ana".toList, [Char.ofNat 0xFF]]).1 = .Success []
    ∧ (get_university (set_dean ledgerU1 ["u1".toList, "Ana".toList, [Char.ofNat 0xFF]]).2
        "u1".toList).1
      = .ok { universityU1 with Dean := [Char.ofNat 0xEF, Char.ofNat 0xBF, Char.ofNat 0xBD] }
    ∧ [Char.ofNat 0xEF, Char.ofNat 0xBF, Char.ofNat 0xBD] ≠ [Char.ofNat 0xFF] := by
  decide

/-- C1 (amended). For every store and three non-empty arguments, when the
store's put on the university's key does not fail: `set_dean` succeeds if
and only if `oldDean ≠ newDean`, `get_university universityId` resolves and
the resolved dean is `oldDean`; and when it succeeds, resolving
`universityId` afterwards yields a university whose dean is `newDean` with
each byte that belongs to no valid UTF-8 sequence replaced by U+FFFD, which
is `newDean` exactly when `newDean` is valid UTF-8. -/
theorem set_dean_succeeds_iff (stub : Stub) (universityId oldDean newDean : Str)
    (hid : universityId ≠ []) (hold : oldDean ≠ []) (hnew : newDean ≠ [])
    (hput : ∀ value, stub.putError universityId value = none) :
    ((set_dean stub [universityId, oldDean, newDean]).1 = .Success [] ↔
      oldDean ≠ newDean
      ∧ ∃ university, (get_university stub universityId).1 = .ok university
          ∧ university.Dean = oldDean)
    ∧ ((set_dean stub [universityId, oldDean, newDean]).1 = .Success [] →
      ∃ university,
        (get_university (set_dean stub [universityId, oldDean, newDean]).2 universityId).1
          = .ok university
        ∧ university.Dean = utf8.toValid newDean
        ∧ (university.Dean = newDean ↔ utf8.Valid newDean)) := by
  have hs : sanitize_arguments [universityId, oldDean, newDean] = none :=
    (sanitize_none _).mpr (by simp [hid, hold, hnew])
  have h2 := get_university_snd stub universityId
  have hok := get_university_ok stub universityId
  unfold set_dean
  simp only [List.length_cons, List.length_nil, hs, arg, List.getD_cons_zero,
    List.getD_cons_succ]
  by_cases hdeans : oldDean = newDean
  · simp [hdeans]
  · rcases hg : get_university stub universityId with ⟨r, s1⟩
    rw [hg] at h2 hok
    simp only at h2 hok
    subst h2
    cases r with
    | error e => simp [hdeans]
    | ok u =>
      by_cases hd : u.Dean = oldDean
      · have hne : ¬ u.Dean = newDean := by rw [hd]; exact hdeans
        obtain ⟨hge, hun, hname⟩ := (hok u).mp rfl
        obtain ⟨p1, p2, p3, -, -⟩ := PutState_ok
          { stub with calls := stub.calls ++ [.GetState universityId] } universityId
          (json.MarshalUniversity { u with Dean := newDean }) hid (hput _)
        rcases hp : Stub.PutState { stub with calls := stub.calls ++ [.GetState universityId] }
          universityId (json.MarshalUniversity { u with Dean := newDean }) with ⟨e, s2⟩
        rw [hp] at p1 p2 p3
        simp only at p1 p2 p3
        subst p1
        simp only [hdeans, hd, hne, if_false, not_true_eq_false, hp, ne_eq, not_false_eq_true,
          true_and, Except.ok.injEq, exists_eq_left', true_iff, forall_true_left]
        refine ⟨({ u with Dean := newDean } : University).toValid, ?_, rfl, Iff.rfl⟩
        rw [get_university_ok]
        refine ⟨by rw [p3]; exact hge, ?_, ?_⟩
        · rw [p2]
          simp [json.UnmarshalUniversity_Marshal]
        · intro h0
          exact hname ((utf8.toValid_eq_nil _).mp h0)
      · simp [hdeans, hd]

/-- C1, witness: the dean of `u1` goes from Ana to Eva. -/
theorem set_dean_succeeds_iff_witness :
    (set_dean ledgerU1 ["u1".toList, "Ana".toList, "Eva".toList]).1 = .Success []
    ∧ ∃ university,
        (get_university (set_dean ledgerU1 ["u1".toList, "Ana".toList, "Eva".toList]).2
          "u1".toList).1 = .ok university
        ∧ university.Dean = "Eva".toList := by
  have h := set_dean_succeeds_iff ledgerU1 "u1".toList "Ana".toList "Eva".toList
    (by decide) (by decide) (by decide) (fun _ => rfl)
  have hs := h.1.mpr ⟨by decide, universityU1, by decide, rfl⟩
  obtain ⟨university, h1, h2, -⟩ := h.2 hs
  exact ⟨hs, university, h1, h2.trans (by decide)⟩

/-! ### C2 -/

/-- C2. For every store and eight non-empty arguments such that
`universityId` resolves to a university whose stored document differs from
the supplied `universityDocument`, `init_cert` fails with the
cannot-authorize error, whatever the other arguments and whether or not a
certificate with that id exists, and writes nothing: the stub afterwards is
the stub before with one `GetState` logged. -/
theorem init_cert_unauthorized (stub : Stub)
    (id name document body city date universityId universityDocument : Str)
    (university : University)
    (hargs : ∀ a ∈ [id, name, document, body, city, date, universityId, universityDocument],
      a ≠ [])
    (hres : (get_university stub universityId).1 = .ok university)
    (hdoc : university.Document ≠ universityDocument) :
    (init_cert stub
        [id, name, document, body, city, date, universityId, universityDocument]).1
      = .Error ("The university '".toList ++ university.UniversityName
          ++ "' cannot authorize creation for university '".toList ++ universityDocument
          ++ "'.".toList)
    ∧ (init_cert stub
        [id, name, document, body, city, date, universityId, universityDocument]).2.state
      = stub.state
    ∧ (init_cert stub
        [id, name, document, body, city, date, universityId, universityDocument]).2.calls
      = stub.calls ++ [.GetState universityId] := by
  have hs := (sanitize_none _).mpr hargs
  have h2 := get_university_snd stub universityId
  unfold init_cert
  simp only [List.length_cons, List.length_nil, hs, arg, List.getD_cons_zero,
    List.getD_cons_succ]
  rcases hg : get_university stub universityId with ⟨r, s1⟩
  rw [hg] at hres h2
  simp only at hres h2
  subst hres
  subst h2
  simp [hdoc]

/-- C2, witness: `u1` holds document 111, the caller supplies 999. -/
theorem init_cert_unauthorized_witness :
    (init_cert ledgerU1 ["c1".toList, "Bob".toList, "555".toList, "body".toList,
        "City".toList, "2024".toList, "u1".toList, "999".toList]).1
      = .Error ("The university 'State U' cannot authorize creation for "
          ++ "university '999'.").toList
    ∧ (init_cert ledgerU1 ["c1".toList, "Bob".toList, "555".toList, "body".toList,
        "City".toList, "2024".toList, "u1".toList, "999".toList]).2.state
      = ledgerU1.state := by
  have h := init_cert_unauthorized ledgerU1 "c1".toList "Bob".toList "555".toList
    "body".toList "City".toList "2024".toList "u1".toList "999".toList universityU1
    (by decide) (by decide) (by decide)
  exact ⟨h.1, h.2.1⟩

/-! ### C3 -/

set_option maxRecDepth 100000 in
/-- C3, counterexample. First: the record stored under `u1` has `id` field
`zz`; `init_cert` succeeds and stores the university under `zz`, so
resolving `u1` afterwards yields the same university as before, its
certificates list without the new id. Second: the certificate id is the byte
`0xFF`, which is no UTF-8; `init_cert` succeeds and the list resolved
afterwards holds the three bytes of U+FFFD, not the id. -/
theorem init_cert_appends_certificate_counterexample :
    (init_cert strayLedger argsC1).1 = .Success []
    ∧ (get_university strayLedger "u1".toList).1 = .ok strayUniversity
    ∧ (get_university (init_cert strayLedger argsC1).2 "u1".toList).1 = .ok strayUniversity
    ∧ strayUniversity.Certificates.getD []
      ≠ strayUniversity.Certificates.getD [] ++ ["c1".toList]
    ∧ (init_cert strayLedger argsC1).2.state "zz".toList
      = json.MarshalUniversity { strayUniversity with Certificates := some ["c1".toList] }
    ∧ (init_cert ledgerU1 argsBadId).1 = .Success []
    ∧ (get_university ledgerU1 "u1".toList).1 = .ok universityU1
    ∧ (get_university (init_cert ledgerU1 argsBadId).2 "u1".toList).1
      = .ok { universityU1 with
          Certificates := some [[Char.ofNat 0xEF, Char.ofNat 0xBF, Char.ofNat 0xBD]] }
    ∧ [[Char.ofNat 0xEF, Char.ofNat 0xBF, Char.ofNat 0xBD]] ≠ [arg argsBadId 0] := by
  decide

/-- C3 (amended). For every store and arguments on which `init_cert`
succeeds, when the university resolved under key `universityId` before the
call has that key as its `id` field: resolving `universityId` after the call
yields a certificates list equal to the list resolved before with the new
certificate id appended, each byte of the id that belongs to no valid UTF-8
sequence replaced by U+FFFD; its length is one greater; and for an id that
is valid UTF-8 the appended element is the id itself. -/
theorem init_cert_appends_certificate (stub : Stub)
    (id name document body city date universityId universityDocument : Str)
    (university : University)
    (hok : (init_cert stub
      [id, name, document, body, city, date, universityId, universityDocument]).1
      = .Success [])
    (hres : (get_university stub universityId).1 = .ok university)
    (hkey : university.Id = universityId) :
    ∃ after,
      (get_university (init_cert stub
        [id, name, document, body, city, date, universityId, universityDocument]).2
        universityId).1 = .ok after
      ∧ after.Certificates = some (university.Certificates.getD [] ++ [utf8.toValid id])
      ∧ len after.Certificates = len university.Certificates + 1
      ∧ (after.Certificates.getD []).getLast? = some (utf8.toValid id)
      ∧ (utf8.Valid id →
          after.Certificates = some (university.Certificates.getD [] ++ [id])) := by
  obtain ⟨u, hu, -, -, -, -, -, hge, -, hst⟩ := init_cert_success stub _ hok
  simp only [arg, List.getD_cons_zero, List.getD_cons_succ] at hu hst
  rw [hres] at hu
  injection hu with hu
  subst hu
  obtain ⟨g1, g2, g3⟩ := (get_university_ok stub universityId university).mp hres
  have hv := get_university_valid stub universityId university hres
  have hcs := University.certificates_valid university hv
  have hc : (({ university with Certificates := append university.Certificates id }
      : University).toValid).Certificates
      = some (university.Certificates.getD [] ++ [utf8.toValid id]) := by
    simp only [University.toValid, append, Option.map_some', List.map_append, List.map_cons,
      List.map_nil, hcs]
  refine ⟨({ university with Certificates := append university.Certificates id }
    : University).toValid, ?_, hc, ?_, ?_, ?_⟩
  · rw [get_university_ok]
    refine ⟨by rw [hge]; exact g1, ?_, ?_⟩
    · rw [hst]
      simp only [hkey, if_true]
      rw [← hkey]
      exact json.UnmarshalUniversity_Marshal _ _
    · intro h0
      exact g3 ((utf8.toValid_eq_nil _).mp h0)
  · rw [hc]
    simp [len]
  · rw [hc]
    simp
  · intro hvalid
    rw [hc, hvalid]

/-- C3, witness: the issuance of the spec's scenario. -/
theorem init_cert_appends_certificate_witness :
    ∃ after, (get_university (init_cert ledgerU1 argsC1).2 "u1".toList).1 = .ok after
      ∧ after.Certificates = some ["c1".toList] := by
  obtain ⟨after, h1, h2, -, -⟩ := init_cert_appends_certificate ledgerU1 "c1".toList
    "Bob".toList "555".toList "body".toList "City".toList "2024".toList "u1".toList
    "111".toList universityU1 (by decide) (by decide) (by decide)
  exact ⟨after, h1, h2.trans (by decide)⟩

/-! ### C4 -/

/-- C4, the code at the failing input: after `init_cert` stored certificate
`c1` of the spec's scenario, the text under `c1` is no JSON (`body` and
`City` stand unquoted), `get_certificate` does not find it, and a second
`init_cert` with the same arguments succeeds and appends `c1` once more. -/
theorem init_cert_twice_succeeds :
    (init_cert ledgerU1 argsC1).1 = .Success []
    ∧ (json.scan (ledgerC1.state "c1".toList)).isNone = true
    ∧ (get_certificate ledgerC1 "c1".toList).1
      = .error "Certificate does not exist - c1".toList
    ∧ (init_cert ledgerC1 argsC1).1 = .Success []
    ∧ (get_university ledgerC1 "u1".toList).1
      = .ok { universityU1 with Certificates := some ["c1".toList] }
    ∧ (get_university (init_cert ledgerC1 argsC1).2 "u1".toList).1
      = .ok { universityU1 with Certificates := some ["c1".toList, "c1".toList] } := by
  decide

/-! ### C5 -/

set_option maxRecDepth 100000 in
/-- C5, counterexample: key `u1` does not resolve in any of the three
ledgers. Where the put fails, `init_university` fails with the put's error;
where the get fails, `init_university` succeeds, `get_university` still
fails afterwards and a second `init_university` succeeds again; and on the
empty ledger with the byte `0xFF`, which is no UTF-8, as dean,
`init_university` succeeds and the university resolved afterwards has the
three bytes of U+FFFD as its dean, not the dean given. -/
theorem init_university_once_counterexample :
    (get_university putFaultLedger "u1".toList).1
      = .error ("University does not exist - u1, '' ''").toList
    ∧ (init_university putFaultLedger argsU1).1 = .Error "put failed".toList
    ∧ (get_university getFaultLedger "u1".toList).1
      = .error "Failed to get university - u1".toList
    ∧ (init_university getFaultLedger argsU1).1 = .Success []
    ∧ (get_university (init_university getFaultLedger argsU1).2 "u1".toList).1
      = .error "Failed to get university - u1".toList
    ∧ (init_university (init_university getFaultLedger argsU1).2 argsU1).1 = .Success []
    ∧ (get_university emptyLedger "u1".toList).1
      = .error ("University does not exist - u1, '' ''").toList
    ∧ (init_university emptyLedger argsBadDean).1 = .Success []
    ∧ (get_university (init_university emptyLedger argsBadDean).2 "u1".toList).1
      = .ok ⟨"university".toList, "u1".toList,
          [Char.ofNat 0xEF, Char.ofNat 0xBF, Char.ofNat 0xBD], "State U".toList,
          "111".toList, none⟩
    ∧ [Char.ofNat 0xEF, Char.ofNat 0xBF, Char.ofNat 0xBD] ≠ arg argsBadDean 1 := by
  decide

/-- C5 (amended). For every store in which key `id` does not resolve to a
university and on which the get and the put on key `id` do not fail, and
non-empty arguments: `init_university` succeeds, after which
`get_university id` returns a university with that id, dean, name and
document, each byte that belongs to no valid UTF-8 sequence replaced by
U+FFFD, and no certificates: exactly the four arguments when they are valid
UTF-8; a second `init_university` with the same id and any non-empty dean,
name and document fails with the already-exists error and leaves the world
state as it was, so the record under `id` is still the first call's input
and resolves as after the first call. -/
theorem init_university_once (stub : Stub) (id dean name document dean2 name2 document2 : Str)
    (hargs : ∀ a ∈ [id, dean, name, document, dean2, name2, document2], a ≠ [])
    (hnot : ∀ u, (get_university stub id).1 ≠ .ok u)
    (hget : stub.getError id = none)
    (hput : ∀ value, stub.putError id value = none) :
    (init_university stub [id, dean, name, document]).1 = .Success []
    ∧ (get_university (init_university stub [id, dean, name, document]).2 id).1
      = .ok ⟨"university".toList, utf8.toValid id, utf8.toValid dean, utf8.toValid name,
          utf8.toValid document, none⟩
    ∧ ((∀ a ∈ [id, dean, name, document], utf8.Valid a) →
        (get_university (init_university stub [id, dean, name, document]).2 id).1
          = .ok ⟨"university".toList, id, dean, name, document, none⟩)
    ∧ (init_university stub [id, dean, name, document]).2.state id
      = json.MarshalUniversity ⟨"university".toList, id, dean, name, document, none⟩
    ∧ (init_university (init_university stub [id, dean, name, document]).2
        [id, dean2, name2, document2]).1
      = .Error ("This university already exists - ".toList ++ id)
    ∧ (init_university (init_university stub [id, dean, name, document]).2
        [id, dean2, name2, document2]).2.state
      = (init_university stub [id, dean, name, document]).2.state
    ∧ (get_university (init_university (init_university stub [id, dean, name, document]).2
        [id, dean2, name2, document2]).2 id).1
      = .ok ⟨"university".toList, utf8.toValid id, utf8.toValid dean, utf8.toValid name,
          utf8.toValid document, none⟩ := by
  have hid : id ≠ [] := hargs id (by simp)
  have hname : name ≠ [] := hargs name (by simp)
  have hs1 : sanitize_arguments [id, dean, name, document] = none :=
    (sanitize_none _).mpr (fun a ha => hargs a (by
      simp only [List.mem_cons, List.mem_singleton, List.not_mem_nil, or_false] at ha ⊢
      tauto))
  have hs2 : sanitize_arguments [id, dean2, name2, document2] = none :=
    (sanitize_none _).mpr (fun a ha => hargs a (by
      simp only [List.mem_cons, List.mem_singleton, List.not_mem_nil, or_false] at ha ⊢
      tauto))
  -- the first call
  have first : (init_university stub [id, dean, name, document]).1 = .Success []
      ∧ (init_university stub [id, dean, name, document]).2.getError = stub.getError
      ∧ (init_university stub [id, dean, name, document]).2.state id
        = json.MarshalUniversity ⟨"university".toList, id, dean, name, document, none⟩ := by
    have g2 := get_university_snd stub id
    unfold init_university
    simp only [List.length_cons, List.length_nil, hs1, arg, List.getD_cons_zero,
      List.getD_cons_succ, University.zero]
    rcases hg : get_university stub id with ⟨r, s1⟩
    rw [hg] at g2
    simp only at g2
    subst g2
    cases r with
    | ok u => exact absurd (by rw [hg]) (hnot u)
    | error e =>
      simp only [ne_eq, not_true_eq_false, if_false]
      obtain ⟨p1, p2, p3, -, -⟩ := PutState_ok
        { stub with calls := stub.calls ++ [.GetState id] } id
        (json.MarshalUniversity ⟨"university".toList, id, dean, name, document, none⟩)
        hid (hput _)
      rcases hp : Stub.PutState { stub with calls := stub.calls ++ [.GetState id] } id
        (json.MarshalUniversity ⟨"university".toList, id, dean, name, document, none⟩)
        with ⟨e1, s2⟩
      rw [hp] at p1 p2 p3
      simp only at p1 p2 p3
      subst p1
      simp only
      refine ⟨trivial, p3, ?_⟩
      rw [p2]
      simp
  obtain ⟨f1, f2, f3⟩ := first
  have res1 : (get_university (init_university stub [id, dean, name, document]).2 id).1
      = .ok ⟨"university".toList, utf8.toValid id, utf8.toValid dean, utf8.toValid name,
          utf8.toValid document, none⟩ := by
    rw [get_university_ok]
    refine ⟨by rw [f2]; exact hget, ?_, fun h0 => hname ((utf8.toValid_eq_nil _).mp h0)⟩
    rw [f3, json.UnmarshalUniversity_Marshal]
    have hty : utf8.toValid "university".toList = "university".toList := by decide
    simp only [University.toValid, hty, Option.map_none']
  have res0 : (∀ a ∈ [id, dean, name, document], utf8.Valid a) →
      (get_university (init_university stub [id, dean, name, document]).2 id).1
        = .ok ⟨"university".toList, id, dean, name, document, none⟩ := by
    intro hv
    have v1 : utf8.toValid id = id := hv id (by simp)
    have v2 : utf8.toValid dean = dean := hv dean (by simp)
    have v3 : utf8.toValid name = name := hv name (by simp)
    have v4 : utf8.toValid document = document := hv document (by simp)
    rw [res1, v1, v2, v3, v4]
  -- the second call
  have second : (init_university (init_university stub [id, dean, name, document]).2
        [id, dean2, name2, document2]).1
        = .Error ("This university already exists - ".toList ++ id)
      ∧ (init_university (init_university stub [id, dean, name, document]).2
        [id, dean2, name2, document2]).2
        = { (init_university stub [id, dean, name, document]).2 with
            calls := (init_university stub [id, dean, name, document]).2.calls
              ++ [.GetState id] } := by
    generalize (init_university stub [id, dean, name, document]).2 = S at res1 ⊢
    have g2 := get_university_snd S id
    unfold init_university
    simp only [List.length_cons, List.length_nil, hs2, arg, List.getD_cons_zero,
      List.getD_cons_succ, University.zero]
    rcases hg : get_university S id with ⟨r, s1⟩
    rw [hg] at g2 res1
    simp only at g2 res1
    subst g2
    subst res1
    simp
  refine ⟨f1, res1, res0, f3, second.1, ?_, ?_⟩
  · rw [second.2]
  · rw [second.2, ← res1]
    exact get_university_congr _ _ _ rfl rfl

/-- C5, witness: `u1` registered twice on the empty ledger. -/
theorem init_university_once_witness :
    (init_university emptyLedger argsU1).1 = .Success []
    ∧ (init_university (init_university emptyLedger argsU1).2
        ["u1".toList, "Eva".toList, "Other U".toList, "222".toList]).1
      = .Error "This university already exists - u1".toList
    ∧ (get_university (init_university (init_university emptyLedger argsU1).2
        ["u1".toList, "Eva".toList, "Other U".toList, "222".toList]).2 "u1".toList).1
      = .ok universityU1 := by
  have h := init_university_once emptyLedger "u1".toList "Ana".toList "State U".toList
    "111".toList "Eva".toList "Other U".toList "222".toList (by decide)
    (fun u hu => by
      have e : (get_university emptyLedger "u1".toList).1
          = .error ("University does not exist - u1, '' ''").toList := by decide
      rw [e] at hu
      cases hu)
    rfl (fun _ => rfl)
  exact ⟨h.1, h.2.2.2.2.1, h.2.2.2.2.2.2.trans (by decide)⟩

/-! ### C6 -/

set_option maxRecDepth 100000 in
/-- C6, the code at the failing input: in the spec's scenario both calls
succeed and `c1` is in the university's list, but the stored certificate
text is no JSON, so `read_everything` returns an error and no
certificate. -/
theorem read_everything_scenario_fails :
    (init_university emptyLedger argsU1).1 = .Success []
    ∧ (init_cert ledgerU1 argsC1).1 = .Success []
    ∧ ledgerC1.state "c1".toList
      = ("\x7b\n\t\t\"docType\":\"certificate\",\n\t\t\"id\": \"c1\",\n\t\t\"name\": \"Bob\","
        ++ "\n\t\t\"document\": 555,\n\t\t\"body\": body,\n\t\t\"city\": City,"
        ++ "\n\t\t\"date\": 2024,\n\t\t\"university\": \x7b\n\t\t\t\"id\": \"u1\","
        ++ "\n\t\t\t\"dean\": \"Ana\",\n\t\t\t\"name\": \"State U\"\n\t\t\x7d\n\t\x7d").toList
    ∧ (read_all_certificates_from_university ledgerC1 ["u1".toList]).1
      = .Error "An error occurred while retrieving certificates".toList := by
  decide

/-! ### C7 -/

/-- C7. For every store in which `universityId` resolves to a university:
`read_everything` succeeds if and only if every id of that university's
certificates list resolves via `get_certificate`; on success the payload is
the encoding of a list as long as the certificates list whose i-th element
is the certificate resolved from the i-th id; and when some id does not
resolve the response is an error, with no partial list. -/
theorem read_everything_all_or_nothing (stub : Stub) (universityId : Str)
    (university : University)
    (hres : (get_university stub universityId).1 = .ok university) :
    ((∃ payload, (read_all_certificates_from_university stub [universityId]).1
          = .Success payload)
      ↔ ∀ id ∈ university.Certificates.getD [], ∃ c, (get_certificate stub id).1 = .ok c)
    ∧ (∀ payload, (read_all_certificates_from_university stub [universityId]).1
          = .Success payload →
        ∃ certs : List Certificate,
          certs.length = (university.Certificates.getD []).length
          ∧ List.Forall₂ (fun id c => (get_certificate stub id).1 = .ok c)
              (university.Certificates.getD []) certs
          ∧ payload = json.MarshalEverything
              ⟨if university.Certificates.getD [] = [] then none else some certs⟩)
    ∧ ((¬ ∀ id ∈ university.Certificates.getD [], ∃ c, (get_certificate stub id).1 = .ok c) →
        (read_all_certificates_from_university stub [universityId]).1
          = .Error "An error occurred while retrieving certificates".toList) := by
  have hid := get_university_key_ne_nil stub universityId university hres
  have hs : sanitize_arguments [universityId] = none :=
    (sanitize_none _).mpr (by simpa using hid)
  have g2 := get_university_snd stub universityId
  -- the handler, in terms of the loop
  have key : (read_all_certificates_from_university stub [universityId]).1
      = match (read_all_certificates_from_university.loop
          { stub with calls := stub.calls ++ [.GetState universityId] } ⟨none⟩
          (university.Certificates.getD [])).1 with
        | none => .Error "An error occurred while retrieving certificates".toList
        | some everything => .Success (json.MarshalEverything everything) := by
    unfold read_all_certificates_from_university
    simp only [List.length_cons, List.length_nil, hs, arg, List.getD_cons_zero]
    rcases hg : get_university stub universityId with ⟨r, s1⟩
    rw [hg] at hres g2
    simp only at hres g2
    subst hres
    subst g2
    simp only [ne_eq, not_true_eq_false, if_false, len]
    by_cases hz : (university.Certificates.getD []).length > 0
    · simp only [hz, if_true]
      rcases read_all_certificates_from_university.loop _ _ _ with ⟨o, s2⟩
      cases o <;> rfl
    · have : university.Certificates.getD [] = [] := by
        apply List.length_eq_zero.mp
        omega
      simp [hz, this, read_all_certificates_from_university.loop]
  by_cases hall : ∀ id ∈ university.Certificates.getD [], ∃ c, (get_certificate stub id).1 = .ok c
  · obtain ⟨certs, hf, hl⟩ := read_loop_ok stub (university.Certificates.getD [])
      { stub with calls := stub.calls ++ [.GetState universityId] } none rfl rfl hall
    rw [key, hl]
    refine ⟨⟨fun _ => hall, fun _ => ⟨_, rfl⟩⟩, ?_, fun h => absurd hall h⟩
    intro payload hp
    refine ⟨certs, hf.length_eq.symm, hf, ?_⟩
    simp only [Response.Success.injEq] at hp
    rw [← hp]
    simp
  · have hl := read_loop_fail stub (university.Certificates.getD [])
      { stub with calls := stub.calls ++ [.GetState universityId] } ⟨none⟩ rfl rfl hall
    rw [key, hl]
    refine ⟨⟨fun ⟨p, hp⟩ => (by cases hp), fun h => absurd h hall⟩, ?_, fun _ => rfl⟩
    intro payload hp
    cases hp

/-- C7, witness: a university with one certificate that resolves. -/
theorem read_everything_all_or_nothing_witness :
    ∃ payload, (read_all_certificates_from_university ledgerQuoted ["u1".toList]).1
      = .Success payload :=
  (read_everything_all_or_nothing ledgerQuoted "u1".toList
    { universityU1 with Certificates := some ["c2".toList] } (by decide)).1.mpr
    (fun id hid => by
      have e : id = "c2".toList := by simpa using hid
      subst e
      exact ⟨certificateQuoted, by decide⟩)

/-! ### C8 -/

set_option maxRecDepth 100000 in
/-- C8, the code at the failing input: for a history of one write followed
by a deletion, `getHistory` returns two entries, and the value of the last
one is the university of the first version, not the empty record. -/
theorem getHistory_deletion_keeps_value :
    (getHistory deletedLedger ["u1".toList]).1
      = .Success (json.MarshalHistory (some
          [⟨"tx1".toList, universityU1, 100⟩, ⟨"tx2".toList, universityU1, 200⟩]))
    ∧ universityU1 ≠ University.zero := by
  decide

/-! ### C9 -/

/-- C9, the code at the failing input: `getHistory` with one empty argument
does not return an error; it opens the history of the empty key and returns
the encoding of no entries. -/
theorem getHistory_accepts_empty_argument :
    (getHistory emptyLedger [[]]).1 = .Success "null".toList
    ∧ (getHistory emptyLedger [[]]).2.calls = [.GetHistoryForKey [], .Close []] := by
  decide

/-! ### C10 -/

/-- C10. `sanitize_arguments` returns no error exactly when every element is
non-empty; otherwise it returns an error whose message names the index of
the first empty element. -/
theorem sanitize_arguments_first_empty (strs : List Str) :
    (sanitize_arguments strs = none ↔ ∀ s ∈ strs, s ≠ [])
    ∧ ((¬ ∀ s ∈ strs, s ≠ []) →
        ∃ i, i < strs.length ∧ strs.getD i [] = [] ∧ (∀ j, j < i → strs.getD j [] ≠ [])
          ∧ sanitize_arguments strs
            = some ("Argument ".toList ++ Itoa i ++ " must be a non-empty string".toList)) := by
  refine ⟨sanitize_loop_none strs 0, fun h => ?_⟩
  obtain ⟨i, hi, he, hfirst, hloop⟩ := sanitize_loop_some strs 0 h
  exact ⟨i, hi, he, hfirst, by simpa [sanitize_arguments] using hloop⟩

/-! ## The effect of each handler on the store -/

theorem sanitize_arg_ne_nil (args : List Str) (h : sanitize_arguments args = none) (i : Nat)
    (hi : i < args.length) : arg args i ≠ [] := by
  have h1 := (sanitize_none args).mp h (args.get ⟨i, hi⟩) (List.get_mem args i hi)
  have h2 : arg args i = args.get ⟨i, hi⟩ := by
    simp [arg, List.getD, List.getElem?_eq_getElem hi]
  rw [h2]
  exact h1

/-- What `init_university` does to the store: nothing, or the one write of
the new record under its id. -/
theorem init_university_effect (stub : Stub) (args : List Str) :
    (init_university stub args).2.getError = stub.getError
    ∧ (init_university stub args).2.putError = stub.putError
    ∧ (((init_university stub args).1 ≠ .Success []
        ∧ (init_university stub args).2.state = stub.state)
      ∨ ((init_university stub args).1 = .Success []
        ∧ args.length = 4 ∧ sanitize_arguments args = none
        ∧ (∀ u, (get_university stub (arg args 0)).1 ≠ .ok u)
        ∧ (init_university stub args).2.state = (fun k =>
            if k = arg args 0 then
              json.MarshalUniversity ⟨"university".toList, arg args 0, arg args 1, arg args 2,
                arg args 3, none⟩
            else stub.state k))) := by
  unfold init_university
  by_cases hl : args.length = 4
  swap
  · simp [hl]
  cases hs : sanitize_arguments args with
  | some e => simp [hl]
  | none =>
    have g2 := get_university_snd stub (arg args 0)
    rcases hg : get_university stub (arg args 0) with ⟨r, s1⟩
    rw [hg] at g2
    simp only at g2
    subst g2
    cases r with
    | ok u => simp [hl, hg, University.zero]
    | error e =>
      simp only [hl, hg, ne_eq, not_true_eq_false, if_false, University.zero]
      generalize hS : ({ stub with calls := stub.calls ++ [.GetState (arg args 0)] } : Stub)
        = S
      have q1 := PutState_none S (arg args 0) (json.MarshalUniversity
        ⟨"university".toList, arg args 0, arg args 1, arg args 2, arg args 3, none⟩)
      have q2 := PutState_getError S (arg args 0) (json.MarshalUniversity
        ⟨"university".toList, arg args 0, arg args 1, arg args 2, arg args 3, none⟩)
      have q3 := PutState_some S (arg args 0) (json.MarshalUniversity
        ⟨"university".toList, arg args 0, arg args 1, arg args 2, arg args 3, none⟩)
      rcases hp : S.PutState (arg args 0) (json.MarshalUniversity
        ⟨"university".toList, arg args 0, arg args 1, arg args 2, arg args 3, none⟩)
        with ⟨e1, S2⟩
      rw [hp] at q1 q2 q3
      simp only at q1 q2 q3
      cases e1 with
      | some e2 =>
        simp only
        refine ⟨by rw [q2.1, ← hS], by rw [q2.2.1, ← hS], Or.inl ⟨by simp, ?_⟩⟩
        rw [q3 e2 rfl, ← hS]
      | none =>
        simp only
        obtain ⟨-, -, q1s⟩ := q1 rfl
        refine ⟨by rw [q2.1, ← hS], by rw [q2.2.1, ← hS],
          Or.inr ⟨trivial, trivial, trivial, by simp, ?_⟩⟩
        rw [q1s, ← hS]

/-- What `set_dean` does to the store: nothing, or the one write of the
university with its new dean under the key it was resolved from. -/
theorem set_dean_effect (stub : Stub) (args : List Str) :
    (set_dean stub args).2.getError = stub.getError
    ∧ (set_dean stub args).2.putError = stub.putError
    ∧ (((set_dean stub args).1 ≠ .Success []
        ∧ (set_dean stub args).2.state = stub.state)
      ∨ ((set_dean stub args).1 = .Success []
        ∧ args.length = 3 ∧ sanitize_arguments args = none
        ∧ arg args 1 ≠ arg args 2
        ∧ ∃ u, (get_university stub (arg args 0)).1 = .ok u
          ∧ u.Dean = arg args 1
          ∧ (set_dean stub args).2.state = (fun k =>
              if k = arg args 0 then json.MarshalUniversity { u with Dean := arg args 2 }
              else stub.state k))) := by
  unfold set_dean
  by_cases hl : args.length = 3
  swap
  · simp [hl]
  cases hs : sanitize_arguments args with
  | some e => simp [hl]
  | none =>
    by_cases hd : arg args 1 = arg args 2
    · simp [hl, hd]
    have g2 := get_university_snd stub (arg args 0)
    rcases hg : get_university stub (arg args 0) with ⟨r, s1⟩
    rw [hg] at g2
    simp only at g2
    subst g2
    cases r with
    | error e => simp [hl, hg, hd]
    | ok u =>
      by_cases h1 : u.Dean = arg args 1
      swap
      · simp [hl, hg, hd, h1]
      have h2 : ¬ u.Dean = arg args 2 := by rw [h1]; exact hd
      have h1n : ¬ (u.Dean ≠ arg args 1) := not_not.mpr h1
      simp only [hl, hg, hd, ne_eq, not_true_eq_false, if_false]
      rw [if_neg h1n, if_neg h2]
      generalize hS : ({ stub with calls := stub.calls ++ [.GetState (arg args 0)] } : Stub)
        = S
      have q1 := PutState_none S (arg args 0)
        (json.MarshalUniversity { u with Dean := arg args 2 })
      have q2 := PutState_getError S (arg args 0)
        (json.MarshalUniversity { u with Dean := arg args 2 })
      have q3 := PutState_some S (arg args 0)
        (json.MarshalUniversity { u with Dean := arg args 2 })
      rcases hp : S.PutState (arg args 0)
        (json.MarshalUniversity { u with Dean := arg args 2 }) with ⟨e1, S2⟩
      rw [hp] at q1 q2 q3
      simp only at q1 q2 q3
      cases e1 with
      | some e2 =>
        simp only
        refine ⟨by rw [q2.1, ← hS], by rw [q2.2.1, ← hS], Or.inl ⟨by simp, ?_⟩⟩
        rw [q3 e2 rfl, ← hS]
      | none =>
        simp only
        obtain ⟨-, -, q1s⟩ := q1 rfl
        refine ⟨by rw [q2.1, ← hS], by rw [q2.2.1, ← hS],
          Or.inr ⟨trivial, trivial, trivial, by simp, u, rfl, h1, ?_⟩⟩
        rw [q1s, ← hS]

theorem PutState_fails (stub : Stub) (key : Str) (value : Bytes) (e : Str)
    (h : (stub.PutState key value).1 = some e) :
    key = [] ∨ stub.putError key value = some e := by
  unfold Stub.PutState at h
  split at h
  · rename_i hk
    exact Or.inl hk
  · split at h
    · rename_i e2 hp
      right
      simp only [Option.some.injEq] at h
      rw [hp, h]
    · simp at h

/-- What `init_cert` does to the store: nothing; or, when the second put
fails, the write of the certificate text alone; or both writes. -/
theorem init_cert_effect (stub : Stub) (args : List Str) :
    (init_cert stub args).2.getError = stub.getError
    ∧ (init_cert stub args).2.putError = stub.putError
    ∧ (((init_cert stub args).1 ≠ .Success []
        ∧ (init_cert stub args).2.state = stub.state)
      ∨ (∃ u, (get_university stub (arg args 6)).1 = .ok u
        ∧ args.length = 8 ∧ sanitize_arguments args = none
        ∧ u.Document = arg args 7
        ∧ (∀ c, (get_certificate stub (arg args 0)).1 ≠ .ok c)
        ∧ stub.putError (arg args 0)
            (certificateText (arg args 0) (arg args 1) (arg args 2) (arg args 3) (arg args 4)
              (arg args 5) (arg args 6) u.Dean u.UniversityName) = none
        ∧ ((∃ e, (init_cert stub args).1 = .Error e
            ∧ (u.Id = [] ∨ stub.putError u.Id (json.MarshalUniversity
                { u with Certificates := append u.Certificates (arg args 0) }) = some e)
            ∧ (init_cert stub args).2.state = (fun k =>
              if k = arg args 0 then
                certificateText (arg args 0) (arg args 1) (arg args 2) (arg args 3)
                  (arg args 4) (arg args 5) (arg args 6) u.Dean u.UniversityName
              else stub.state k))
          ∨ ((init_cert stub args).1 = .Success []
            ∧ u.Id ≠ []
            ∧ (init_cert stub args).2.state = (fun k =>
              if k = u.Id then
                json.MarshalUniversity
                  { u with Certificates := append u.Certificates (arg args 0) }
              else if k = arg args 0 then
                certificateText (arg args 0) (arg args 1) (arg args 2) (arg args 3)
                  (arg args 4) (arg args 5) (arg args 6) u.Dean u.UniversityName
              else stub.state k))))) := by
  unfold init_cert
  by_cases hl : args.length = 8
  swap
  · simp [hl]
  cases hs : sanitize_arguments args with
  | some e => simp [hl]
  | none =>
    have g2 := get_university_snd stub (arg args 6)
    rcases hg : get_university stub (arg args 6) with ⟨r, s1⟩
    rw [hg] at g2
    simp only at g2
    subst g2
    cases r with
    | error e => simp [hl, hg]
    | ok u =>
      by_cases hd : u.Document = arg args 7
      swap
      · simp [hl, hg, hd]
      have c2 := get_certificate_snd { stub with calls := stub.calls ++ [.GetState (arg args 6)] }
        (arg args 0)
      have c1 : (get_certificate
          { stub with calls := stub.calls ++ [.GetState (arg args 6)] } (arg args 0)).1
          = (get_certificate stub (arg args 0)).1 :=
        get_certificate_congr _ _ _ rfl rfl
      rcases hc : get_certificate { stub with calls := stub.calls ++ [.GetState (arg args 6)] }
        (arg args 0) with ⟨rc, s2⟩
      rw [hc] at c2 c1
      simp only at c2 c1
      subst c2
      have hd2 : ¬ (u.Document ≠ arg args 7) := not_not.mpr hd
      cases rc with
      | ok c =>
        simp only [hl, hg, hc, ne_eq, not_true_eq_false, if_false]
        rw [if_neg hd2]
        simp
      | error e =>
        simp only [hl, hg, hc, ne_eq, not_true_eq_false, if_false]
        rw [if_neg hd2]
        generalize hS2 : ({ stub with calls := stub.calls ++ [.GetState (arg args 6)]
          ++ [.GetState (arg args 0)] } : Stub) = S2
        have hS2p : S2.putError = stub.putError := by rw [← hS2]
        have q1 := PutState_none S2 (arg args 0) (certificateText (arg args 0) (arg args 1)
          (arg args 2) (arg args 3) (arg args 4) (arg args 5) (arg args 6) u.Dean
          u.UniversityName)
        have q2 := PutState_getError S2 (arg args 0) (certificateText (arg args 0) (arg args 1)
          (arg args 2) (arg args 3) (arg args 4) (arg args 5) (arg args 6) u.Dean
          u.UniversityName)
        have q3 := PutState_some S2 (arg args 0) (certificateText (arg args 0) (arg args 1)
          (arg args 2) (arg args 3) (arg args 4) (arg args 5) (arg args 6) u.Dean
          u.UniversityName)
        rcases hp1 : S2.PutState (arg args 0) (certificateText (arg args 0) (arg args 1)
          (arg args 2) (arg args 3) (arg args 4) (arg args 5) (arg args 6) u.Dean
          u.UniversityName) with ⟨e1, S3⟩
        rw [hp1] at q1 q2 q3
        simp only at q1 q2 q3
        cases e1 with
        | some e2 =>
          simp only
          refine ⟨by rw [q2.1, ← hS2], by rw [q2.2.1, ← hS2], Or.inl ⟨by simp, ?_⟩⟩
          rw [q3 e2 rfl, ← hS2]
        | none =>
          obtain ⟨-, q1p, q1s⟩ := q1 rfl
          rw [hS2p] at q1p
          simp only
          have r1 := PutState_none S3 u.Id (json.MarshalUniversity
            { u with Certificates := append u.Certificates (arg args 0) })
          have r2 := PutState_getError S3 u.Id (json.MarshalUniversity
            { u with Certificates := append u.Certificates (arg args 0) })
          have r3 := PutState_some S3 u.Id (json.MarshalUniversity
            { u with Certificates := append u.Certificates (arg args 0) })
          have r4 := PutState_fails S3 u.Id (json.MarshalUniversity
            { u with Certificates := append u.Certificates (arg args 0) })
          rcases hp2 : S3.PutState u.Id (json.MarshalUniversity
            { u with Certificates := append u.Certificates (arg args 0) }) with ⟨e3, S4⟩
          rw [hp2] at r1 r2 r3 r4
          simp only at r1 r2 r3 r4
          have hnc : ∀ c, (get_certificate stub (arg args 0)).1 ≠ .ok c := by
            intro c hcc
            rw [← c1] at hcc
            cases hcc
          cases e3 with
          | some e4 =>
            simp only
            refine ⟨by rw [r2.1, q2.1, ← hS2], by rw [r2.2.1, q2.2.1, ← hS2],
              Or.inr ⟨u, rfl, trivial, trivial, hd, hnc, q1p, Or.inl ⟨e4, rfl, ?_, ?_⟩⟩⟩
            · rcases r4 e4 rfl with h | h
              · exact Or.inl h
              · right
                rw [q2.2.1, hS2p] at h
                exact h
            · rw [r3 e4 rfl, q1s, ← hS2]
          | none =>
            simp only
            obtain ⟨rk, -, r1s⟩ := r1 rfl
            refine ⟨by rw [r2.1, q2.1, ← hS2], by rw [r2.2.1, q2.2.1, ← hS2],
              Or.inr ⟨u, rfl, trivial, trivial, hd, hnc, q1p, Or.inr ⟨trivial, rk, ?_⟩⟩⟩
            rw [r1s, q1s, ← hS2]

theorem get_certificate_congr_at (s t : Stub) (id : Str) (h1 : s.state id = t.state id)
    (h2 : s.getError id = t.getError id) :
    (get_certificate s id).1 = (get_certificate t id).1 := by
  rw [get_certificate_fst, get_certificate_fst, h1, h2]

theorem get_university_congr_at (s t : Stub) (id : Str) (h1 : s.state id = t.state id)
    (h2 : s.getError id = t.getError id) :
    (get_university s id).1 = (get_university t id).1 := by
  rw [get_university_fst, get_university_fst, h1, h2]

/-! ## The claims, continued -/

/-! ### C11 -/

/-- C11, counterexample: the bytes under `u7` hold a number where the dean
should be, so their decode reports an error; the name was decoded all the
same and `get_university` returns the university without error. -/
theorem get_university_found_iff_counterexample :
    mismatchLedger.state "u7".toList = mismatchRecord
    ∧ json.UnmarshalUniversityFails mismatchRecord = true
    ∧ (get_university mismatchLedger "u7".toList).1
      = .ok { University.zero with UniversityName := "X".toList } := by
  decide

/-- C11 (amended). For every store and key, `get_university` returns a
university without error if and only if the store get succeeds and the
`universityname` decoded from the stored bytes is non-empty, whether or not
the decode reported an error; a store get error gives the error
"Failed to get university", and every case without a university gives one of
the two not-found errors, never the store's own error. -/
theorem get_university_found_iff (stub : Stub) (id : Str) :
    (∀ u, (get_university stub id).1 = .ok u ↔
      stub.getError id = none
      ∧ json.UnmarshalUniversity (stub.state id) University.zero = u
      ∧ u.UniversityName ≠ [])
    ∧ (stub.getError id ≠ none →
      (get_university stub id).1 = .error ("Failed to get university - ".toList ++ id))
    ∧ ((∀ u, (get_university stub id).1 ≠ .ok u) →
      (get_university stub id).1 = .error ("Failed to get university - ".toList ++ id)
      ∨ (get_university stub id).1
        = .error ("University does not exist - ".toList ++ id ++ ", '' ''".toList)) := by
  refine ⟨get_university_ok stub id, ?_, ?_⟩
  · intro h
    rw [get_university_fst]
    cases hg : stub.getError id with
    | none => exact absurd hg h
    | some e => rfl
  · intro h
    have h2 := get_university_fst stub id
    cases hg : stub.getError id with
    | some e =>
      left
      rw [h2, hg]
    | none =>
      right
      rw [hg] at h2
      simp only at h2
      by_cases hn : (json.UnmarshalUniversity (stub.state id) University.zero).UniversityName.length
          = 0
      · rw [h2, if_pos hn]
        rw [List.length_eq_zero.mp hn]
        simp
      · rw [if_neg hn] at h2
        exact absurd h2 (h _)

/-! ### C12 -/

/-- C12, counterexample: the certificate under key `c9` decodes with the
non-empty id `zz`, and `get_certificate` reports that it does not exist. -/
theorem get_certificate_exists_iff_counterexample :
    (json.UnmarshalCertificate (strayCertLedger.state "c9".toList) Certificate.zero).Id
      = "zz".toList
    ∧ (get_certificate strayCertLedger "c9".toList).1
      = .error "Certificate does not exist - c9".toList := by
  decide

/-- C12 (amended). For every store and key, `get_certificate` returns the
record under that key without error if and only if the store get succeeds
and the certificate's id field, decoded from the stored bytes, equals the
key. -/
theorem get_certificate_exists_iff (stub : Stub) (id : Str) (c : Certificate) :
    (get_certificate stub id).1 = .ok c ↔
      stub.getError id = none
      ∧ json.UnmarshalCertificate (stub.state id) Certificate.zero = c
      ∧ c.Id = id := by
  rw [get_certificate_fst]
  cases stub.getError id with
  | some e => simp
  | none =>
    simp only [true_and]
    by_cases h : (json.UnmarshalCertificate (stub.state id) Certificate.zero).Id = id
    · rw [if_neg (not_not.mpr h)]
      constructor
      · intro hc
        injection hc with hc
        subst hc
        exact ⟨rfl, h⟩
      · rintro ⟨rfl, -⟩
        rfl
    · rw [if_pos h]
      constructor
      · intro hc
        cases hc
      · rintro ⟨rfl, h2⟩
        exact absurd h2 h

/-! ### C13 -/

theorem setCertificate_university_fields (c : Certificate) (v : json.JVal) :
    json.setCertificate c ("docType".toList, v)
        = { c with ObjectType := json.decodeString c.ObjectType v }
    ∧ json.setCertificate c ("id".toList, v) = { c with Id := json.decodeString c.Id v }
    ∧ json.setCertificate c ("dean".toList, v) = c
    ∧ json.setCertificate c ("universityname".toList, v) = c
    ∧ json.setCertificate c ("document".toList, v)
        = { c with Document := json.decodeString c.Document v }
    ∧ json.setCertificate c ("certifcates".toList, v) = c :=
  ⟨rfl, rfl, rfl, rfl, rfl, rfl⟩

/-- A university record read as a certificate: the record's type, id and
document, and nothing else. -/
theorem UnmarshalCertificate_MarshalUniversity (u : University) (c : Certificate) :
    json.UnmarshalCertificate (json.MarshalUniversity u) c
      = { c with
          ObjectType := utf8.toValid u.ObjectType
          Id := utf8.toValid u.Id
          Document := utf8.toValid u.Document } := by
  rw [json.UnmarshalCertificate, json.scan_MarshalUniversity]
  simp only [List.foldl, (setCertificate_university_fields _ _).1,
    (setCertificate_university_fields _ _).2.1, (setCertificate_university_fields _ _).2.2.1,
    (setCertificate_university_fields _ _).2.2.2.1,
    (setCertificate_university_fields _ _).2.2.2.2.1,
    (setCertificate_university_fields _ _).2.2.2.2.2, json.decodeString, json.unquote,
    utf8.toValid_idem]

set_option maxRecDepth 100000 in
/-- C13, counterexample: after `init_university` of `u1`, `init_cert` of
`c1` with a `body` argument that carries members `universityname` and
`dean`, the key `c1` resolves as certificate `c1` of Bob with the snapshot of
`u1`, and as a university with dean Old. `set_dean` on key `c1` succeeds and
writes a university record over the certificate: `c1` then resolves as a
certificate without name, body or snapshot. -/
theorem set_dean_changes_only_dean_counterexample :
    (init_university emptyLedger argsU1).1 = .Success []
    ∧ (init_cert (runOps emptyLedger [.university argsU1]) argsInjectDean).1 = .Success []
    ∧ (get_certificate (runOps emptyLedger [.university argsU1, .cert argsInjectDean])
        "c1".toList).1
      = .ok ⟨"certificate".toList, "c1".toList, "Bob".toList, [], "x".toList, [], [],
          ⟨"u1".toList, "Ana".toList, "State U".toList⟩⟩
    ∧ (set_dean (runOps emptyLedger [.university argsU1, .cert argsInjectDean])
        ["c1".toList, "Old".toList, "New".toList]).1 = .Success []
    ∧ (get_certificate (set_dean (runOps emptyLedger [.university argsU1, .cert argsInjectDean])
        ["c1".toList, "Old".toList, "New".toList]).2 "c1".toList).1
      = .ok ⟨"certificate".toList, "c1".toList, [], [], [], [], [], UniversityRelation.zero⟩ := by
  decide

/-- C13 (amended). For every store and arguments on which `set_dean`
succeeds: the university resolved under `universityId` afterwards is the one
resolved before with only the dean changed, to `newDean` with each byte that
belongs to no valid UTF-8 sequence replaced by U+FFFD; every other key holds
the bytes it held, and under every other key `get_certificate` returns what
it returned before, so a certificate under another key keeps its record and
its university snapshot; under `universityId` itself `get_certificate`
afterwards returns at most a certificate that has the university's type, id
and document and no name, body, city, date or snapshot. -/
theorem set_dean_changes_only_dean (stub : Stub) (universityId oldDean newDean : Str)
    (hok : (set_dean stub [universityId, oldDean, newDean]).1 = .Success []) :
    ∃ before, (get_university stub universityId).1 = .ok before
      ∧ (get_university (set_dean stub [universityId, oldDean, newDean]).2 universityId).1
        = .ok { before with Dean := utf8.toValid newDean }
      ∧ (∀ k, k ≠ universityId →
          (set_dean stub [universityId, oldDean, newDean]).2.state k = stub.state k)
      ∧ (∀ k, k ≠ universityId →
          (get_certificate (set_dean stub [universityId, oldDean, newDean]).2 k).1
            = (get_certificate stub k).1)
      ∧ (∀ c, (get_certificate (set_dean stub [universityId, oldDean, newDean]).2
            universityId).1 = .ok c →
          c = ⟨before.ObjectType, before.Id, [], before.Document, [], [], [],
                UniversityRelation.zero⟩) := by
  obtain ⟨hge, -, h | h⟩ := set_dean_effect stub [universityId, oldDean, newDean]
  · exact absurd hok h.1
  · obtain ⟨-, -, -, -, u, hu, -, hst⟩ := h
    simp only [arg, List.getD_cons_zero, List.getD_cons_succ] at hu hst
    obtain ⟨g1, g2, g3⟩ := (get_university_ok stub universityId u).mp hu
    have hv := get_university_valid stub universityId u hu
    have v1 : utf8.toValid u.ObjectType = u.ObjectType := congrArg University.ObjectType hv
    have v2 : utf8.toValid u.Id = u.Id := congrArg University.Id hv
    have v4 : utf8.toValid u.UniversityName = u.UniversityName :=
      congrArg University.UniversityName hv
    have v5 : utf8.toValid u.Document = u.Document := congrArg University.Document hv
    have v6 : u.Certificates.map (List.map utf8.toValid) = u.Certificates :=
      congrArg University.Certificates hv
    have hother : ∀ k, k ≠ universityId →
        (set_dean stub [universityId, oldDean, newDean]).2.state k = stub.state k := by
      intro k hk
      rw [hst]
      simp [hk]
    refine ⟨u, hu, ?_, hother, ?_, ?_⟩
    · rw [get_university_ok]
      refine ⟨by rw [hge]; exact g1, ?_, g3⟩
      rw [hst]
      simp only [if_true]
      rw [json.UnmarshalUniversity_Marshal]
      simp only [University.toValid, v1, v2, v4, v5, v6]
    · intro k hk
      exact get_certificate_congr_at _ _ k (hother k hk) (by rw [hge])
    · intro c hc
      obtain ⟨-, c2, -⟩ := (get_certificate_ok _ universityId c).mp hc
      rw [hst] at c2
      simp only [if_true] at c2
      rw [UnmarshalCertificate_MarshalUniversity] at c2
      rw [← c2]
      simp only [v1, v2, v5, Certificate.zero]

/-- C13, witness: after a certificate was issued for `u1`, its dean goes
from Ana to Eva; the certificate under `c2` still resolves, with dean Ana. -/
theorem set_dean_changes_only_dean_witness :
    (get_university (set_dean ledgerQuoted ["u1".toList, "Ana".toList, "Eva".toList]).2
      "u1".toList).1
      = .ok { universityU1 with Dean := "Eva".toList, Certificates := some ["c2".toList] }
    ∧ (get_certificate (set_dean ledgerQuoted ["u1".toList, "Ana".toList, "Eva".toList]).2
        "c2".toList).1 = .ok certificateQuoted := by
  obtain ⟨before, h1, h2, -, h4, -⟩ := set_dean_changes_only_dean ledgerQuoted "u1".toList
    "Ana".toList "Eva".toList (by decide)
  have hb : (get_university ledgerQuoted "u1".toList).1
      = .ok { universityU1 with Certificates := some ["c2".toList] } := by decide
  rw [hb] at h1
  injection h1 with h1
  subst h1
  refine ⟨h2.trans (by decide), ?_⟩
  rw [h4 "c2".toList (by decide)]
  decide

theorem PutState_fail (stub : Stub) (key : Str) (value : Bytes)
    (h : key = [] ∨ stub.putError key value ≠ none) :
    ∃ e, (stub.PutState key value).1 = some e
      ∧ (stub.PutState key value).2.state = stub.state := by
  unfold Stub.PutState
  by_cases hk : key = []
  · simp [hk]
  · rcases h with h | h
    · exact absurd h hk
    · cases hp : stub.putError key value with
      | none => exact absurd hp h
      | some e => simp [hk]

/-! ### C14 -/

/-- C14, counterexample: with a put that fails on `u1`, `write` fails; with
a get that fails on `u1`, `write` succeeds and the `read` after it fails. -/
theorem write_then_read_counterexample :
    (write putFaultLedger ["u1".toList, "v".toList]).1 = .Error "put failed".toList
    ∧ (write getFaultLedger ["u1".toList, "v".toList]).1 = .Success []
    ∧ (read (write getFaultLedger ["u1".toList, "v".toList]).2 ["u1".toList]).1
      = .Error "\x7b\"Error\":\"Failed to get state for u1\"\x7d".toList := by
  decide

/-- C14 (amended). For every store and every non-empty key and value:
`write` succeeds exactly when the store's put on that key and value does not
fail, whatever is stored under the key; when it succeeds it changes no other
key, the key holds the value, and a subsequent `read` returns exactly the
value when the store's get on the key does not fail. On every store `read`
of the key fails exactly when the get errors, returns the stored bytes
otherwise, and leaves the world state as it was. -/
theorem write_then_read (stub : Stub) (key value : Str) (hk : key ≠ []) (hv : value ≠ []) :
    ((write stub [key, value]).1 = .Success [] ↔ stub.putError key value = none)
    ∧ ((write stub [key, value]).1 = .Success [] →
        (∀ k, k ≠ key → (write stub [key, value]).2.state k = stub.state k)
        ∧ (write stub [key, value]).2.state key = value
        ∧ (stub.getError key = none →
            (read (write stub [key, value]).2 [key]).1 = .Success value))
    ∧ (∀ s : Stub, ((∃ e, (read s [key]).1 = .Error e) ↔ s.getError key ≠ none)
        ∧ (s.getError key = none → (read s [key]).1 = .Success (s.state key))
        ∧ (read s [key]).2.state = s.state) := by
  have hs : sanitize_arguments [key, value] = none :=
    (sanitize_none _).mpr (by simp [hk, hv])
  have hs1 : sanitize_arguments [key] = none :=
    (sanitize_none _).mpr (by simpa using hk)
  have hread : ∀ s : Stub, (read s [key]).1
      = (match s.getError key with
        | some _ => .Error ("\x7b\"Error\":\"Failed to get state for ".toList ++ key
            ++ "\"\x7d".toList)
        | none => .Success (s.state key))
      ∧ (read s [key]).2.state = s.state := by
    intro s
    unfold read Stub.GetState
    simp only [List.length_cons, List.length_nil, hs1, arg, List.getD_cons_zero]
    cases s.getError key <;> simp
  have hwrite : (write stub [key, value]).1
      = (match stub.putError key value with
        | some e => .Error e
        | none => .Success [])
      ∧ (write stub [key, value]).2.getError = stub.getError
      ∧ (stub.putError key value = none →
          (write stub [key, value]).2.state = fun k => if k = key then value else stub.state k)
      := by
    unfold write Stub.PutState
    simp only [List.length_cons, List.length_nil, hs, arg, List.getD_cons_zero,
      List.getD_cons_succ]
    cases stub.putError key value <;> simp [hk]
  obtain ⟨w1, w2, w3⟩ := hwrite
  refine ⟨?_, ?_, ?_⟩
  · rw [w1]
    cases stub.putError key value <;> simp
  · intro hok
    have hp : stub.putError key value = none := by
      rw [w1] at hok
      cases hp : stub.putError key value with
      | none => rfl
      | some e => rw [hp] at hok; cases hok
    have hst := w3 hp
    refine ⟨fun k hkk => by rw [hst]; simp [hkk], by rw [hst]; simp, fun hg => ?_⟩
    rw [(hread _).1, w2, hg, hst]
    simp
  · intro s
    refine ⟨?_, ?_, (hread s).2⟩
    · rw [(hread s).1]
      cases s.getError key <;> simp
    · intro hg
      rw [(hread s).1, hg]

/-- C14, witness: a value written under `k` on the empty ledger and read
back. -/
theorem write_then_read_witness :
    (write emptyLedger ["k".toList, "some bytes".toList]).1 = .Success []
    ∧ (read (write emptyLedger ["k".toList, "some bytes".toList]).2 ["k".toList]).1
      = .Success "some bytes".toList := by
  have h := write_then_read emptyLedger "k".toList "some bytes".toList (by decide) (by decide)
  have hs := h.1.mpr rfl
  exact ⟨hs, (h.2.1 hs).2.2 rfl⟩

/-- The run of `init_cert` once its checks have passed: the two puts. -/
theorem init_cert_checked (stub : Stub) (args : List Str) (u : University)
    (hl : args.length = 8) (hs : sanitize_arguments args = none)
    (hres : (get_university stub (arg args 6)).1 = .ok u)
    (hdoc : u.Document = arg args 7)
    (hnew : ∀ c, (get_certificate stub (arg args 0)).1 ≠ .ok c) :
    init_cert stub args =
      match Stub.PutState { stub with calls := stub.calls ++ [.GetState (arg args 6)]
          ++ [.GetState (arg args 0)] } (arg args 0)
          (certificateText (arg args 0) (arg args 1) (arg args 2) (arg args 3) (arg args 4)
            (arg args 5) (arg args 6) u.Dean u.UniversityName) with
      | (some err, s) => (.Error err, s)
      | (none, s) =>
        match s.PutState u.Id (json.MarshalUniversity
            { u with Certificates := append u.Certificates (arg args 0) }) with
        | (some err, s) => (.Error err, s)
        | (none, s) => (.Success [], s) := by
  have g2 := get_university_snd stub (arg args 6)
  have c2 := get_certificate_snd { stub with calls := stub.calls ++ [.GetState (arg args 6)] }
    (arg args 0)
  have c1 : (get_certificate
      { stub with calls := stub.calls ++ [.GetState (arg args 6)] } (arg args 0)).1
      = (get_certificate stub (arg args 0)).1 := get_certificate_congr _ _ _ rfl rfl
  unfold init_cert
  rcases hg : get_university stub (arg args 6) with ⟨r, s1⟩
  rw [hg] at hres g2
  simp only at hres g2
  subst hres
  subst g2
  rcases hc : get_certificate { stub with calls := stub.calls ++ [.GetState (arg args 6)] }
    (arg args 0) with ⟨rc, s2⟩
  rw [hc] at c1 c2
  simp only at c1 c2
  subst c2
  cases rc with
  | ok c => exact absurd c1.symm (hnew c)
  | error e =>
    simp only [hl, hs, hg, hc, ne_eq, not_true_eq_false, if_false]
    rw [if_neg (not_not.mpr hdoc)]

/-! ### C15 -/

set_option maxRecDepth 100000 in
/-- C15, counterexample. In the first ledger the record under `u1` has id
field `zz` and the put on `zz` fails: `init_cert` with certificate id `u1`
passes the checks, writes the certificate text over the university and
returns the error of the second put, after which `u1` no longer resolves.
In the second ledger the get on `c1` and the put on `u1` fail: `init_cert`
writes the certificate under `c1` and returns the error of the second put,
and a raw read of `c1` fails. -/
theorem init_cert_partial_failure_counterexample :
    (get_university strayPutFaultLedger "u1".toList).1 = .ok strayUniversity
    ∧ (init_cert strayPutFaultLedger argsOwnKey).1 = .Error "put failed".toList
    ∧ (get_university (init_cert strayPutFaultLedger argsOwnKey).2 "u1".toList).1
      = .error "University does not exist - u1, '' ''".toList
    ∧ (init_cert partialFaultLedger argsC1).1 = .Error "put failed".toList
    ∧ (init_cert partialFaultLedger argsC1).2.state "c1".toList = ledgerC1.state "c1".toList
    ∧ (read (init_cert partialFaultLedger argsC1).2 ["c1".toList]).1
      = .Error "\x7b\"Error\":\"Failed to get state for c1\"\x7d".toList := by
  decide

/-- C15 (amended). For every store and eight non-empty arguments that pass
the checks of `init_cert` (the university resolves, the document matches, no
certificate resolves under `id`), with `id` different from `universityId`
and a get that does not fail on `id`: if the put of the certificate succeeds
and the put of the university fails, `init_cert` returns an error, the store
holds the certificate text under `id` and every other key as before, the
university under `universityId` resolves to the record it resolved to before
the call, and a raw `read` of `id` succeeds with the certificate text. -/
theorem init_cert_partial_failure (stub : Stub)
    (id name document body city date universityId universityDocument : Str)
    (university : University)
    (hargs : ∀ a ∈ [id, name, document, body, city, date, universityId, universityDocument],
      a ≠ [])
    (hres : (get_university stub universityId).1 = .ok university)
    (hdoc : university.Document = universityDocument)
    (hnew : ∀ c, (get_certificate stub id).1 ≠ .ok c)
    (hne : id ≠ universityId)
    (hget : stub.getError id = none)
    (hput1 : stub.putError id (certificateText id name document body city date universityId
      university.Dean university.UniversityName) = none)
    (hput2 : university.Id = [] ∨ stub.putError university.Id (json.MarshalUniversity
      { university with Certificates := append university.Certificates id }) ≠ none) :
    (∃ e, (init_cert stub
        [id, name, document, body, city, date, universityId, universityDocument]).1
        = .Error e)
    ∧ (init_cert stub
        [id, name, document, body, city, date, universityId, universityDocument]).2.state id
      = certificateText id name document body city date universityId university.Dean
          university.UniversityName
    ∧ (∀ k, k ≠ id →
        (init_cert stub
          [id, name, document, body, city, date, universityId, universityDocument]).2.state k
        = stub.state k)
    ∧ (get_university (init_cert stub
        [id, name, document, body, city, date, universityId, universityDocument]).2
        universityId).1 = .ok university
    ∧ (read (init_cert stub
        [id, name, document, body, city, date, universityId, universityDocument]).2 [id]).1
      = .Success (certificateText id name document body city date universityId
          university.Dean university.UniversityName) := by
  have hid : id ≠ [] := hargs id (by simp)
  have hs := (sanitize_none _).mpr hargs
  have hs1 : sanitize_arguments [id] = none := (sanitize_none _).mpr (by simpa using hid)
  have run := init_cert_checked stub
    [id, name, document, body, city, date, universityId, universityDocument] university rfl hs
    hres hdoc hnew
  simp only [arg, List.getD_cons_zero, List.getD_cons_succ] at run
  generalize hS2 : ({ stub with calls := stub.calls ++ [.GetState universityId]
    ++ [.GetState id] } : Stub) = S2 at run
  obtain ⟨q1, q2, q3, q4, -⟩ := PutState_ok S2 id (certificateText id name document body city
    date universityId university.Dean university.UniversityName) hid
    (by rw [← hS2]; exact hput1)
  rcases hp1 : S2.PutState id (certificateText id name document body city date
    universityId university.Dean university.UniversityName) with ⟨e1, S3⟩
  rw [hp1] at q1 q2 q3 q4 run
  simp only at q1 q2 q3 q4 run
  subst q1
  simp only at run
  obtain ⟨e, r1, r2⟩ := PutState_fail S3 university.Id (json.MarshalUniversity
    { university with Certificates := append university.Certificates id })
    (by rw [q4, ← hS2]; exact hput2)
  have r3 := (PutState_getError S3 university.Id (json.MarshalUniversity
    { university with Certificates := append university.Certificates id })).1
  rcases hp2 : S3.PutState university.Id (json.MarshalUniversity
    { university with Certificates := append university.Certificates id }) with ⟨e2, S4⟩
  rw [hp2] at r1 r2 r3 run
  simp only at r1 r2 r3 run
  subst r1
  simp only at run
  have hst : S4.state = fun k => if k = id then certificateText id name document body city
      date universityId university.Dean university.UniversityName else stub.state k := by
    rw [r2, q2, ← hS2]
  have hge : S4.getError = stub.getError := by
    rw [r3, q3, ← hS2]
  rw [run]
  refine ⟨⟨e, rfl⟩, by simp [hst], fun k hk => by simp [hst, hk], ?_, ?_⟩
  · rw [← hres]
    apply get_university_congr_at
    · simp [hst, Ne.symm hne]
    · simp only [hge]
  · unfold read Stub.GetState
    simp only [List.length_cons, List.length_nil, hs1, arg, List.getD_cons_zero]
    simp [hge, hget, hst]

set_option maxRecDepth 100000 in
/-- C15, witness: the put on `u1` fails after certificate `c1` was
stored. -/
theorem init_cert_partial_failure_witness :
    (∃ e, (init_cert secondPutFaultLedger argsC1).1 = .Error e)
    ∧ (get_university (init_cert secondPutFaultLedger argsC1).2 "u1".toList).1
      = .ok universityU1
    ∧ (read (init_cert secondPutFaultLedger argsC1).2 ["c1".toList]).1
      = .Success (ledgerC1.state "c1".toList) := by
  have h := init_cert_partial_failure secondPutFaultLedger "c1".toList "Bob".toList
    "555".toList "body".toList "City".toList "2024".toList "u1".toList "111".toList
    universityU1 (by decide) (by decide) (by decide)
    (fun c hc => by
      have e : (get_certificate secondPutFaultLedger "c1".toList).1
          = .error "Certificate does not exist - c1".toList := by decide
      rw [e] at hc
      cases hc)
    (by decide) rfl rfl (Or.inr (by decide))
  refine ⟨h.1, h.2.2.2.1, h.2.2.2.2.trans ?_⟩
  decide

/-- A university record read as a certificate has the university's id, its
invalid bytes replaced. -/
theorem UnmarshalCertificate_MarshalUniversity_Id (u : University) (c : Certificate) :
    (json.UnmarshalCertificate (json.MarshalUniversity u) c).Id = utf8.toValid u.Id := by
  rw [UnmarshalCertificate_MarshalUniversity]

/-- The response of `init_cert` is an error or the empty success. -/
theorem init_cert_response (stub : Stub) (args : List Str) :
    (init_cert stub args).1 = .Success [] ∨ ∃ e, (init_cert stub args).1 = .Error e := by
  unfold init_cert
  simp only []
  repeat' split
  all_goals first | exact Or.inl rfl | exact Or.inr ⟨_, rfl⟩

end AionChainCode

namespace AionChainCode

/-- A key that is valid UTF-8 and holds a university record with that key as
id reads as a certificate that exists. -/
theorem get_certificate_of_university (s : Stub) (k : Str) (u : University)
    (hv : utf8.toValid k = k)
    (hget : s.getError k = none) (hst : s.state k = json.MarshalUniversity u) (hid : u.Id = k) :
    ∃ c, (get_certificate s k).1 = .ok c := by
  refine ⟨json.UnmarshalCertificate (s.state k) Certificate.zero, ?_⟩
  rw [get_certificate_ok]
  refine ⟨hget, rfl, ?_⟩
  rw [hst, UnmarshalCertificate_MarshalUniversity_Id, hid, hv]

/-- One call keeps a registered university's key, when it is valid UTF-8, a
university record with that key as id. -/
theorem Op.run_keeps_university (s : Stub) (op : Op) (k : Str)
    (hv : utf8.toValid k = k)
    (hget : s.getError k = none)
    (hreg : ∃ u, s.state k = json.MarshalUniversity u ∧ u.Id = k ∧ u.UniversityName ≠ []) :
    (Op.run s op).getError k = none
    ∧ ∃ u, (Op.run s op).state k = json.MarshalUniversity u ∧ u.Id = k
        ∧ u.UniversityName ≠ [] := by
  obtain ⟨u0, hst0, hid0, hname0⟩ := hreg
  cases op with
  | university args =>
    obtain ⟨hge, -, h | h⟩ := init_university_effect s args
    · exact ⟨by simp only [Op.run]; rw [hge]; exact hget,
        u0, by simp only [Op.run]; rw [h.2]; exact hst0, hid0, hname0⟩
    · obtain ⟨-, hl, hs, -, hst⟩ := h
      refine ⟨by simp only [Op.run]; rw [hge]; exact hget, ?_⟩
      simp only [Op.run]
      rw [hst]
      by_cases hk : k = arg args 0
      · have hlt : 2 < args.length := by omega
        exact ⟨⟨"university".toList, arg args 0, arg args 1, arg args 2, arg args 3, none⟩,
          by simp [hk], hk.symm, sanitize_arg_ne_nil args hs 2 hlt⟩
      · exact ⟨u0, by simp [hk, hst0], hid0, hname0⟩
  | dean args =>
    obtain ⟨hge, -, h | h⟩ := set_dean_effect s args
    · exact ⟨by simp only [Op.run]; rw [hge]; exact hget,
        u0, by simp only [Op.run]; rw [h.2]; exact hst0, hid0, hname0⟩
    · obtain ⟨-, -, -, -, u, hu, -, hst⟩ := h
      refine ⟨by simp only [Op.run]; rw [hge]; exact hget, ?_⟩
      simp only [Op.run]
      rw [hst]
      by_cases hk : k = arg args 0
      · obtain ⟨-, g2, g3⟩ := (get_university_ok s (arg args 0) u).mp hu
        rw [← hk, hst0, json.UnmarshalUniversity_Marshal] at g2
        subst g2
        exact ⟨{ u0.toValid with Dean := arg args 2 }, by simp [hk],
          by simp only [University.toValid, hid0, hv], g3⟩
      · exact ⟨u0, by simp [hk, hst0], hid0, hname0⟩
  | cert args =>
    obtain ⟨hge, -, h | ⟨u, hu, -, -, -, hnc, -, h | h⟩⟩ := init_cert_effect s args
    · exact ⟨by simp only [Op.run]; rw [hge]; exact hget,
        u0, by simp only [Op.run]; rw [h.2]; exact hst0, hid0, hname0⟩
    · obtain ⟨e, -, -, hst⟩ := h
      refine ⟨by simp only [Op.run]; rw [hge]; exact hget, ?_⟩
      simp only [Op.run]
      rw [hst]
      by_cases hk : k = arg args 0
      · exfalso
        obtain ⟨c, hc⟩ := get_certificate_of_university s k u0 hv hget hst0 hid0
        rw [hk] at hc
        exact hnc c hc
      · exact ⟨u0, by simp [hk, hst0], hid0, hname0⟩
    · obtain ⟨-, -, hst⟩ := h
      refine ⟨by simp only [Op.run]; rw [hge]; exact hget, ?_⟩
      simp only [Op.run]
      rw [hst]
      by_cases hk1 : k = u.Id
      · obtain ⟨-, -, g3⟩ := (get_university_ok s (arg args 6) u).mp hu
        exact ⟨{ u with Certificates := append u.Certificates (arg args 0) }, by simp [hk1],
          hk1.symm, g3⟩
      · by_cases hk : k = arg args 0
        · exfalso
          obtain ⟨c, hc⟩ := get_certificate_of_university s k u0 hv hget hst0 hid0
          rw [hk] at hc
          exact hnc c hc
        · exact ⟨u0, by simp [hk1, hk, hst0], hid0, hname0⟩

/-- A sequence of calls keeps a registered university's key, when it is
valid UTF-8, a university record with that key as id. -/
theorem runOps_keeps_university (ops : List Op) (s : Stub) (k : Str)
    (hv : utf8.toValid k = k)
    (hget : s.getError k = none)
    (hreg : ∃ u, s.state k = json.MarshalUniversity u ∧ u.Id = k ∧ u.UniversityName ≠ []) :
    (runOps s ops).getError k = none
    ∧ ∃ u, (runOps s ops).state k = json.MarshalUniversity u ∧ u.Id = k
        ∧ u.UniversityName ≠ [] := by
  induction ops generalizing s with
  | nil => exact ⟨hget, hreg⟩
  | cons op ops ih =>
    obtain ⟨h1, h2⟩ := Op.run_keeps_university s op k hv hget hreg
    exact ih (Op.run s op) h1 h2

/-! ### C16 -/

set_option maxRecDepth 100000 in
/-- C16, counterexample. First: certificate `c2` was issued and resolves;
`init_university` with id `c2` succeeds and writes a university record over
it. Second: after `init_university` of `u1` and an `init_cert` of `c1` whose
`body` argument carries an `id` member `u1`, `init_cert` of `c9` naming `c1`
as its university succeeds and writes the university it resolved under `c1`
over the record of the registered key `u1`. Third: a university is
registered under the key that is the byte `0xFF`, which is no UTF-8;
`init_cert` with that key as certificate id succeeds and writes the
certificate text over the university record. -/
theorem init_cert_rejects_university_key_counterexample :
    (get_certificate ledgerQuoted "c2".toList).1 = .ok certificateQuoted
    ∧ (init_university ledgerQuoted
        ["c2".toList, "Eva".toList, "Other U".toList, "222".toList]).1 = .Success []
    ∧ (init_university ledgerQuoted
        ["c2".toList, "Eva".toList, "Other U".toList, "222".toList]).2.state "c2".toList
      = json.MarshalUniversity
          ⟨"university".toList, "c2".toList, "Eva".toList, "Other U".toList, "222".toList,
            none⟩
    ∧ (get_certificate (init_university ledgerQuoted
        ["c2".toList, "Eva".toList, "Other U".toList, "222".toList]).2 "c2".toList).1
      ≠ .ok certificateQuoted
    ∧ (init_cert (runOps emptyLedger [.university argsU1]) argsInjectU1).1 = .Success []
    ∧ (get_university (runOps emptyLedger [.university argsU1, .cert argsInjectU1])
        "u1".toList).1
      = .ok { universityU1 with Certificates := some ["c1".toList] }
    ∧ (init_cert (runOps emptyLedger [.university argsU1, .cert argsInjectU1])
        argsViaC1).1 = .Success []
    ∧ (get_university (runOps emptyLedger
        [.university argsU1, .cert argsInjectU1, .cert argsViaC1]) "u1".toList).1
      = .ok ⟨"certificate".toList, "u1".toList, [], "Evil".toList, "d".toList,
          some ["c9".toList]⟩
    ∧ (init_university emptyLedger argsBadKey).1 = .Success []
    ∧ (runOps emptyLedger [.university argsBadKey]).state (arg argsBadKey 0)
      = json.MarshalUniversity
          ⟨"university".toList, arg argsBadKey 0, "Ana".toList, "N".toList, "1".toList, none⟩
    ∧ (init_cert (runOps emptyLedger [.university argsBadKey]) argsOnBadKey).1 = .Success []
    ∧ (runOps emptyLedger [.university argsBadKey, .cert argsOnBadKey]).state
        (arg argsBadKey 0)
      = certificateText (arg argsBadKey 0) "Bob".toList "1".toList "2".toList "3".toList
          "4".toList (arg argsBadKey 0) "Ana".toList "N".toList := by
  decide

/-- C16 (amended). Once `init_university` has registered a university under
`id`, a key that is valid UTF-8 and whose get does not fail, then after
every sequence of `init_university`, `init_cert` and `set_dean` calls, with
any arguments, the key still resolves as a university with that id, and
`init_cert` with that `id` as its certificate id fails: the certificate text
is never written over the key of a registered university. (The record under
the key can be replaced by another university record with that id, and
`init_university` checks only whether a university resolves under its
id.) -/
theorem init_cert_rejects_university_key (stub : Stub) (id dean name document : Str)
    (ops : List Op) (args : List Str)
    (hreg : (init_university stub [id, dean, name, document]).1 = .Success [])
    (hvalid : utf8.Valid id)
    (hget : stub.getError id = none)
    (hid : arg args 0 = id) :
    (∃ university,
      (get_university (runOps (init_university stub [id, dean, name, document]).2 ops) id).1
        = .ok university
      ∧ university.Id = id)
    ∧ ∃ e, (init_cert (runOps (init_university stub [id, dean, name, document]).2 ops) args).1
      = .Error e := by
  obtain ⟨hge, -, h | h⟩ := init_university_effect stub [id, dean, name, document]
  · exact absurd hreg h.1
  · obtain ⟨-, -, hs, -, hst⟩ := h
    have hname : name ≠ [] := by
      have := sanitize_arg_ne_nil _ hs 2 (by simp)
      simpa [arg] using this
    simp only [arg, List.getD_cons_zero, List.getD_cons_succ] at hst
    obtain ⟨g1, u, g2, g3, g4⟩ := runOps_keeps_university ops
      (init_university stub [id, dean, name, document]).2 id hvalid (by rw [hge]; exact hget)
      ⟨⟨"university".toList, id, dean, name, document, none⟩, by rw [hst]; simp, rfl, hname⟩
    constructor
    · refine ⟨u.toValid, ?_, ?_⟩
      · rw [get_university_ok]
        refine ⟨g1, ?_, fun h0 => g4 ((utf8.toValid_eq_nil _).mp h0)⟩
        rw [g2, json.UnmarshalUniversity_Marshal]
      · simp only [University.toValid, g3]
        exact hvalid
    · obtain ⟨c, hc⟩ := get_certificate_of_university _ id u hvalid g1 g2 g3
      rcases init_cert_response
        (runOps (init_university stub [id, dean, name, document]).2 ops) args with h | h
      · exfalso
        obtain ⟨-, -, -, -, -, hnc, -⟩ := init_cert_success _ args h
        rw [hid] at hnc
        exact hnc c hc
      · exact h

/-- C16, witness: `u1` is registered, a certificate is issued and the dean
changed; `init_cert` with certificate id `u1` fails. -/
theorem init_cert_rejects_university_key_witness :
    ∃ e, (init_cert (runOps (init_university emptyLedger argsU1).2
        [.cert argsQuoted, .dean ["u1".toList, "Ana".toList, "Eva".toList]])
        ["u1".toList, "Bob".toList, "1".toList, "2".toList, "3".toList, "4".toList,
         "u1".toList, "111".toList]).1 = .Error e :=
  (init_cert_rejects_university_key emptyLedger "u1".toList "Ana".toList "State U".toList
    "111".toList [.cert argsQuoted, .dean ["u1".toList, "Ana".toList, "Eva".toList]]
    ["u1".toList, "Bob".toList, "1".toList, "2".toList, "3".toList, "4".toList,
     "u1".toList, "111".toList] (by decide) (by decide) rfl rfl).2

/-! ### C17 -/

/-- C17, the code at the failing input: from the empty store, registering
`u1` and issuing certificate `c1` of the spec's scenario twice; both
issuances succeed and the certificates list of `u1` holds `c1` twice. -/
theorem certificates_list_has_duplicate :
    (init_cert (runOps emptyLedger [.university argsU1]) argsC1).1 = .Success []
    ∧ (init_cert (runOps emptyLedger [.university argsU1, .cert argsC1]) argsC1).1
      = .Success []
    ∧ (get_university (runOps emptyLedger [.university argsU1, .cert argsC1, .cert argsC1])
        "u1".toList).1
      = .ok { universityU1 with Certificates := some ["c1".toList, "c1".toList] }
    ∧ ¬ ["c1".toList, "c1".toList].Nodup := by
  decide

/-! ### C18 and C20: the loop of getHistory -/

/-- The loop of `getHistory` over versions read without error: one audit
entry per version, in order, each with the version's transaction id and
timestamp. -/
theorem getHistory_loop_ok (kms : List KeyModification) (u : University)
    (acc : Option (List AuditHistory)) :
    ∃ txs : List AuditHistory,
      List.Forall₂ (fun km tx => tx.TxId = km.TxId ∧ tx.Timestamp = km.Timestamp) kms txs
      ∧ getHistory.loop u acc (kms.map .ok)
        = .ok (if kms = [] then acc else some (acc.getD [] ++ txs)) := by
  induction kms generalizing u acc with
  | nil => exact ⟨[], .nil, rfl⟩
  | cons km rest ih =>
    obtain ⟨txs, hf, hl⟩ := ih
      (json.UnmarshalUniversity km.Value (json.UnmarshalUniversity km.Value u))
      (append acc ⟨km.TxId,
        json.UnmarshalUniversity km.Value (json.UnmarshalUniversity km.Value u),
        km.Timestamp⟩)
    refine ⟨⟨km.TxId, json.UnmarshalUniversity km.Value (json.UnmarshalUniversity km.Value u),
      km.Timestamp⟩ :: txs, .cons ⟨rfl, rfl⟩ hf, ?_⟩
    simp only [List.map_cons, getHistory.loop, hl]
    by_cases hr : rest = []
    · subst hr
      cases hf
      simp [append]
    · simp [hr, append]

/-- The loop of `getHistory` stops at the first error of the iterator. -/
theorem getHistory_loop_error (kms : List KeyModification) (err : Str)
    (rest : List (Except Str KeyModification)) (u : University)
    (acc : Option (List AuditHistory)) :
    getHistory.loop u acc (kms.map .ok ++ .error err :: rest) = .error err := by
  induction kms generalizing u acc with
  | nil => rfl
  | cons km more ih =>
    simp only [List.map_cons, List.cons_append, getHistory.loop]
    exact ih _ _

/-- The handler `getHistory` on one argument, in terms of its loop. -/
theorem getHistory_run (stub : Stub) (key : Str) :
    (getHistory stub [key]).1 =
      match stub.historyError key with
      | some e => .Error e
      | none =>
        match getHistory.loop University.zero none (stub.history key) with
        | .error err => .Error err
        | .ok history => .Success (json.MarshalHistory history) := by
  unfold getHistory Stub.GetHistoryForKey
  simp only [List.length_cons, List.length_nil, arg, List.getD_cons_zero, ne_eq,
    not_true_eq_false, if_false]
  cases stub.historyError key with
  | some e => rfl
  | none =>
    simp only
    cases getHistory.loop University.zero none (stub.history key) <;> rfl

end AionChainCode

namespace AionChainCode

/-! ### C18 -/

/-- C18, counterexample: the one version in the history of `u1` is no
JSON, so its decode reports an error; `getHistory` returns an audit list all
the same, its entry carrying the empty university. -/
theorem getHistory_aborts_counterexample :
    json.UnmarshalUniversityFails "not json".toList = true
    ∧ (getHistory undecodableLedger ["u1".toList]).1
      = .Success (json.MarshalHistory (some [⟨"tx1".toList, University.zero, 100⟩])) := by
  decide

/-- C18 (amended). For every history of a key, `getHistory` aborts with an
error and returns no audit list when opening the history fails and when the
iterator reports an error mid-iteration, the error being the iterator's; when
neither happens it returns an audit list, whatever the bytes of the
versions: bytes that do not decode as a University do not abort it. -/
theorem getHistory_aborts (stub : Stub) (key : Str) :
    (∀ e, stub.historyError key = some e → (getHistory stub [key]).1 = .Error e)
    ∧ (stub.historyError key = none →
        ∀ (kms : List KeyModification) (err : Str) (rest : List (Except Str KeyModification)),
          stub.history key = kms.map .ok ++ .error err :: rest →
          (getHistory stub [key]).1 = .Error err)
    ∧ (stub.historyError key = none →
        ∀ kms : List KeyModification, stub.history key = kms.map .ok →
          ∃ payload, (getHistory stub [key]).1 = .Success payload) := by
  refine ⟨?_, ?_, ?_⟩
  · intro e he
    rw [getHistory_run, he]
  · intro ho kms err rest hh
    rw [getHistory_run, ho, hh, getHistory_loop_error]
  · intro ho kms hh
    obtain ⟨txs, -, hl⟩ := getHistory_loop_ok kms University.zero none
    rw [getHistory_run, ho, hh, hl]
    exact ⟨_, rfl⟩

/-! ### C19 -/

/-- C19, counterexample: the function name `init` is none of the seven
operations; `Invoke` routes it to `Init`, which writes the self-test
variable. -/
theorem Invoke_routes_counterexample :
    (Invoke emptyLedger "init".toList ["42".toList]).1 = .Success []
    ∧ (Invoke emptyLedger "init".toList ["42".toList]).2.state "selftest".toList
      = "42".toList
    ∧ (Invoke emptyLedger "init".toList ["42".toList]).2.calls
      = [.PutState "selftest".toList "42".toList] := by
  decide

/-- C19 (amended). `Invoke` routes each of the seven operation names to its
handler and the name `init` to `Init`; for every other function name it
returns the unknown-function error with no call made on the stub. -/
theorem Invoke_routes (stub : Stub) (function : Str) (args : List Str) :
    (function = "read".toList → Invoke stub function args = read stub args)
    ∧ (function = "write".toList → Invoke stub function args = write stub args)
    ∧ (function = "init_cert".toList → Invoke stub function args = init_cert stub args)
    ∧ (function = "init_university".toList →
        Invoke stub function args = init_university stub args)
    ∧ (function = "set_dean".toList → Invoke stub function args = set_dean stub args)
    ∧ (function = "read_everything".toList →
        Invoke stub function args = read_all_certificates_from_university stub args)
    ∧ (function = "getUniversityHistory".toList →
        Invoke stub function args = getHistory stub args)
    ∧ (function = "init".toList → Invoke stub function args = Init stub args)
    ∧ (function ∉ ["init".toList, "read".toList, "write".toList, "init_cert".toList,
          "set_dean".toList, "init_university".toList, "read_everything".toList,
          "getUniversityHistory".toList] →
        Invoke stub function args
          = (.Error ("Received unknown invoke function name - '".toList ++ function
              ++ "'".toList), stub)) := by
  refine ⟨?_, ?_, ?_, ?_, ?_, ?_, ?_, ?_, ?_⟩
  · rintro rfl; rfl
  · rintro rfl; rfl
  · rintro rfl; rfl
  · rintro rfl; rfl
  · rintro rfl; rfl
  · rintro rfl; rfl
  · rintro rfl; rfl
  · rintro rfl; rfl
  · intro h
    simp only [List.mem_cons, List.mem_singleton, List.not_mem_nil, or_false, not_or] at h
    obtain ⟨h1, h2, h3, h4, h5, h6, h7, h8⟩ := h
    unfold Invoke
    rw [if_neg h1, if_neg h2, if_neg h3, if_neg h4, if_neg h5, if_neg h6, if_neg h7,
      if_neg h8]

/-! ### C20 -/

/-- C20. For every key whose history opens and whose iterator yields the
versions `kms` without error, `getHistory` returns the encoding of exactly
one audit entry per version, in the order of the versions (the nil list for
no version), the i-th entry carrying the i-th version's transaction id and
timestamp seconds. -/
theorem getHistory_one_entry_per_version (stub : Stub) (key : Str)
    (kms : List KeyModification)
    (hopen : stub.historyError key = none)
    (hist : stub.history key = kms.map .ok) :
    ∃ txs : List AuditHistory,
      (getHistory stub [key]).1
        = .Success (json.MarshalHistory (if kms = [] then none else some txs))
      ∧ txs.length = kms.length
      ∧ List.Forall₂ (fun km tx => tx.TxId = km.TxId ∧ tx.Timestamp = km.Timestamp)
          kms txs := by
  obtain ⟨txs, hf, hl⟩ := getHistory_loop_ok kms University.zero none
  refine ⟨txs, ?_, hf.length_eq.symm, hf⟩
  rw [getHistory_run, hopen, hist, hl]
  simp

/-- C20, witness: the history of `u1` with one write and one deletion. -/
theorem getHistory_one_entry_per_version_witness :
    ∃ txs : List AuditHistory,
      (getHistory deletedLedger ["u1".toList]).1 = .Success (json.MarshalHistory (some txs))
      ∧ txs.map (fun tx => (tx.TxId, tx.Timestamp))
        = [("tx1".toList, 100), ("tx2".toList, 200)] := by
  obtain ⟨txs, h1, -, h3⟩ := getHistory_one_entry_per_version deletedLedger "u1".toList
    [⟨"tx1".toList, json.MarshalUniversity universityU1, 100, false⟩,
     ⟨"tx2".toList, [], 200, true⟩] rfl rfl
  refine ⟨txs, by simpa using h1, ?_⟩
  cases h3 with
  | cons ha hrest =>
    cases hrest with
    | cons hb hnil =>
      cases hnil
      simp [ha.1, ha.2, hb.1, hb.2]

/-! ### C21 -/

set_option maxRecDepth 100000 in
/-- C21, the code at the failing input: the second version of `u1` holds a
name and no other field; its audit entry carries the id, dean and document
of the first version, not the empty fields a fresh decode of its bytes
gives. -/
theorem getHistory_carries_fields_over :
    (getHistory carryLedger ["u1".toList]).1
      = .Success (json.MarshalHistory (some
          [⟨"tx1".toList, universityU1, 100⟩,
           ⟨"tx2".toList, { universityU1 with UniversityName := "B".toList }, 200⟩]))
    ∧ json.UnmarshalUniversity namedRecord University.zero
      = { University.zero with UniversityName := "B".toList }
    ∧ ({ universityU1 with UniversityName := "B".toList } : University)
      ≠ { University.zero with UniversityName := "B".toList } := by
  decide

/-- An error of `sanitize_arguments` starts with the letter A. -/
theorem sanitize_error_head (args : List Str) (err : Str)
    (h : sanitize_arguments args = some err) : err.head? = some 'A' := by
  have hne : ¬ ∀ s ∈ args, s ≠ [] := by
    intro hall
    rw [(sanitize_none args).mpr hall] at h
    cases h
  obtain ⟨i, -, -, -, hl⟩ := sanitize_loop_some args 0 hne
  have : sanitize_arguments args = sanitize_arguments.loop 0 args := rfl
  rw [this, hl] at h
  injection h with h
  rw [← h]
  rfl

/-- An error of `get_university` starts with the letter F or the letter U. -/
theorem get_university_error_head (stub : Stub) (id : Str) (err : Str)
    (h : (get_university stub id).1 = .error err) :
    err.head? = some 'F' ∨ err.head? = some 'U' := by
  rw [get_university_fst] at h
  split at h
  · injection h with h
    left
    rw [← h]
    rfl
  · split at h
    · injection h with h
      right
      rw [← h]
      rfl
    · cases h

/-! ### C22 -/

/-- C22. In `set_dean` the failure "Provided new dean is the current dean"
is unreachable: for every store and argument list `set_dean` does what the
handler without that check does, since an execution that reaches the check
has `oldDean ≠ newDean` and the stored dean equal to `oldDean`; and
`set_dean` returns no error with that message, unless the store's put fails
with it. -/
theorem set_dean_check_unreachable (stub : Stub) (args : List Str) :
    set_dean stub args = set_dean_unchecked stub args
    ∧ ((∀ value, stub.putError (arg args 0) value
          ≠ some "Provided new dean is the current dean".toList) →
        (set_dean stub args).1 ≠ .Error "Provided new dean is the current dean".toList) := by
  have heq : set_dean stub args = set_dean_unchecked stub args := by
    unfold set_dean set_dean_unchecked
    by_cases hl : args.length = 3
    swap
    · simp [hl]
    cases hs : sanitize_arguments args with
    | some e => simp [hl]
    | none =>
      by_cases hd : arg args 1 = arg args 2
      · simp [hl, hd]
      rcases hg : get_university stub (arg args 0) with ⟨r, s1⟩
      cases r with
      | error e => simp [hl, hd, hg]
      | ok u =>
        by_cases h1 : u.Dean = arg args 1
        · have h2 : ¬ u.Dean = arg args 2 := by rw [h1]; exact hd
          simp only [hl, hd, hg, ne_eq, not_true_eq_false, if_false]
          rw [if_neg (not_not.mpr h1), if_neg h2, if_neg (not_not.mpr h1)]
        · simp [hl, hd, hg, h1]
  refine ⟨heq, fun hput => ?_⟩
  rw [heq]
  unfold set_dean_unchecked
  by_cases hl : args.length = 3
  swap
  · simp only [hl, ne_eq, not_false_eq_true, if_true]
    decide
  cases hs : sanitize_arguments args with
  | some e =>
    simp only [hl, ne_eq, not_true_eq_false, if_false]
    intro h
    injection h with h
    have := sanitize_error_head args e hs
    rw [h] at this
    exact absurd this (by decide)
  | none =>
    simp only [hl, ne_eq, not_true_eq_false, if_false]
    by_cases hd : arg args 1 = arg args 2
    · rw [if_pos hd]
      intro h
      injection h with h
      have := congrArg List.head? h
      simp at this
    rw [if_neg hd]
    have g2 := get_university_snd stub (arg args 0)
    have gh := get_university_error_head stub (arg args 0)
    rcases hg : get_university stub (arg args 0) with ⟨r, s1⟩
    rw [hg] at g2 gh
    simp only at g2 gh
    subst g2
    cases r with
    | error e =>
      simp only
      intro h
      injection h with h
      rcases gh e rfl with h2 | h2 <;>
      · rw [h] at h2
        exact absurd h2 (by decide)
    | ok u =>
      simp only
      by_cases h1 : u.Dean = arg args 1
      swap
      · rw [if_pos h1]
        intro h
        injection h with h
        have := congrArg List.length h
        simp at this
      rw [if_neg (not_not.mpr h1)]
      generalize hS : ({ stub with calls := stub.calls ++ [.GetState (arg args 0)] } : Stub)
        = S
      have q := PutState_fails S (arg args 0)
        (json.MarshalUniversity { u with Dean := arg args 2 })
      rcases hp : S.PutState (arg args 0)
        (json.MarshalUniversity { u with Dean := arg args 2 }) with ⟨e1, S2⟩
      rw [hp] at q
      simp only at q
      cases e1 with
      | none =>
        simp only
        intro h
        cases h
      | some e =>
        simp only
        intro h
        injection h with h
        rcases q e rfl with h0 | h0
        · exact sanitize_arg_ne_nil args hs 0 (by omega) h0
        · rw [← hS] at h0
          simp only at h0
          rw [h] at h0
          exact hput _ h0

/-! ### C23 -/

set_option maxRecDepth 100000 in
/-- C23, the code at the failing input: from the empty store,
`init_university` of `u1` and then `init_cert` with a `body` argument that
closes its JSON value and carries members `universityname`, `id` and
`document` both succeed; in the store they leave, `get_university` resolves
key `c1` as a university whose id is `other`, not `c1`; and a further
`init_cert` naming `c1` as its university succeeds and writes the university
record under key `other`, while the value under key `c1` stays what it
was. -/
theorem init_cert_injection_breaks_key_invariant :
    (init_university emptyLedger argsU1).1 = .Success []
    ∧ (init_cert (runOps emptyLedger [.university argsU1]) argsInject).1 = .Success []
    ∧ (get_university (runOps emptyLedger [.university argsU1, .cert argsInject])
        "c1".toList).1 = .ok injectedUniversity
    ∧ injectedUniversity.Id ≠ "c1".toList
    ∧ (init_cert (runOps emptyLedger [.university argsU1, .cert argsInject])
        argsViaC1).1 = .Success []
    ∧ (runOps emptyLedger [.university argsU1, .cert argsInject, .cert argsViaC1]).state
        "other".toList
        = json.MarshalUniversity
            { injectedUniversity with Certificates := some ["c9".toList] }
    ∧ (runOps emptyLedger [.university argsU1, .cert argsInject]).state "other".toList = []
    ∧ (runOps emptyLedger [.university argsU1, .cert argsInject, .cert argsViaC1]).state
        "c1".toList
        = (runOps emptyLedger [.university argsU1, .cert argsInject]).state "c1".toList := by
  decide

/-! ### Handlers that fail leave the world state as it was -/

/-- An error of `write` leaves the world state as it was. -/
theorem write_error_keeps_state (stub : Stub) (args : List Str) (e : Str)
    (h : (write stub args).1 = .Error e) : (write stub args).2.state = stub.state := by
  unfold write at h ⊢
  split
  · rfl
  · rename_i hl
    rw [if_neg hl] at h
    cases hs : sanitize_arguments args with
    | some err => rfl
    | none =>
      rw [hs] at h
      simp only at h ⊢
      have q := PutState_some stub (arg args 0) (arg args 1)
      rcases hp : stub.PutState (arg args 0) (arg args 1) with ⟨e1, s1⟩
      rw [hp] at h q
      cases e1 with
      | none => cases h
      | some err => exact q err rfl

/-- The handler `read` leaves the world state as it was. -/
theorem read_keeps_state (stub : Stub) (args : List Str) :
    (read stub args).2.state = stub.state := by
  unfold read Stub.GetState
  split
  · rfl
  · cases sanitize_arguments args with
    | some err => rfl
    | none =>
      simp only
      cases stub.getError (arg args 0) <;> rfl

/-- The loop of `read_all_certificates_from_university` leaves the world
state as it was. -/
theorem read_loop_keeps_state (ids : List Str) (stub : Stub) (ev : Everything) :
    (read_all_certificates_from_university.loop stub ev ids).2.state = stub.state := by
  induction ids generalizing stub ev with
  | nil => rfl
  | cons id rest ih =>
    unfold read_all_certificates_from_university.loop
    have g := get_certificate_snd stub id
    rcases hg : get_certificate stub id with ⟨r, s1⟩
    rw [hg] at g
    simp only at g
    subst g
    cases r with
    | error e => rfl
    | ok c =>
      simp only
      rw [ih]

/-- The handler `read_all_certificates_from_university` leaves the world
state as it was. -/
theorem read_all_keeps_state (stub : Stub) (args : List Str) :
    (read_all_certificates_from_university stub args).2.state = stub.state := by
  unfold read_all_certificates_from_university
  split
  · rfl
  · cases sanitize_arguments args with
    | some err => rfl
    | none =>
      simp only
      have g := get_university_snd stub (arg args 0)
      rcases hg : get_university stub (arg args 0) with ⟨r, s1⟩
      rw [hg] at g
      simp only at g
      subst g
      cases r with
      | error e => rfl
      | ok u =>
        simp only
        split
        · rename_i s2 heq
          have : s2.state = stub.state := by
            split at heq
            · have := read_loop_keeps_state (u.Certificates.getD [])
                { stub with calls := stub.calls ++ [.GetState (arg args 0)] } ⟨none⟩
              rw [heq] at this
              exact this
            · cases heq
          exact this
        · rename_i ev s2 heq
          have : s2.state = stub.state := by
            split at heq
            · have := read_loop_keeps_state (u.Certificates.getD [])
                { stub with calls := stub.calls ++ [.GetState (arg args 0)] } ⟨none⟩
              rw [heq] at this
              exact this
            · cases heq
              rfl
          exact this

/-- The handler `getHistory` leaves the world state as it was. -/
theorem getHistory_keeps_state (stub : Stub) (args : List Str) :
    (getHistory stub args).2.state = stub.state := by
  unfold getHistory Stub.GetHistoryForKey Stub.Close
  split
  · rfl
  · simp only
    cases stub.historyError (arg args 0) with
    | some e => rfl
    | none =>
      simp only
      cases getHistory.loop University.zero none (stub.history (arg args 0)) <;> rfl

/-! ### C24 -/

/-- C24. With a failed put leaving the world state as it was (the stub's
`PutState`): when `init_university`, `set_dean`, `write`, `read`,
`read_all_certificates_from_university` (the function `read_everything`) or
`getHistory` returns an error, the world state after the call is the world
state before it; and when `init_cert` returns an error, either the world
state after the call is the world state before it, or the error is the
failure of its second put: the university was found, the arguments and the
document passed the checks, no certificate was stored under the id, the
first put succeeded, and the put of the university under its stored id
failed with the error returned. -/
theorem error_keeps_state (stub : Stub) (args : List Str) (e : Str) :
    ((init_university stub args).1 = .Error e →
        (init_university stub args).2.state = stub.state)
    ∧ ((set_dean stub args).1 = .Error e → (set_dean stub args).2.state = stub.state)
    ∧ ((write stub args).1 = .Error e → (write stub args).2.state = stub.state)
    ∧ ((read stub args).1 = .Error e → (read stub args).2.state = stub.state)
    ∧ ((read_all_certificates_from_university stub args).1 = .Error e →
        (read_all_certificates_from_university stub args).2.state = stub.state)
    ∧ ((getHistory stub args).1 = .Error e → (getHistory stub args).2.state = stub.state)
    ∧ ((init_cert stub args).1 = .Error e →
        (init_cert stub args).2.state = stub.state
        ∨ ∃ u, (get_university stub (arg args 6)).1 = .ok u
          ∧ args.length = 8 ∧ sanitize_arguments args = none
          ∧ u.Document = arg args 7
          ∧ (∀ c, (get_certificate stub (arg args 0)).1 ≠ .ok c)
          ∧ stub.putError (arg args 0)
              (certificateText (arg args 0) (arg args 1) (arg args 2) (arg args 3)
                (arg args 4) (arg args 5) (arg args 6) u.Dean u.UniversityName) = none
          ∧ (u.Id = [] ∨ stub.putError u.Id (json.MarshalUniversity
              { u with Certificates := append u.Certificates (arg args 0) }) = some e)) := by
  refine ⟨?_, ?_, write_error_keeps_state stub args e, fun _ => read_keeps_state stub args,
    fun _ => read_all_keeps_state stub args, fun _ => getHistory_keeps_state stub args, ?_⟩
  · intro h
    rcases (init_university_effect stub args).2.2 with h1 | h1
    · exact h1.2
    · rw [h1.1] at h
      cases h
  · intro h
    rcases (set_dean_effect stub args).2.2 with h1 | h1
    · exact h1.2
    · rw [h1.1] at h
      cases h
  · intro h
    rcases (init_cert_effect stub args).2.2 with h1 | ⟨u, hu, hl, hs, hd, hc, hp, h2⟩
    · exact Or.inl h1.2
    · rcases h2 with ⟨e2, he2, hput, -⟩ | ⟨hsucc, -, -⟩
      · rw [he2] at h
        injection h with h
        subst h
        exact Or.inr ⟨u, hu, hl, hs, hd, hc, hp, hput⟩
      · rw [hsucc] at h
        cases h

set_option maxRecDepth 100000 in
/-- C24 at concrete inputs: `set_dean` with an old dean that is not the
stored one, and `init_cert` whose first put fails, return their errors and
leave the world state as it was. -/
theorem error_keeps_state_witness :
    (set_dean ledgerU1 ["u1".toList, "Bob".toList, "Eve".toList]).1
      = .Error "Provided old dean isn't the current dean".toList
    ∧ (set_dean ledgerU1 ["u1".toList, "Bob".toList, "Eve".toList]).2.state = ledgerU1.state
    ∧ (init_cert firstPutFaultLedger argsC1).1 = .Error "put failed".toList
    ∧ (init_cert firstPutFaultLedger argsC1).2.state = firstPutFaultLedger.state :=
  ⟨by decide,
   (error_keeps_state ledgerU1 ["u1".toList, "Bob".toList, "Eve".toList]
     "Provided old dean isn't the current dean".toList).2.1 (by decide),
   by decide,
   ((error_keeps_state firstPutFaultLedger argsC1 "put failed".toList).2.2.2.2.2.2 (by decide)).resolve_right
     (by
       rintro ⟨u, -, -, -, -, -, hp, -⟩
       exact absurd hp (by simp [firstPutFaultLedger, argsC1, arg]))⟩

end AionChainCode
